import Mathlib

/-!
# Kdenlive timeline model: `src/timeline2/model/timelinemodel.cpp`

A shallow embedding of `TimelineModel` and of the parts of its collaborators that
the mutating requests go through.

* Object state reached through `this` becomes an explicit `TimelineModel` value that
  every operation takes and returns.
* The closures of type `std::function<bool (void)>` become state transformers `Fun`.
* A failed `Q_ASSERT` of a debug build, the dereference of a null `shared_ptr` or of a
  singular iterator, and `std::out_of_range` are the `Fault`s an operation can end in.
* `Q_ASSERT(cond)` is the Qt macro: it evaluates `cond` and aborts when it is false in a
  debug build, and expands to `static_cast<void>(false && (cond))` when `QT_NO_DEBUG`
  is defined, so that `cond` is not evaluated at all.  The flag `dbg` of the operations
  is `true` for a debug build and `false` for a build with `QT_NO_DEBUG`.
* `TrackModel`, `ClipModel`, `GroupsModel` and the macro `UPDATE_UNDO_REDO` are declared
  outside the files at hand; what is needed of them is modelled from the specification
  and marked as such.
-/

namespace Kdenlive

/-- Abnormal ends of an operation. -/
inductive Fault where
  /-- `Q_ASSERT` failed in a debug build: `qt_assert` aborts the program. -/
  | assertion
  /-- Undefined behaviour: a null `shared_ptr` or a singular or past-the-end iterator
  is dereferenced. -/
  | undefined
  /-- The exception `std::out_of_range` thrown by `unordered_map::at`. -/
  | outOfRange
  deriving DecidableEq, Repr

/-- Modelled from the spec: the part of the class `ClipModel` (clipmodel.hpp) the timeline
reads and writes: "identity (unique integer id ...), duration/out-point, ..., current
owning-track id (−1 if unplaced)".  The start frame of a placed clip is kept by the
placement on its track. -/
structure ClipModel where
  /-- Value of `getId()`. -/
  id : Int
  /-- Value of `getCurrentTrackId()`, `-1` for an unplaced clip. -/
  currentTrackId : Int
  /-- Value of `getPlaytime()`, the duration in frames. -/
  playtime : Int
  deriving DecidableEq, Repr

/-- Modelled from the spec: one clip placement of a track, "keyed by position"; it covers
the frames `[position, position + duration)`. -/
structure Placement where
  cid : Int
  position : Int
  duration : Int
  deriving DecidableEq, Repr

/-- Modelled from the spec: the class `TrackModel` (trackmodel.hpp): "identity (unique
integer id), an ordered collection of clip placements keyed by position". -/
structure TrackModel where
  /-- Value of `getId()`. -/
  id : Int
  /-- The placements, in the order of their positions. -/
  placements : List Placement
  deriving DecidableEq, Repr

/-- Modelled from the spec: the class `GroupsModel` (groupsmodel.hpp): it "maps each clip
(and group) id to an optional parent group id, forming a forest"; the parent `-1` stands
for "no parent". -/
structure GroupsModel where
  upLink : List (Int × Int)
  deriving DecidableEq, Repr

/-- The members of `TimelineModel`.

* `tractor`: the tracks of `m_tractor` (the composition graph), in its order; a track is
  named by the list node that owns it.
* `allTracks`: `m_allTracks`, a `std::list<std::unique_ptr<TrackModel>>`; each element
  is paired with the identity (address) of its list node, which is what a list iterator
  denotes and what stays valid when other elements are inserted or erased.
* `iteratorTable`: `m_iteratorTable`, from track id to list iterator.
* `allClips`: `m_allClips`, from clip id to clip.
* `allGroups`: `m_allGroups`.
* `groups`: `m_groups`.
* `nextNode`: the next unused list node identity. -/
structure TimelineModel where
  tractor : List Nat
  allTracks : List (Nat × TrackModel)
  iteratorTable : List (Int × Nat)
  allClips : List (Int × ClipModel)
  allGroups : List Int
  groups : GroupsModel
  nextNode : Nat
  deriving DecidableEq, Repr

/-- A closure `std::function<bool (void)>` that captured `this`: it acts on the model and
returns a `bool`, unless it ends in a fault. -/
abbrev Fun := TimelineModel → Except Fault (Bool × TimelineModel)

/-- The closure `[](){return true;}`. -/
def Fun.id : Fun := fun m => .ok (true, m)

/-- Modelled from the spec: `FunctionalUndoCommand(undo, redo, text)` (doc/docundostack.hpp),
one history entry: a "(undo-closure, redo-closure, label)" triple. -/
structure FunctionalUndoCommand where
  undo : Fun
  redo : Fun
  text : String

/-- Modelled from the spec: the `DocUndoStack`, the entries pushed so far, newest first. -/
abbrev DocUndoStack := List FunctionalUndoCommand

/-! ## Associative containers -/

/-- Value of `map.count(k) > 0` and of `map.find(k)`: the value stored under `k`. -/
def mapFind {α : Type} (k : Int) : List (Int × α) → Option α
  | [] => none
  | (k', v) :: rest => if k' = k then some v else mapFind k rest

/-- Effect of `map[k] = v`. -/
def mapAssign {α : Type} (k : Int) (v : α) : List (Int × α) → List (Int × α)
  | [] => [(k, v)]
  | (k', v') :: rest => if k' = k then (k, v) :: rest else (k', v') :: mapAssign k v rest

/-- Effect of `map.erase(k)`. -/
def mapErase {α : Type} (k : Int) : List (Int × α) → List (Int × α)
  | [] => []
  | (k', v) :: rest => if k' = k then rest else (k', v) :: mapErase k rest

/-- Effect of a member function called through `map[k]->` when `k` is present: the stored
object is updated in place. -/
def mapModify {α : Type} (k : Int) (f : α → α) : List (Int × α) → List (Int × α)
  | [] => []
  | (k', v) :: rest => if k' = k then (k', f v) :: rest else (k', v) :: mapModify k f rest

/-- The element owned by the list node `node`. -/
def nodeFind (node : Nat) : List (Nat × TrackModel) → Option TrackModel
  | [] => none
  | (n, t) :: rest => if n = node then some t else nodeFind node rest

/-- Update in place of the element owned by the list node `node`. -/
def nodeModify (node : Nat) (f : TrackModel → TrackModel) :
    List (Nat × TrackModel) → List (Nat × TrackModel)
  | [] => []
  | (n, t) :: rest => if n = node then (n, f t) :: rest else (n, t) :: nodeModify node f rest

/-! ## Tracks (modelled from the specification) -/

/-- Modelled from the spec: the overlap test of `TrackModel`: the half-open frame ranges
`[position, position + duration)` of two placements share a frame. -/
def Placement.overlaps (a b : Placement) : Bool :=
  decide (max a.position b.position < min (a.position + a.duration) (b.position + b.duration))

/-- Modelled from the spec: the placement of clip `cid` in the "ordered collection of clip
placements" of a `TrackModel`, when the clip is on the track. -/
def findPlacement (cid : Int) : List Placement → Option Placement
  | [] => none
  | q :: qs => if q.cid = cid then some q else findPlacement cid qs

/-- Modelled from the spec: the "remove" step of `TrackModel`: the placement of clip `cid`
is taken out of the collection. -/
def erasePlacement (cid : Int) : List Placement → List Placement
  | [] => []
  | q :: qs => if q.cid = cid then qs else q :: erasePlacement cid qs

/-- Modelled from the spec: the "insert" step of `TrackModel`: the placement is put into
the collection "keyed by position", before the first placement that starts later or at
the same frame. -/
def insertPlacement (p : Placement) : List Placement → List Placement
  | [] => [p]
  | q :: qs => if p.position ≤ q.position then p :: q :: qs else q :: insertPlacement p qs

/-- A member function of the `TrackModel` owned by list node `node` is run on the model. -/
def onTrack (node : Nat) (f : List Placement → List Placement) (m : TimelineModel) :
    TimelineModel :=
  { m with
    allTracks :=
      nodeModify node (fun t => { t with placements := f t.placements }) m.allTracks }

/-- Sequencing of two closures: `first` runs, then `second`, and the results are joined
as in `bool v = first(); return second() && v;`. -/
def Fun.andThen (first second : Fun) : Fun := fun m =>
  match first m with
  | .error e => .error e
  | .ok (v, m1) =>
    match second m1 with
    | .error e => .error e
    | .ok (u, m2) => .ok (u && v, m2)

/-- Modelled from the spec: the macro `UPDATE_UNDO_REDO(operation, reverse, undo, redo)`
(defined outside the files at hand): "each new step wraps the prior undo/redo so that
replaying undo restores state in reverse chronological order, and replaying redo reapplies
in original order".  The result is the new pair `(undo, redo)`. -/
def UPDATE_UNDO_REDO (operation reverse undo redo : Fun) : Fun × Fun :=
  (reverse.andThen undo, redo.andThen operation)

/-- Modelled from the spec: the reversible "remove" step of a track, as a closure: the
placement of clip `cid` leaves the track owned by `node`. -/
def TrackModel.removeStep (node : Nat) (cid : Int) : Fun :=
  fun s => .ok (true, onTrack node (erasePlacement cid) s)

/-- Modelled from the spec: the reversible "insert" step of a track, as a closure: the
placement `p` enters the track owned by `node`. -/
def TrackModel.insertStep (node : Nat) (p : Placement) : Fun :=
  fun s => .ok (true, onTrack node (insertPlacement p) s)

/-- Modelled from the spec: `TrackModel::requestClipDeletion(cid, undo, redo)` on the track
owned by `node`: it "removes the placement if present; appends reversible steps; no-op
failure if the clip is not on this track".  The result is the returned `bool`, the updated
`undo` and `redo`, and the model. -/
def TrackModel.requestClipDeletion (node : Nat) (cid : Int) (undo redo : Fun)
    (m : TimelineModel) : Bool × Fun × Fun × TimelineModel :=
  match nodeFind node m.allTracks with
  | none => (false, undo, redo, m)
  | some t =>
    match findPlacement cid t.placements with
    | none => (false, undo, redo, m)
    | some p =>
      let operation := TrackModel.removeStep node cid
      let reverse := TrackModel.insertStep node p
      let ur := UPDATE_UNDO_REDO operation reverse undo redo
      (true, ur.1, ur.2, onTrack node (erasePlacement cid) m)

/-- Modelled from the spec: `TrackModel::requestClipInsertion(clip, position, undo, redo)`
on the track owned by `node`: it "succeeds only if `[position, position+duration)` does not
overlap any existing placement on this track; appends reversible steps (insert/remove) to
the accumulating undo/redo closures; returns false without mutating on overlap". -/
def TrackModel.requestClipInsertion (node : Nat) (clip : ClipModel) (position : Int)
    (undo redo : Fun) (m : TimelineModel) : Bool × Fun × Fun × TimelineModel :=
  match nodeFind node m.allTracks with
  | none => (false, undo, redo, m)
  | some t =>
    let p : Placement := ⟨clip.id, position, clip.playtime⟩
    if t.placements.any (fun q => p.overlaps q) then (false, undo, redo, m)
    else
      let operation := TrackModel.insertStep node p
      let reverse := TrackModel.removeStep node clip.id
      let ur := UPDATE_UNDO_REDO operation reverse undo redo
      (true, ur.1, ur.2, onTrack node (insertPlacement p) m)

/-! ## `TimelineModel` -/

/-- The macro `PUSH_UNDO(undo, redo, text)`: `m_undoStack` is a `weak_ptr`; `none` is an
expired one, for which the macro logs an error and runs `Q_ASSERT(false)`. -/
def PUSH_UNDO (dbg : Bool) (stack : Option DocUndoStack) (undo redo : Fun) (text : String) :
    Except Fault (Option DocUndoStack) :=
  match stack with
  | some entries => .ok (some (⟨undo, redo, text⟩ :: entries))
  | none => if dbg then .error .assertion else .ok none

/-- The statement `Q_ASSERT(f());` for a closure `f`: a debug build calls `f` and aborts
when it returns `false`; with `QT_NO_DEBUG` the call is not made. -/
def Q_ASSERT_call (dbg : Bool) (f : Fun) (m : TimelineModel) : Except Fault TimelineModel :=
  if dbg then
    match f m with
    | .error e => .error e
    | .ok (true, m1) => .ok m1
    | .ok (false, _) => .error .assertion
  else .ok m

/-- `TimelineModel::isClip`. -/
def isClip (m : TimelineModel) (id : Int) : Bool := (mapFind id m.allClips).isSome

/-- `TimelineModel::isTrack`. -/
def isTrack (m : TimelineModel) (id : Int) : Bool := (mapFind id m.iteratorTable).isSome

/-- `TimelineModel::getClipsCount`. -/
def getClipsCount (m : TimelineModel) : Int := m.allClips.length

/-- `TimelineModel::getTrackById`: the list node `*m_iteratorTable[tid]` refers to.  For an
id that is not in the table the assertion fails in a debug build; otherwise `operator[]`
yields a singular iterator, whose dereference is undefined. -/
def getTrackById (dbg : Bool) (m : TimelineModel) (tid : Int) : Except Fault Nat :=
  match mapFind tid m.iteratorTable with
  | none => if dbg then .error .assertion else .error .undefined
  | some node => if (nodeFind node m.allTracks).isSome then .ok node else .error .undefined

/-- Effect of `m_allClips[cid]->setCurrentTrackId(tid)` for a registered clip. -/
def setCurrentTrackId (cid tid : Int) (m : TimelineModel) : TimelineModel :=
  { m with allClips := mapModify cid (fun c => { c with currentTrackId := tid }) m.allClips }

/-- The closures `operation` and `reverse` of `requestClipMove`:
`m_allClips[cid]->setCurrentTrackId(tid); return true;`.  For an id that is not
registered `m_allClips[cid]` is a null pointer. -/
def requestClipMove.setTrack (cid tid : Int) : Fun := fun m =>
  match mapFind cid m.allClips with
  | none => .error .undefined
  | some _ => .ok (true, setCurrentTrackId cid tid m)

/-- Lines 292-295 of `TimelineModel::requestClipMove`: `bool ok = true;` and, for a clip
that is on a track, `ok = getTrackById(old_tid)->requestClipDeletion(cid, undo, redo)` with
the closures `undo` and `redo` as initialised on lines 289-290.  The result is `ok`, the
closures and the model after these lines. -/
def requestClipMove.deletion (dbg : Bool) (m : TimelineModel) (cid old_tid : Int) :
    Except Fault (Bool × Fun × Fun × TimelineModel) :=
  if old_tid ≠ -1 then
    match getTrackById dbg m old_tid with
    | .error e => .error e
    | .ok node => .ok (TrackModel.requestClipDeletion node cid Fun.id Fun.id m)
  else .ok (true, Fun.id, Fun.id, m)

/-- Line 301 of `TimelineModel::requestClipMove`:
`ok = getTrackById(tid)->requestClipInsertion(m_allClips[cid], position, undo, redo)`. -/
def requestClipMove.insertion (dbg : Bool) (m : TimelineModel) (cid tid position : Int)
    (undo redo : Fun) : Except Fault (Bool × Fun × Fun × TimelineModel) :=
  match getTrackById dbg m tid with
  | .error e => .error e
  | .ok node =>
    match mapFind cid m.allClips with
    | none => .error .undefined
    | some clip => .ok (TrackModel.requestClipInsertion node clip position undo redo m)

/-- The failure exit of `requestClipMove`: `Q_ASSERT(undo()); return false;`. -/
def requestClipMove.failure (dbg : Bool) (stack : Option DocUndoStack) (undo : Fun)
    (m : TimelineModel) : Except Fault (Bool × TimelineModel × Option DocUndoStack) :=
  match Q_ASSERT_call dbg undo m with
  | .error e => .error e
  | .ok m1 => .ok (false, m1, stack)

/-- `TimelineModel::requestClipMove(cid, tid, position)`.  The result is the returned
`bool`, the model and the undo stack after the call.  `ok` is `true` when the deletion is
skipped, so the test `if (!ok)` that follows the deletion is the same inside and after
the block `if (old_tid != -1)`. -/
def requestClipMove (dbg : Bool) (m : TimelineModel) (stack : Option DocUndoStack)
    (cid tid position : Int) : Except Fault (Bool × TimelineModel × Option DocUndoStack) :=
  match mapFind cid m.allClips with
  | none => if dbg then .error .assertion else .error .undefined
  | some clip =>
    let old_tid := clip.currentTrackId
    match requestClipMove.deletion dbg m cid old_tid with
    | .error e => .error e
    | .ok (false, undo, _, m1) => requestClipMove.failure dbg stack undo m1
    | .ok (true, undo, redo, m1) =>
      match requestClipMove.insertion dbg m1 cid tid position undo redo with
      | .error e => .error e
      | .ok (false, undo, _, m2) => requestClipMove.failure dbg stack undo m2
      | .ok (true, undo, redo, m2) =>
        let operation := requestClipMove.setTrack cid tid
        let reverse := requestClipMove.setTrack cid old_tid
        let ur := UPDATE_UNDO_REDO operation reverse undo redo
        match PUSH_UNDO dbg stack ur.1 ur.2 "Move clip" with
        | .error e => .error e
        | .ok stack1 =>
          match operation m2 with
          | .error e => .error e
          | .ok (r, m3) => .ok (r, m3, stack1)

/-! ## Registration -/

/-- Effect of `list.insert(it, x)` with `it` the iterator `pos` steps after `begin()`. -/
def insertAt {α : Type} (x : α) : Nat → List α → List α
  | 0, l => x :: l
  | _ + 1, [] => [x]
  | n + 1, y :: l => y :: insertAt x n l

/-- Value of `std::distance(m_allTracks.begin(), it)` for the iterator of list node `node`. -/
def nodeIndex (node : Nat) : List (Nat × TrackModel) → Option Nat
  | [] => none
  | (n, _) :: rest => if n = node then some 0 else (nodeIndex node rest).map (· + 1)

/-- Effect of `m_allTracks.erase(it)` for the iterator of list node `node`. -/
def nodeErase (node : Nat) : List (Nat × TrackModel) → List (Nat × TrackModel)
  | [] => []
  | (n, t) :: rest => if n = node then rest else (n, t) :: nodeErase node rest

/-- Modelled from the spec: `GroupsModel::createGroupItem(id)`: it "inserts id as its own
singleton group (no parent)". -/
def GroupsModel.createGroupItem (g : GroupsModel) (id : Int) : GroupsModel :=
  { g with upLink := mapAssign id (-1) g.upLink }

/-- The ids of `acc` and the ids that reach one of them in at most `fuel` parent links. -/
def GroupsModel.descendants (links : List (Int × Int)) : Nat → List Int → List Int
  | 0, acc => acc
  | fuel + 1, acc =>
    GroupsModel.descendants links fuel
      (acc ++ (links.filter (fun e => acc.contains e.2 && !acc.contains e.1)).map Prod.fst)

/-- Modelled from the spec: `GroupsModel::destructGroupItem(id, recursive, undo, redo)`: it
"removes id and, if recursive, all descendants, from the hierarchy". -/
def GroupsModel.destructGroupItem (g : GroupsModel) (id : Int) (recursive : Bool) :
    GroupsModel :=
  let gone :=
    if recursive then GroupsModel.descendants g.upLink g.upLink.length [id] else [id]
  { g with upLink := g.upLink.filter (fun e => !gone.contains e.1) }

/-- The model of `TimelineModel::construct(undo_stack, false)`: no track, no clip. -/
def TimelineModel.empty : TimelineModel :=
  { tractor := [], allTracks := [], iteratorTable := [], allClips := [], allGroups := [],
    groups := ⟨[]⟩, nextNode := 0 }

/-- `TimelineModel::registerTrack(track, pos)`.  `m_tractor->insert_track(*track, pos)` is
the composition graph's insert-track-at-index and returns `0`.  When the assertions on
`pos` are compiled out and `pos` is out of range, `std::advance` leaves the list, which is
undefined. -/
def registerTrack (dbg : Bool) (m : TimelineModel) (track : TrackModel) (pos : Int) :
    Except Fault TimelineModel :=
  let id := track.id
  let pos := if pos = -1 then (m.allTracks.length : Int) else pos
  if pos < 0 ∨ (m.allTracks.length : Int) < pos then
    if dbg then .error .assertion else .error .undefined
  else
    let node := m.nextNode
    if dbg && (mapFind id m.iteratorTable).isSome then .error .assertion
    else
      .ok { m with
        tractor := insertAt node pos.toNat m.tractor
        allTracks := insertAt (node, track) pos.toNat m.allTracks
        iteratorTable := mapAssign id node m.iteratorTable
        nextNode := node + 1 }

/-- `TimelineModel::registerClip(clip)`. -/
def registerClip (dbg : Bool) (m : TimelineModel) (clip : ClipModel) :
    Except Fault TimelineModel :=
  let id := clip.id
  if dbg && (mapFind id m.allClips).isSome then .error .assertion
  else
    .ok { m with
      allClips := mapAssign id clip m.allClips
      groups := m.groups.createGroupItem id }

/-- `TimelineModel::registerGroup(groupId)`. -/
def registerGroup (dbg : Bool) (m : TimelineModel) (groupId : Int) :
    Except Fault TimelineModel :=
  if dbg && m.allGroups.contains groupId then .error .assertion
  else .ok { m with allGroups := if m.allGroups.contains groupId then m.allGroups
                                 else groupId :: m.allGroups }

/-- `TimelineModel::deregisterTrack(id)`.  For an id that is not in the table
`m_iteratorTable[id]` is a singular iterator, and `std::distance` to it is undefined. -/
def deregisterTrack (m : TimelineModel) (id : Int) : Except Fault TimelineModel :=
  match mapFind id m.iteratorTable with
  | none => .error .undefined
  | some node =>
    match nodeIndex node m.allTracks with
    | none => .error .undefined
    | some index =>
      .ok { m with
        iteratorTable := mapErase id m.iteratorTable
        tractor := m.tractor.eraseIdx index
        allTracks := nodeErase node m.allTracks }

/-- `TimelineModel::deregisterClip(id)`. -/
def deregisterClip (dbg : Bool) (m : TimelineModel) (id : Int) : Except Fault TimelineModel :=
  if dbg && !(mapFind id m.allClips).isSome then .error .assertion
  else
    .ok { m with
      allClips := mapErase id m.allClips
      groups := m.groups.destructGroupItem id true }

/-- `TimelineModel::deregisterGroup(id)`. -/
def deregisterGroup (dbg : Bool) (m : TimelineModel) (id : Int) : Except Fault TimelineModel :=
  if dbg && !m.allGroups.contains id then .error .assertion
  else .ok { m with allGroups := m.allGroups.filter (fun g => g != id) }

/-! ## Requests that delegate to `ClipModel` and `GroupsModel` -/

/-- The member functions `ClipModel::requestResize`, `GroupsModel::groupItems` and
`GroupsModel::ungroupItem`.  Their code is outside the files at hand, so the requests that
call them take them as a parameter: each receives its arguments, the closures `undo` and
`redo` and the model, and yields its return value, the updated closures and the model. -/
structure Delegates where
  requestResize : ClipModel → Int → Bool → Fun → Fun → TimelineModel →
    Except Fault (Bool × Fun × Fun × TimelineModel)
  groupItems : List Int → Fun → Fun → TimelineModel →
    Except Fault (Int × Fun × Fun × TimelineModel)
  ungroupItem : Int → Fun → Fun → TimelineModel →
    Except Fault (Bool × Fun × Fun × TimelineModel)

/-- `TimelineModel::requestClipResize(cid, size, right)`.  There is no assertion on `cid`:
for an id that is not registered `m_allClips[cid]` is a null pointer. -/
def requestClipResize (d : Delegates) (dbg : Bool) (m : TimelineModel)
    (stack : Option DocUndoStack) (cid size : Int) (right : Bool) :
    Except Fault (Bool × TimelineModel × Option DocUndoStack) :=
  match mapFind cid m.allClips with
  | none => .error .undefined
  | some clip =>
    match d.requestResize clip size right Fun.id Fun.id m with
    | .error e => .error e
    | .ok (result, undo, redo, m1) =>
      if result then
        match PUSH_UNDO dbg stack undo redo "Resize clip" with
        | .error e => .error e
        | .ok stack1 => .ok (result, m1, stack1)
      else .ok (result, m1, stack)

/-- `TimelineModel::requestGroupClips(ids)`. -/
def requestGroupClips (d : Delegates) (dbg : Bool) (m : TimelineModel)
    (stack : Option DocUndoStack) (ids : List Int) :
    Except Fault (Bool × TimelineModel × Option DocUndoStack) :=
  match d.groupItems ids Fun.id Fun.id m with
  | .error e => .error e
  | .ok (gid, undo, redo, m1) =>
    if gid ≠ -1 then
      match PUSH_UNDO dbg stack undo redo "Group clips" with
      | .error e => .error e
      | .ok stack1 => .ok (decide (gid ≠ -1), m1, stack1)
    else .ok (decide (gid ≠ -1), m1, stack)

/-- `TimelineModel::requestUngroupClip(id)`. -/
def requestUngroupClip (d : Delegates) (dbg : Bool) (m : TimelineModel)
    (stack : Option DocUndoStack) (id : Int) :
    Except Fault (Bool × TimelineModel × Option DocUndoStack) :=
  match d.ungroupItem id Fun.id Fun.id m with
  | .error e => .error e
  | .ok (result, undo, redo, m1) =>
    if result then
      match PUSH_UNDO dbg stack undo redo "Ungroup clips" with
      | .error e => .error e
      | .ok stack1 => .ok (result, m1, stack1)
    else .ok (result, m1, stack)

/-! ## Sequences of requests -/

/-- A run of `requestClipMove(cid, tid, position)` calls, one after the other, on the model
and the undo stack; it stops at the first call that ends in a fault. -/
def requestClipMoves (dbg : Bool) :
    List (Int × Int × Int) → TimelineModel × Option DocUndoStack →
      Except Fault (TimelineModel × Option DocUndoStack)
  | [], s => .ok s
  | (cid, tid, position) :: rest, s =>
    match requestClipMove dbg s.1 s.2 cid tid position with
    | .error e => .error e
    | .ok (_, m1, stack1) => requestClipMoves dbg rest (m1, stack1)

/-- The calls that build and edit a timeline.  `TrackModel::construct` and
`ClipModel::construct` are the callers of `registerTrack` and `registerClip`: they hand over
a new track without placements and a new clip that is on no track. -/
inductive Request where
  | registerTrack (id pos : Int)
  | deregisterTrack (id : Int)
  | registerClip (id playtime : Int)
  | deregisterClip (id : Int)
  | requestClipMove (cid tid position : Int)
  deriving DecidableEq, Repr

/-- One request is run on the model and the undo stack. -/
def Request.run (dbg : Bool) (s : TimelineModel × Option DocUndoStack) :
    Request → Except Fault (TimelineModel × Option DocUndoStack)
  | .registerTrack id pos => (Kdenlive.registerTrack dbg s.1 ⟨id, []⟩ pos).map (fun m => (m, s.2))
  | .deregisterTrack id => (Kdenlive.deregisterTrack s.1 id).map (fun m => (m, s.2))
  | .registerClip id playtime =>
    (Kdenlive.registerClip dbg s.1 ⟨id, -1, playtime⟩).map (fun m => (m, s.2))
  | .deregisterClip id => (Kdenlive.deregisterClip dbg s.1 id).map (fun m => (m, s.2))
  | .requestClipMove cid tid position =>
    (Kdenlive.requestClipMove dbg s.1 s.2 cid tid position).map (fun r => r.2)

/-- A run of requests from the state `s`; it stops at the first one that ends in a fault. -/
def runRequests (dbg : Bool) :
    List Request → TimelineModel × Option DocUndoStack →
      Except Fault (TimelineModel × Option DocUndoStack)
  | [], s => .ok s
  | r :: rest, s =>
    match r.run dbg s with
    | .error e => .error e
    | .ok s1 => runRequests dbg rest s1

/-! ## Invariants of the data model -/

/-- No two placements on the same track overlap in time. -/
def NoOverlap (m : TimelineModel) : Prop :=
  ∀ nt ∈ m.allTracks, nt.2.placements.Pairwise (fun a b => a.overlaps b = false)

instance (m : TimelineModel) : Decidable (NoOverlap m) := by
  unfold NoOverlap; infer_instance

/-- Every clip of the clip registry has a track id that is `-1` or the id of a track of
the track registry. -/
def ClipTracksLive (m : TimelineModel) : Prop :=
  ∀ kc ∈ m.allClips, kc.2.currentTrackId = -1 ∨ isTrack m kc.2.currentTrackId = true

instance (m : TimelineModel) : Decidable (ClipTracksLive m) := by
  unfold ClipTracksLive; infer_instance

/-- The invariants of the data model that tie the registries together:

* a clip is registered under its own id;
* the placements of a track are ordered by position, and no two have the same position;
* a clip is placed at most once on a track;
* a registered clip that is placed on a track has that track as its current track;
* `-1`, the track id of an unplaced clip, is not the id of a track;
* the nodes of the track list are distinct. -/
def WellFormed (m : TimelineModel) : Prop :=
  (∀ kc ∈ m.allClips, kc.2.id = kc.1) ∧
  (∀ nt ∈ m.allTracks, nt.2.placements.Pairwise (fun a b => a.position < b.position)) ∧
  (∀ nt ∈ m.allTracks, (nt.2.placements.map Placement.cid).Nodup) ∧
  (∀ nt ∈ m.allTracks, ∀ p ∈ nt.2.placements, ∀ c ∈ mapFind p.cid m.allClips,
    c.currentTrackId ≠ -1 ∧ mapFind c.currentTrackId m.iteratorTable = some nt.1) ∧
  mapFind (-1) m.iteratorTable = none ∧
  (m.allTracks.map Prod.fst).Nodup

/-- Every placement and every registered clip lasts at least one frame. -/
def PositiveDurations (m : TimelineModel) : Prop :=
  (∀ nt ∈ m.allTracks, ∀ p ∈ nt.2.placements, 0 < p.duration) ∧
  (∀ kc ∈ m.allClips, 0 < kc.2.playtime)

instance (m : TimelineModel) : Decidable (PositiveDurations m) := by
  unfold PositiveDurations; infer_instance

instance (m : TimelineModel) : Decidable (WellFormed m) := by
  unfold WellFormed; infer_instance

/-! ## The test timeline of `TimelineModel::construct` -/

/-- The requests `TimelineModel::construct(undo_stack, true)` issues to populate the model,
with the ids `next_id` hands out from `0`: two tracks, two clips of length `100`, the first
clip moved to frame `100` of the first track and the second to frame `50` of the second. -/
def populateRequests : List Request :=
  [.registerTrack 0 (-1), .registerTrack 1 (-1), .registerClip 2 100, .registerClip 3 100,
   .requestClipMove 2 0 100, .requestClipMove 3 1 50]

/-- The model `TimelineModel::construct(undo_stack, true)` builds. -/
def populated : TimelineModel :=
  { tractor := [0, 1]
    allTracks := [(0, ⟨0, [⟨2, 100, 100⟩]⟩), (1, ⟨1, [⟨3, 50, 100⟩]⟩)]
    iteratorTable := [(0, 0), (1, 1)]
    allClips := [(2, ⟨2, 0, 100⟩), (3, ⟨3, 1, 100⟩)]
    allGroups := []
    groups := ⟨[(2, -1), (3, -1)]⟩
    nextNode := 2 }

/-- The populated model with the second clip taken off its track, the track id of the clip
still being that of the track. -/
def populatedLost : TimelineModel :=
  { populated with allTracks := [(0, ⟨0, [⟨2, 100, 100⟩]⟩), (1, ⟨1, []⟩)] }

/-- The populated model after `requestClipMove(3, 0, 300)`: the second clip has moved
behind the first one on the first track. -/
def populatedMoved : TimelineModel :=
  { populated with
    allTracks := [(0, ⟨0, [⟨2, 100, 100⟩, ⟨3, 300, 100⟩]⟩), (1, ⟨1, []⟩)]
    allClips := [(2, ⟨2, 0, 100⟩), (3, ⟨3, 0, 100⟩)] }

/-! ## Stand-ins for the delegates -/

/-- Effect of a resize that is accepted: the clip `cid` gets the duration `size`. -/
def setPlaytime (cid size : Int) (m : TimelineModel) : TimelineModel :=
  { m with allClips := mapModify cid (fun c => { c with playtime := size }) m.allClips }

/-- The group links after the ids of `ids` were put under the new group `gid`. -/
def linkGroup (gid : Int) (ids : List Int) (m : TimelineModel) : TimelineModel :=
  { m with
    groups := ⟨mapAssign gid (-1) (ids.foldl (fun acc id => mapAssign id gid acc) m.groups.upLink)⟩ }

/-- The group links after the item `id` was put under `parent`. -/
def setParent (id parent : Int) (m : TimelineModel) : TimelineModel :=
  { m with groups := ⟨mapAssign id parent m.groups.upLink⟩ }

/-- A stand-in for `ClipModel::requestResize`, `GroupsModel::groupItems` and
`GroupsModel::ungroupItem`, for running the delegating requests on concrete inputs.  The
resize accepts a positive size and sets the duration of the clip; the grouping accepts a
non-empty set, puts its ids under the new group `100` and returns `100`; the ungrouping
accepts an id that has a parent and removes the link.  Each rejects without mutating, and
each composes its reversible step with `UPDATE_UNDO_REDO`. -/
def sampleDelegates : Delegates where
  requestResize := fun clip size _ undo redo m =>
    if 0 < size then
      let operation : Fun := fun s => .ok (true, setPlaytime clip.id size s)
      let reverse : Fun := fun s => .ok (true, setPlaytime clip.id clip.playtime s)
      let ur := UPDATE_UNDO_REDO operation reverse undo redo
      .ok (true, ur.1, ur.2, setPlaytime clip.id size m)
    else .ok (false, undo, redo, m)
  groupItems := fun ids undo redo m =>
    if ids.isEmpty then .ok (-1, undo, redo, m)
    else
      let old := m.groups
      let operation : Fun := fun s => .ok (true, linkGroup 100 ids s)
      let reverse : Fun := fun s => .ok (true, { s with groups := old })
      let ur := UPDATE_UNDO_REDO operation reverse undo redo
      .ok (100, ur.1, ur.2, linkGroup 100 ids m)
  ungroupItem := fun id undo redo m =>
    match mapFind id m.groups.upLink with
    | none => .ok (false, undo, redo, m)
    | some parent =>
      if parent = -1 then .ok (false, undo, redo, m)
      else
        let operation : Fun := fun s => .ok (true, setParent id (-1) s)
        let reverse : Fun := fun s => .ok (true, setParent id parent s)
        let ur := UPDATE_UNDO_REDO operation reverse undo redo
        .ok (true, ur.1, ur.2, setParent id (-1) m)

/-! ## Runs that keep the track of every clip registered -/

/-- The request is not the deregistration of a track that a registered clip names as its
current track. -/
def Request.sparesClipTracks (m : TimelineModel) : Request → Bool
  | .deregisterTrack id => m.allClips.all (fun kc => kc.2.currentTrackId != id)
  | _ => true

/-- No request of the run deregisters a track that, at that point of the run, a registered
clip names as its current track. -/
def sparesClipTracks (dbg : Bool) :
    List Request → TimelineModel × Option DocUndoStack → Bool
  | [], _ => true
  | r :: rest, s =>
    r.sparesClipTracks s.1 &&
      match r.run dbg s with
      | .error _ => true
      | .ok s1 => sparesClipTracks dbg rest s1

/-- The model after a track, a clip on it, and the deregistration of the track: the clip
names track `0`, which is not registered any more. -/
def danglingModel : TimelineModel :=
  { tractor := [], allTracks := [], iteratorTable := [], allClips := [(1, ⟨1, 0, 100⟩)],
    allGroups := [], groups := ⟨[(1, -1)]⟩, nextNode := 1 }

/-- The populated model after `deregisterClip(3)` and `deregisterTrack(1)`.  The second
clip was on the second track, and `deregisterClip` does not take it off the track. -/
def populatedFirst : TimelineModel :=
  { tractor := [0]
    allTracks := [(0, ⟨0, [⟨2, 100, 100⟩]⟩)]
    iteratorTable := [(0, 0)]
    allClips := [(2, ⟨2, 0, 100⟩)]
    allGroups := []
    groups := ⟨[(2, -1)]⟩
    nextNode := 2 }

/-! ## Read accessors -/

/-- `TimelineModel::getTracksCount`: the track count of the composition graph, after the
assertions that it is not negative and equals the size of the track list. -/
def getTracksCount (dbg : Bool) (m : TimelineModel) : Except Fault Int :=
  let count : Int := m.tractor.length
  if dbg && !decide (0 ≤ count) then .error .assertion
  else if dbg && !decide (count = (m.allTracks.length : Int)) then .error .assertion
  else .ok count

/-- `TimelineModel::getTrackById_const`: the track `*m_iteratorTable.at(tid)`.  For an id
that is not in the table the assertion fails in a debug build; otherwise `at` throws
`std::out_of_range`. -/
def getTrackById_const (dbg : Bool) (m : TimelineModel) (tid : Int) :
    Except Fault TrackModel :=
  match mapFind tid m.iteratorTable with
  | none => if dbg then .error .assertion else .error .outOfRange
  | some node =>
    match nodeFind node m.allTracks with
    | none => .error .undefined
    | some t => .ok t

/-- Modelled from the spec: `TrackModel::getClipsCount`, the number of placements. -/
def TrackModel.getClipsCount (t : TrackModel) : Int := t.placements.length

/-- Modelled from the spec: `TrackModel::getClipByRow(row)`: the id of the clip at `row`,
the clips being "ordered by position within a track", and `-1` when there is none. -/
def TrackModel.getClipByRow (t : TrackModel) (row : Int) : Int :=
  if row < 0 then -1
  else
    match t.placements[row.toNat]? with
    | none => -1
    | some p => p.cid

/-- `TimelineModel::getTrackClipsCount`. -/
def getTrackClipsCount (dbg : Bool) (m : TimelineModel) (tid : Int) : Except Fault Int :=
  match getTrackById_const dbg m tid with
  | .error e => .error e
  | .ok t => .ok t.getClipsCount

/-- `TimelineModel::getClipTrackId`. -/
def getClipTrackId (dbg : Bool) (m : TimelineModel) (cid : Int) : Except Fault Int :=
  match mapFind cid m.allClips with
  | none => if dbg then .error .assertion else .error .outOfRange
  | some clip => .ok clip.currentTrackId

/-- Modelled from the spec: `ClipModel::getPosition`, the start frame of the clip: the
position of its placement on its current track, and `-1` for a clip that has none. -/
def ClipModel.getPosition (m : TimelineModel) (clip : ClipModel) : Int :=
  match mapFind clip.currentTrackId m.iteratorTable with
  | none => -1
  | some node =>
    match nodeFind node m.allTracks with
    | none => -1
    | some t =>
      match findPlacement clip.id t.placements with
      | none => -1
      | some p => p.position

/-- `TimelineModel::getClipPosition`. -/
def getClipPosition (dbg : Bool) (m : TimelineModel) (cid : Int) : Except Fault Int :=
  match mapFind cid m.allClips with
  | none => if dbg then .error .assertion else .error .outOfRange
  | some clip => .ok (clip.getPosition m)

/-- Modelled from the spec: the extent of a track: the last frame covered by one of its
placements, plus one; `0` for a track without placements. -/
def TrackModel.getPlaytime (t : TrackModel) : Int :=
  t.placements.foldl (fun acc p => max acc (p.position + p.duration)) 0

/-- `TimelineModel::duration`: `m_tractor->get_playtime()`, which is "the maximum extent
across all tracks" of the composition graph. -/
def duration (m : TimelineModel) : Int :=
  m.tractor.foldl (fun acc node =>
    match nodeFind node m.allTracks with
    | none => acc
    | some t => max acc t.getPlaytime) 0

/-! ## Ids -/

/-- The value of a 32-bit `int` after an arithmetic result `x` is stored in it. -/
def wrapInt32 (x : Int) : Int := (x + 2147483648) % 4294967296 - 2147483648

/-- `TimelineModel::getNextId`: `return TimelineModel::next_id++;` on the static `int`
`next_id`, which starts at `0`.  The result is the returned id and the new `next_id`. -/
def getNextId (next_id : Int) : Int × Int := (next_id, wrapInt32 (next_id + 1))

/-- The ids returned by `count` successive calls of `getNextId`, oldest first. -/
def getNextIds : Nat → Int → List Int
  | 0, _ => []
  | count + 1, next_id => (getNextId next_id).1 :: getNextIds count (getNextId next_id).2

/-- The calls that build and edit a timeline whose tracks and clips come from the
factories.  Modelled from the spec: `TrackModel::construct` and `ClipModel::construct`:
an object is "created via a factory that registers it with TimelineModel and assigns an id
from a process-wide monotonically increasing counter". -/
inductive Call where
  | constructTrack (pos : Int)
  | constructClip (playtime : Int)
  | deregisterTrack (id : Int)
  | deregisterClip (id : Int)
  | requestClipMove (cid tid position : Int)
  deriving DecidableEq, Repr

/-- One call is run on `next_id`, the model and the undo stack. -/
def Call.run (dbg : Bool) (s : Int × TimelineModel × Option DocUndoStack) :
    Call → Except Fault (Int × TimelineModel × Option DocUndoStack)
  | .constructTrack pos =>
    ((Request.registerTrack (getNextId s.1).1 pos).run dbg s.2).map
      (fun s1 => ((getNextId s.1).2, s1))
  | .constructClip playtime =>
    ((Request.registerClip (getNextId s.1).1 playtime).run dbg s.2).map
      (fun s1 => ((getNextId s.1).2, s1))
  | .deregisterTrack id => ((Request.deregisterTrack id).run dbg s.2).map (fun s1 => (s.1, s1))
  | .deregisterClip id => ((Request.deregisterClip id).run dbg s.2).map (fun s1 => (s.1, s1))
  | .requestClipMove cid tid position =>
    ((Request.requestClipMove cid tid position).run dbg s.2).map (fun s1 => (s.1, s1))

/-- A run of calls from the state `s`; it stops at the first one that ends in a fault. -/
def runCalls (dbg : Bool) :
    List Call → Int × TimelineModel × Option DocUndoStack →
      Except Fault (Int × TimelineModel × Option DocUndoStack)
  | [], s => .ok s
  | c :: rest, s =>
    match c.run dbg s with
    | .error e => .error e
    | .ok s1 => runCalls dbg rest s1

/-! ## The tree projection -/

/-- A `QModelIndex`: row, column, the internal id and whether the index belongs to a model.
The internal id of an index is made from an `int` by `quintptr(id)` and read back by
`int(internalId())`, which gives the `int` back; it is kept as this `int`. -/
structure QModelIndex where
  row : Int
  column : Int
  internalId : Int
  hasModel : Bool
  deriving DecidableEq, Repr

/-- The index `QModelIndex()`: row and column `-1`, no model. -/
def QModelIndex.none : QModelIndex := ⟨-1, -1, 0, false⟩

/-- `QModelIndex::isValid`: row and column are not negative and the index has a model. -/
def QModelIndex.isValid (i : QModelIndex) : Bool :=
  decide (0 ≤ i.row) && decide (0 ≤ i.column) && i.hasModel

/-- `QAbstractItemModel::createIndex(row, column, id)`. -/
def createIndex (row column id : Int) : QModelIndex := ⟨row, column, id, true⟩

/-- `TimelineModel::index(row, column, parent)`.  In the branch of the root,
`std::advance(it, row)` from `cbegin()` is undefined for a negative `row`, and so is the
dereference of `cend()`. -/
def index (dbg : Bool) (m : TimelineModel) (row column : Int) (parent : QModelIndex) :
    Except Fault QModelIndex :=
  if column > 0 then .ok QModelIndex.none
  else if parent.isValid then
    let trackId := parent.internalId
    if dbg && !isTrack m trackId then .error .assertion
    else
      match getTrackById_const dbg m trackId with
      | .error e => .error e
      | .ok track =>
        let clipId := track.getClipByRow row
        if clipId ≠ -1 then .ok (createIndex row 0 clipId) else .ok QModelIndex.none
  else
    match getTracksCount dbg m with
    | .error e => .error e
    | .ok count =>
      if row < count then
        if row < 0 then .error .undefined
        else
          match m.allTracks[row.toNat]? with
          | none => .error .undefined
          | some nt => .ok (createIndex row column nt.2.id)
      else .ok QModelIndex.none

/-- `TimelineModel::makeIndex(trackIndex, clipIndex)`; `index(trackIndex)` has the default
arguments column `0` and parent `QModelIndex()`. -/
def makeIndex (dbg : Bool) (m : TimelineModel) (trackIndex clipIndex : Int) :
    Except Fault QModelIndex :=
  match index dbg m trackIndex 0 QModelIndex.none with
  | .error e => .error e
  | .ok track => index dbg m clipIndex 0 track

/-- `TimelineModel::parent(index)`.  `m_iteratorTable.at(trackId)` throws
`std::out_of_range` for an id that is not in the table. -/
def parent (dbg : Bool) (m : TimelineModel) (index : QModelIndex) : Except Fault QModelIndex :=
  let id := index.internalId
  if !index.isValid || isTrack m id then .ok QModelIndex.none
  else if dbg && !isClip m id then .error .assertion
  else
    match getClipTrackId dbg m id with
    | .error e => .error e
    | .ok trackId =>
      match mapFind trackId m.iteratorTable with
      | none => .error .outOfRange
      | some node =>
        match nodeIndex node m.allTracks with
        | none => .error .undefined
        | some row => .ok (createIndex row 0 trackId)

/-- `TimelineModel::rowCount(parent)`. -/
def rowCount (dbg : Bool) (m : TimelineModel) (parent : QModelIndex) : Except Fault Int :=
  if parent.isValid then
    let id := parent.internalId
    if isClip m id || !isTrack m id then .ok 0
    else getTrackClipsCount dbg m id
  else getTracksCount dbg m

/-- `TimelineModel::columnCount(parent)`. -/
def columnCount (_parent : QModelIndex) : Int := 1

/-- The roles of `TimelineModel::data`: those of `roleNames` and `Qt::DisplayRole`. -/
inductive Role where
  | DisplayRole | NameRole | ResourceRole | ServiceRole | IsBlankRole | StartRole
  | DurationRole | InPointRole | OutPointRole | FramerateRole | IsMuteRole | IsHiddenRole
  | IsAudioRole | AudioLevelsRole | IsCompositeRole | IsLockedRole | FadeInRole
  | FadeOutRole | IsTransitionRole | FileHashRole | SpeedRole | HeightRole
  deriving DecidableEq, Repr

/-- The values of type `QVariant` that `TimelineModel::data` returns. -/
inductive QVariant where
  | null
  | string (s : String)
  | int (n : Int)
  | bool (b : Bool)
  deriving DecidableEq, Repr

/-- `TimelineModel::data(index, role)`.  `getProperty name t` stands for the member
function `getProperty(name).toInt()` of the track `t`, which is not in the files at hand.
`m_tractor` is set by the constructor and is not null. -/
def data (getProperty : String → TrackModel → Int) (dbg : Bool) (m : TimelineModel)
    (index : QModelIndex) (role : Role) : Except Fault QVariant :=
  if !index.isValid then .ok .null
  else
    let id := index.internalId
    if isClip m id then
      match role with
      | .NameRole | .ResourceRole | .DisplayRole => .ok (.string "clip name")
      | .ServiceRole => .ok (.string "service2")
      | .IsBlankRole => .ok (.bool false)
      | .StartRole =>
        match mapFind id m.allClips with
        | none => .error .outOfRange
        | some clip => .ok (.int (clip.getPosition m))
      | .DurationRole =>
        match mapFind id m.allClips with
        | none => .error .outOfRange
        | some clip => .ok (.int clip.playtime)
      | .InPointRole => .ok (.int 0)
      | .OutPointRole => .ok (.int 1)
      | .FramerateRole => .ok (.int 25)
      | _ => .ok .null
    else if isTrack m id then
      match role with
      | .NameRole | .DisplayRole =>
        match getTrackById_const dbg m index.row with
        | .error e => .error e
        | .ok t => .ok (.string ("Track " ++ toString t.id))
      | .DurationRole => .ok (.int (duration m))
      | .IsMuteRole => .ok (.int 0)
      | .IsHiddenRole => .ok (.int 0)
      | .IsAudioRole => .ok (.bool false)
      | .IsLockedRole => .ok (.int 0)
      | .HeightRole =>
        match getTrackById_const dbg m index.row with
        | .error e => .error e
        | .ok t =>
          let height := getProperty "kdenlive:trackheight" t
          .ok (.int (if height > 0 then height else 50))
      | .IsCompositeRole => .ok (.int 0)
      | _ => .ok .null
    else .ok .null

/-! ## Invariants of the registries -/

/-- Every placement of every track is of a clip of the clip registry. -/
def PlacementsRegistered (m : TimelineModel) : Prop :=
  ∀ nt ∈ m.allTracks, ∀ p ∈ nt.2.placements, isClip m p.cid = true

instance (m : TimelineModel) : Decidable (PlacementsRegistered m) := by
  unfold PlacementsRegistered; infer_instance

/-- The populated model after `deregisterClip(3)`: the clip has left the registry and its
group item is gone, and its placement is still on the second track. -/
def populatedOrphan : TimelineModel :=
  { populated with
    allClips := [(2, ⟨2, 0, 100⟩)]
    groups := ⟨[(2, -1)]⟩ }

/-- The track count of the composition graph, the size of the track list and the size of
the id table are the same. -/
def TrackCountsAgree (m : TimelineModel) : Prop :=
  m.tractor.length = m.allTracks.length ∧ m.iteratorTable.length = m.allTracks.length

instance (m : TimelineModel) : Decidable (TrackCountsAgree m) := by
  unfold TrackCountsAgree; infer_instance

/-- The request is not the registration of a track under an id that is in the id table. -/
def Request.freshTrackId (m : TimelineModel) : Request → Bool
  | .registerTrack id _ => !isTrack m id
  | _ => true

/-- Every track the run registers has, at that point of the run, an id that is not in the
id table. -/
def freshTrackIds (dbg : Bool) :
    List Request → TimelineModel × Option DocUndoStack → Bool
  | [], _ => true
  | r :: rest, s =>
    r.freshTrackId s.1 &&
      match r.run dbg s with
      | .error _ => true
      | .ok s1 => freshTrackIds dbg rest s1

/-- The nodes of the track list were handed out before `nextNode`: a new list node is
none of the nodes in the list. -/
def NodesAllocated (m : TimelineModel) : Prop :=
  (∀ nt ∈ m.allTracks, nt.1 < m.nextNode) ∧ (∀ e ∈ m.iteratorTable, e.2 < m.nextNode)

instance (m : TimelineModel) : Decidable (NodesAllocated m) := by
  unfold NodesAllocated; infer_instance

/-- The model `m'` has the track structure of `m`: the same composition graph, the same
nodes in the track list in the same order with the same track ids, the same id table and
the same next node. -/
def SameTracks (m m' : TimelineModel) : Prop :=
  m'.tractor = m.tractor ∧
  m'.allTracks.map (fun nt => (nt.1, nt.2.id)) = m.allTracks.map (fun nt => (nt.1, nt.2.id)) ∧
  m'.iteratorTable = m.iteratorTable ∧ m'.nextNode = m.nextNode

/-! ## Sample timelines for the accessors and the tree projection -/

/-- The timeline of the scenario with one empty track `T1` (id `0`) and the unplaced clips
`C1` (id `1`, duration `100`) and `C2` (id `2`, duration `10`). -/
def scenarioStart : TimelineModel :=
  { tractor := [0]
    allTracks := [(0, ⟨0, []⟩)]
    iteratorTable := [(0, 0)]
    allClips := [(1, ⟨1, -1, 100⟩), (2, ⟨2, -1, 10⟩)]
    allGroups := []
    groups := ⟨[(1, -1), (2, -1)]⟩
    nextNode := 1 }

/-- The scenario after `requestClipMove(C1, T1, 100)`. -/
def scenarioFirst : TimelineModel :=
  { scenarioStart with
    allTracks := [(0, ⟨0, [⟨1, 100, 100⟩]⟩)]
    allClips := [(1, ⟨1, 0, 100⟩), (2, ⟨2, -1, 10⟩)] }

/-- The scenario after `requestClipMove(C2, T1, 200)`. -/
def scenarioEnd : TimelineModel :=
  { scenarioStart with
    allTracks := [(0, ⟨0, [⟨1, 100, 100⟩, ⟨2, 200, 10⟩]⟩)]
    allClips := [(1, ⟨1, 0, 100⟩), (2, ⟨2, 0, 10⟩)] }

/-- The timeline after `registerTrack` of track `0` at position `0` and then of track `1`
at position `0`: track `1` is at row `0` and track `0` at row `1`. -/
def swappedTracks : TimelineModel :=
  { tractor := [1, 0]
    allTracks := [(1, ⟨1, []⟩), (0, ⟨0, []⟩)]
    iteratorTable := [(0, 0), (1, 1)]
    allClips := []
    allGroups := []
    groups := ⟨[]⟩
    nextNode := 2 }

/-- The populated model after `deregisterTrack(0)`: track `1` is at row `0`. -/
def populatedSecond : TimelineModel :=
  { populated with
    tractor := [1]
    allTracks := [(1, ⟨1, [⟨3, 50, 100⟩]⟩)]
    iteratorTable := [(1, 1)] }

/-- The track properties `TimelineModel::construct` sets on its test timeline:
"kdenlive:trackheight" is `60` for track `0` and `140` for track `1`. -/
def sampleProperty (name : String) (t : TrackModel) : Int :=
  if name = "kdenlive:trackheight" then (if t.id = 0 then 60 else if t.id = 1 then 140 else 0)
  else 0

/-- The track sequence of the composition graph is, index by index, the track list of the
model: the graph holds at each index the list node the model holds there. -/
def GraphAligned (m : TimelineModel) : Prop :=
  m.tractor = m.allTracks.map Prod.fst

instance (m : TimelineModel) : Decidable (GraphAligned m) := by
  unfold GraphAligned; infer_instance

/-! ## The clip manager: `src/clipmanager.cpp` -/

/-- The fields of a string separated by `sep`, empty fields included. -/
def splitFields (sep : Char) : List Char → List (List Char)
  | [] => [[]]
  | c :: cs =>
    if c = sep then [] :: splitFields sep cs
    else
      match splitFields sep cs with
      | [] => [[c]]
      | f :: fs => (c :: f) :: fs

/-- `QString::section(sep, start, last)` of Qt for indices that are not negative and the
default flags: "the string is treated as a sequence of fields separated by the character,
sep. The returned string consists of the fields from position start to position end
inclusive", joined by `sep`. -/
def QString.section (s : String) (sep : Char) (start last : Nat) : String :=
  String.mk (List.intercalate [sep] (((splitFields sep s.data).drop start).take (last + 1 - start)))

/-- The value of a string of decimal digits; `none` for an empty string and for one with
another character. -/
def digitsValue : List Char → Option Nat
  | [] => none
  | cs => if cs.all Char.isDigit then some (cs.foldl (fun n c => 10 * n + (c.toNat - 48)) 0)
          else none

/-- `QString::toInt()` of Qt in base ten: the value of the string, an optional sign
followed by digits with white space around it ignored, and `0` "if the conversion fails",
which it does when the value does not fit an `int`. -/
def QString.toInt (s : String) : Int :=
  let body := ((s.data.dropWhile Char.isWhitespace).reverse.dropWhile Char.isWhitespace).reverse
  let value : Option Int :=
    match body with
    | '-' :: ds => (digitsValue ds).map (fun n => -(n : Int))
    | '+' :: ds => (digitsValue ds).map (fun n => (n : Int))
    | ds => (digitsValue ds).map (fun n => (n : Int))
  match value with
  | none => 0
  | some v => if -2147483648 ≤ v ∧ v ≤ 2147483647 then v else 0

/-- What `ClipManager` reads of a `DocClipBase`, whose class is not in the files at hand:
`getId()` and `getProperty("groupid")`. -/
structure DocClipBase where
  id : String
  groupid : String
  deriving DecidableEq, Repr

/-- The data members of `ClipManager` that the functions below use. -/
structure ClipManager where
  clipList : List DocClipBase
  clipIdCounter : Int
  folderIdCounter : Int
  audioThumbsEnabled : Bool
  audioThumbsQueue : List String
  generatingAudioId : String
  deriving DecidableEq, Repr

/-- `ClipManager::ClipManager(doc)`. -/
def ClipManager.new : ClipManager :=
  { clipList := []
    clipIdCounter := 1
    folderIdCounter := 1
    audioThumbsEnabled := false
    audioThumbsQueue := []
    generatingAudioId := "" }

/-- The assignment `m_clipIdCounter = id.toInt() + 1` of `addClip`, made when
`id.toInt() >= m_clipIdCounter`; the sum is an `int`. -/
def ClipManager.raiseClipIdCounter (s : ClipManager) (id : String) : ClipManager :=
  if QString.toInt id ≥ s.clipIdCounter then
    { s with clipIdCounter := wrapInt32 (QString.toInt id + 1) }
  else s

/-- The assignment `m_folderIdCounter = gid.toInt() + 1` of `addClip`, made when
`!gid.isEmpty() && gid.toInt() >= m_folderIdCounter`. -/
def ClipManager.raiseFolderIdCounter (s : ClipManager) (gid : String) : ClipManager :=
  if gid ≠ "" ∧ QString.toInt gid ≥ s.folderIdCounter then
    { s with folderIdCounter := wrapInt32 (QString.toInt gid + 1) }
  else s

/-- `ClipManager::addClip(clip)`. -/
def ClipManager.addClip (s : ClipManager) (clip : DocClipBase) : ClipManager :=
  let s1 := { s with clipList := s.clipList ++ [clip] }
  (s1.raiseClipIdCounter clip.id).raiseFolderIdCounter clip.groupid

/-- `ClipManager::getFreeClipId`: `return m_clipIdCounter++;`.  The result is the returned
id and the manager after the call. -/
def ClipManager.getFreeClipId (s : ClipManager) : Int × ClipManager :=
  (s.clipIdCounter, { s with clipIdCounter := wrapInt32 (s.clipIdCounter + 1) })

/-- `ClipManager::lastClipId`: `return m_clipIdCounter - 1;`. -/
def ClipManager.lastClipId (s : ClipManager) : Int := wrapInt32 (s.clipIdCounter - 1)

/-- The loop of `getClipById` over `m_clipList` from index `0`: the first clip whose
`getId()` is `clipId`, and `NULL` at the end of the list. -/
def ClipManager.findClip (clipId : String) : List DocClipBase → Option DocClipBase
  | [] => none
  | clip :: rest => if clip.id = clipId then some clip else ClipManager.findClip clipId rest

/-- `ClipManager::getClipById(clipId)`.  The result is the returned pointer (`none` for
`NULL`) and the manager after the call. -/
def ClipManager.getClipById (s : ClipManager) (clipId : String) :
    Option DocClipBase × ClipManager :=
  let clipId := QString.section clipId '_' 0 0
  (ClipManager.findClip clipId s.clipList, s)

/-- The calls of the id counter of a clip manager. -/
inductive ClipCall where
  | addClip (clip : DocClipBase)
  | getFreeClipId
  | lastClipId
  deriving DecidableEq, Repr

/-- One call on a clip manager: the manager after it. -/
def ClipCall.run (s : ClipManager) : ClipCall → ClipManager
  | .addClip clip => s.addClip clip
  | .getFreeClipId => s.getFreeClipId.2
  | .lastClipId => s

/-- A run of calls on a clip manager. -/
def ClipManager.runCalls : List ClipCall → ClipManager → ClipManager
  | [], s => s
  | c :: rest, s => ClipManager.runCalls rest (c.run s)

/-- The call makes no `int` overflow: an added clip has an id whose value is below
`2^31 - 1`, and `getFreeClipId` is called with the counter below `2^31 - 1`. -/
def ClipCall.inRange (s : ClipManager) : ClipCall → Bool
  | .addClip clip => decide (QString.toInt clip.id < 2147483647)
  | .getFreeClipId => decide (s.clipIdCounter < 2147483647)
  | .lastClipId => true

/-- No call of the run makes an `int` overflow. -/
def ClipManager.inRange : List ClipCall → ClipManager → Bool
  | [], _ => true
  | c :: rest, s => c.inRange s && ClipManager.inRange rest (c.run s)

/-- The counter is at least `1` and above the value of the id of every clip of the list. -/
def ClipManager.CounterAbove (s : ClipManager) : Prop :=
  1 ≤ s.clipIdCounter ∧ ∀ clip ∈ s.clipList, QString.toInt clip.id < s.clipIdCounter

instance (s : ClipManager) : Decidable s.CounterAbove := by
  unfold ClipManager.CounterAbove; infer_instance

mutual

/-- `ClipManager::startAudioThumbsGeneration`.  `audiothumbnails` is the setting
`KdenliveSettings::audiothumbnails()` and `slotGetAudioThumbs clip` the result of the
member function of the clip, neither in the files at hand.  The first argument bounds the
depth of the calls; `none` is a run that needed more. -/
def ClipManager.startAudioThumbsGeneration (audiothumbnails : Bool)
    (slotGetAudioThumbs : DocClipBase → Bool) : Nat → ClipManager → Option ClipManager
  | 0, _ => none
  | fuel + 1, s =>
    if !audiothumbnails then
      some { s with audioThumbsQueue := [], generatingAudioId := "" }
    else
      match s.audioThumbsQueue with
      | first :: rest =>
        let s1 := { s with generatingAudioId := first, audioThumbsQueue := rest }
        match (s1.getClipById s1.generatingAudioId).1 with
        | none =>
          ClipManager.endAudioThumbsGeneration audiothumbnails slotGetAudioThumbs fuel s1
            s1.generatingAudioId
        | some clip =>
          if !slotGetAudioThumbs clip then
            ClipManager.endAudioThumbsGeneration audiothumbnails slotGetAudioThumbs fuel s1
              s1.generatingAudioId
          else some s1
      | [] => some { s with generatingAudioId := "" }

/-- `ClipManager::endAudioThumbsGeneration(requestedId)`. -/
def ClipManager.endAudioThumbsGeneration (audiothumbnails : Bool)
    (slotGetAudioThumbs : DocClipBase → Bool) : Nat → ClipManager → String → Option ClipManager
  | 0, _, _ => none
  | fuel + 1, s, requestedId =>
    if !audiothumbnails then
      some { s with audioThumbsQueue := [], generatingAudioId := "" }
    else if !s.audioThumbsQueue.isEmpty then
      if s.generatingAudioId = requestedId then
        ClipManager.startAudioThumbsGeneration audiothumbnails slotGetAudioThumbs fuel s
      else some s
    else some { s with generatingAudioId := "" }

end

/-- The queued id starts a generation: `getClipById` finds a clip and its
`slotGetAudioThumbs()` returns `true`. -/
def ClipManager.startsGeneration (slotGetAudioThumbs : DocClipBase → Bool) (s : ClipManager)
    (id : String) : Bool :=
  match (s.getClipById id).1 with
  | none => false
  | some clip => slotGetAudioThumbs clip

/-- A manager with the clips `1`, `2_1` and `3` and three queued ids. -/
def sampleManager : ClipManager :=
  { clipList := [⟨"1", ""⟩, ⟨"2_1", ""⟩, ⟨"3", "7"⟩, ⟨"3", ""⟩]
    clipIdCounter := 4
    folderIdCounter := 8
    audioThumbsEnabled := true
    audioThumbsQueue := ["9", "1", "3_2", "1"]
    generatingAudioId := "" }

/-- The queue from its first id that starts a generation on; empty when none does. -/
def ClipManager.pending (slotGetAudioThumbs : DocClipBase → Bool) (s : ClipManager) :
    List String :=
  s.audioThumbsQueue.dropWhile (fun id => !s.startsGeneration slotGetAudioThumbs id)

/-! ## Lemmas on the containers -/

theorem mapFind_mem {α : Type} {k : Int} {v : α} {l : List (Int × α)}
    (h : mapFind k l = some v) : (k, v) ∈ l := by
  induction l with
  | nil => simp [mapFind] at h
  | cons x xs ih =>
    obtain ⟨k', v'⟩ := x
    by_cases hk : k' = k
    · simp [mapFind, hk] at h; simp [hk, h]
    · simp [mapFind, hk] at h; simp [ih h]

theorem mapFind_mapModify {α : Type} (k k' : Int) (f : α → α) (l : List (Int × α)) :
    mapFind k (mapModify k' f l) = if k = k' then (mapFind k l).map f else mapFind k l := by
  induction l with
  | nil => simp [mapFind, mapModify]
  | cons x xs ih =>
    obtain ⟨j, v⟩ := x
    by_cases hj : j = k'
    · by_cases hk : k = k'
      · simp [mapFind, mapModify, hj, hk]
      · have : ¬ k' = k := fun h => hk h.symm
        simp [mapFind, mapModify, hj, hk, this]
    · by_cases hk : j = k
      · have : ¬ k = k' := fun h => hj (hk.trans h)
        simp [mapFind, mapModify, hj, hk, this]
      · simp [mapFind, mapModify, hj, hk, ih]

theorem mapModify_mapModify {α : Type} (k : Int) (f g : α → α) (l : List (Int × α)) :
    mapModify k g (mapModify k f l) = mapModify k (g ∘ f) l := by
  induction l with
  | nil => simp [mapModify]
  | cons x xs ih =>
    obtain ⟨j, v⟩ := x
    by_cases hj : j = k <;> simp [mapModify, hj, ih]

theorem mapModify_fixed {α : Type} (k : Int) (f : α → α) (l : List (Int × α))
    (h : ∀ v, mapFind k l = some v → f v = v) : mapModify k f l = l := by
  induction l with
  | nil => simp [mapModify]
  | cons x xs ih =>
    obtain ⟨j, v⟩ := x
    by_cases hj : j = k
    · have := h v (by simp [mapFind, hj])
      simp [mapModify, hj, this]
    · have := ih (fun v hv => h v (by simp [mapFind, hj, hv]))
      simp [mapModify, hj, this]

theorem mem_mapModify {α : Type} {k : Int} {f : α → α} {l : List (Int × α)} {x : Int × α}
    (h : x ∈ mapModify k f l) : x ∈ l ∨ ∃ v, (k, v) ∈ l ∧ x = (k, f v) := by
  induction l with
  | nil => simp [mapModify] at h
  | cons y ys ih =>
    obtain ⟨j, v⟩ := y
    by_cases hj : j = k
    · simp only [mapModify, hj, if_true, List.mem_cons] at h
      rcases h with h | h
      · exact Or.inr ⟨v, by simp [hj], h⟩
      · exact Or.inl (by simp [h])
    · simp only [mapModify, hj, if_false, List.mem_cons] at h
      rcases h with h | h
      · exact Or.inl (by simp [h])
      · rcases ih h with h' | ⟨w, hw, hx⟩
        · exact Or.inl (by simp [h'])
        · exact Or.inr ⟨w, by simp [hw], hx⟩

theorem nodeFind_mem {n : Nat} {t : TrackModel} {l : List (Nat × TrackModel)}
    (h : nodeFind n l = some t) : (n, t) ∈ l := by
  induction l with
  | nil => simp [nodeFind] at h
  | cons x xs ih =>
    obtain ⟨n', t'⟩ := x
    by_cases hk : n' = n
    · simp [nodeFind, hk] at h; simp [hk, h]
    · simp [nodeFind, hk] at h; simp [ih h]

theorem nodeFind_nodeModify (n n' : Nat) (f : TrackModel → TrackModel)
    (l : List (Nat × TrackModel)) :
    nodeFind n (nodeModify n' f l) = if n = n' then (nodeFind n l).map f else nodeFind n l := by
  induction l with
  | nil => simp [nodeFind, nodeModify]
  | cons x xs ih =>
    obtain ⟨j, v⟩ := x
    by_cases hj : j = n'
    · by_cases hk : n = n'
      · simp [nodeFind, nodeModify, hj, hk]
      · have : ¬ n' = n := fun h => hk h.symm
        simp [nodeFind, nodeModify, hj, hk, this]
    · by_cases hk : j = n
      · have : ¬ n = n' := fun h => hj (hk.trans h)
        simp [nodeFind, nodeModify, hj, hk, this]
      · simp [nodeFind, nodeModify, hj, hk, ih]

theorem nodeModify_nodeModify (n : Nat) (f g : TrackModel → TrackModel)
    (l : List (Nat × TrackModel)) :
    nodeModify n g (nodeModify n f l) = nodeModify n (g ∘ f) l := by
  induction l with
  | nil => simp [nodeModify]
  | cons x xs ih =>
    obtain ⟨j, v⟩ := x
    by_cases hj : j = n <;> simp [nodeModify, hj, ih]

theorem nodeModify_fixed (n : Nat) (f : TrackModel → TrackModel) (l : List (Nat × TrackModel))
    (h : ∀ t, nodeFind n l = some t → f t = t) : nodeModify n f l = l := by
  induction l with
  | nil => simp [nodeModify]
  | cons x xs ih =>
    obtain ⟨j, v⟩ := x
    by_cases hj : j = n
    · have := h v (by simp [nodeFind, hj])
      simp [nodeModify, hj, this]
    · have := ih (fun v hv => h v (by simp [nodeFind, hj, hv]))
      simp [nodeModify, hj, this]

theorem nodeModify_comm (n n' : Nat) (hn : n ≠ n') (f g : TrackModel → TrackModel)
    (l : List (Nat × TrackModel)) :
    nodeModify n f (nodeModify n' g l) = nodeModify n' g (nodeModify n f l) := by
  induction l with
  | nil => simp [nodeModify]
  | cons x xs ih =>
    obtain ⟨j, v⟩ := x
    by_cases hj : j = n
    · subst hj
      simp [nodeModify, hn]
    · by_cases hj' : j = n'
      · subst hj'
        simp [nodeModify, hj]
      · simp [nodeModify, hj, hj', ih]

theorem mem_nodeModify {n : Nat} {f : TrackModel → TrackModel} {l : List (Nat × TrackModel)}
    {x : Nat × TrackModel} (h : x ∈ nodeModify n f l) :
    x ∈ l ∨ ∃ t, nodeFind n l = some t ∧ x = (n, f t) := by
  induction l with
  | nil => simp [nodeModify] at h
  | cons y ys ih =>
    obtain ⟨j, v⟩ := y
    by_cases hj : j = n
    · simp only [nodeModify, hj, if_true, List.mem_cons] at h
      rcases h with h | h
      · exact Or.inr ⟨v, by simp [nodeFind, hj], h⟩
      · exact Or.inl (by simp [h])
    · simp only [nodeModify, hj, if_false, List.mem_cons] at h
      rcases h with h | h
      · exact Or.inl (by simp [h])
      · rcases ih h with h' | ⟨w, hw, hx⟩
        · exact Or.inl (by simp [h'])
        · exact Or.inr ⟨w, by simp [nodeFind, hj, hw], hx⟩

/-! ## Lemmas on the placements of a track -/

theorem findPlacement_cid {cid : Int} {p : Placement} {l : List Placement}
    (h : findPlacement cid l = some p) : p.cid = cid := by
  induction l with
  | nil => simp [findPlacement] at h
  | cons q qs ih =>
    by_cases hq : q.cid = cid
    · simp [findPlacement, hq] at h; rw [← h]; exact hq
    · simp [findPlacement, hq] at h; exact ih h

theorem findPlacement_mem {cid : Int} {p : Placement} {l : List Placement}
    (h : findPlacement cid l = some p) : p ∈ l := by
  induction l with
  | nil => simp [findPlacement] at h
  | cons q qs ih =>
    by_cases hq : q.cid = cid
    · simp [findPlacement, hq] at h; simp [h]
    · simp [findPlacement, hq] at h; simp [ih h]

theorem findPlacement_eq_none {cid : Int} {l : List Placement} :
    findPlacement cid l = none ↔ ∀ q ∈ l, q.cid ≠ cid := by
  induction l with
  | nil => simp [findPlacement]
  | cons q qs ih =>
    by_cases hq : q.cid = cid
    · simp [findPlacement, hq]
    · simp [findPlacement, hq, ih]

theorem insertPlacement_perm (p : Placement) (l : List Placement) :
    (insertPlacement p l).Perm (p :: l) := by
  induction l with
  | nil => simp [insertPlacement]
  | cons q qs ih =>
    by_cases h : p.position ≤ q.position
    · simp [insertPlacement, h]
    · simp only [insertPlacement, h, if_false]
      exact ((List.Perm.cons q ih).trans (List.Perm.swap p q qs))

theorem erasePlacement_perm {cid : Int} {p : Placement} {l : List Placement}
    (h : findPlacement cid l = some p) : l.Perm (p :: erasePlacement cid l) := by
  induction l with
  | nil => simp [findPlacement] at h
  | cons q qs ih =>
    by_cases hq : q.cid = cid
    · simp [findPlacement, hq] at h
      subst h
      simp [erasePlacement, hq]
    · simp [findPlacement, hq] at h
      simp only [erasePlacement, hq, if_false]
      exact ((List.Perm.cons q (ih h)).trans (List.Perm.swap p q _))

theorem erasePlacement_sublist (cid : Int) (l : List Placement) :
    (erasePlacement cid l).Sublist l := by
  induction l with
  | nil => simp [erasePlacement]
  | cons q qs ih =>
    by_cases hq : q.cid = cid
    · simp [erasePlacement, hq]
    · simp [erasePlacement, hq, ih]

/-- Removing the placement that was just inserted gives the placements back, when the
clip was not on the track before. -/
theorem erasePlacement_insertPlacement (p : Placement) (l : List Placement)
    (h : findPlacement p.cid l = none) :
    erasePlacement p.cid (insertPlacement p l) = l := by
  induction l with
  | nil => simp [insertPlacement, erasePlacement]
  | cons q qs ih =>
    by_cases hq : q.cid = p.cid
    · simp [findPlacement, hq] at h
    · simp [findPlacement, hq] at h
      by_cases hp : p.position ≤ q.position
      · simp [insertPlacement, hp, erasePlacement]
      · simp [insertPlacement, hp, erasePlacement, hq, ih h]

/-- Inserting the placement that was just removed gives the placements back, when they
are ordered by position. -/
theorem insertPlacement_erasePlacement (cid : Int) (p : Placement) (l : List Placement)
    (hs : l.Pairwise (fun a b => a.position < b.position))
    (h : findPlacement cid l = some p) :
    insertPlacement p (erasePlacement cid l) = l := by
  induction l with
  | nil => simp [findPlacement] at h
  | cons q qs ih =>
    rw [List.pairwise_cons] at hs
    by_cases hq : q.cid = cid
    · simp [findPlacement, hq] at h
      subst h
      simp only [erasePlacement, hq, if_true]
      cases qs with
      | nil => simp [insertPlacement]
      | cons r rs =>
        have : q.position ≤ r.position := le_of_lt (hs.1 r (by simp))
        simp [insertPlacement, this]
    · simp [findPlacement, hq] at h
      have hlt : ¬ p.position ≤ q.position := not_le.mpr (hs.1 p (findPlacement_mem h))
      simp [erasePlacement, hq, insertPlacement, hlt, ih hs.2 h]

theorem findPlacement_erasePlacement (cid : Int) (l : List Placement)
    (hn : (l.map Placement.cid).Nodup) : findPlacement cid (erasePlacement cid l) = none := by
  induction l with
  | nil => simp [erasePlacement, findPlacement]
  | cons q qs ih =>
    rw [List.map_cons, List.nodup_cons] at hn
    by_cases hq : q.cid = cid
    · simp only [erasePlacement, hq, if_true]
      rw [findPlacement_eq_none]
      intro r hr hrc
      exact hn.1 (by rw [hq, ← hrc]; exact List.mem_map_of_mem _ hr)
    · simp [erasePlacement, hq, findPlacement, ih hn.2]

theorem findPlacement_insertPlacement (p : Placement) (l : List Placement)
    (h : findPlacement p.cid l = none) : findPlacement p.cid (insertPlacement p l) = some p := by
  induction l with
  | nil => simp [insertPlacement, findPlacement]
  | cons q qs ih =>
    by_cases hq : q.cid = p.cid
    · simp [findPlacement, hq] at h
    · simp [findPlacement, hq] at h
      by_cases hp : p.position ≤ q.position
      · simp [insertPlacement, hp, findPlacement]
      · simp [insertPlacement, hp, findPlacement, hq, ih h]

theorem overlaps_comm (a b : Placement) : a.overlaps b = b.overlaps a := by
  unfold Placement.overlaps
  rw [max_comm, min_comm]

theorem pairwise_insertPlacement (p : Placement) (l : List Placement)
    (hl : l.Pairwise (fun a b => a.overlaps b = false))
    (hp : l.any (fun q => p.overlaps q) = false) :
    (insertPlacement p l).Pairwise (fun a b => a.overlaps b = false) := by
  have hsymm : ∀ {a b : Placement}, a.overlaps b = false → b.overlaps a = false := by
    intro a b h; rw [overlaps_comm]; exact h
  rw [(insertPlacement_perm p l).pairwise_iff hsymm, List.pairwise_cons]
  refine ⟨?_, hl⟩
  intro q hq
  rw [List.any_eq_false] at hp
  simpa using hp q hq

theorem pairwise_erasePlacement (cid : Int) (l : List Placement)
    (hl : l.Pairwise (fun a b => a.overlaps b = false)) :
    (erasePlacement cid l).Pairwise (fun a b => a.overlaps b = false) :=
  hl.sublist (erasePlacement_sublist cid l)

theorem pairwise_reinsert (cid : Int) (p : Placement) (l : List Placement)
    (hl : l.Pairwise (fun a b => a.overlaps b = false))
    (h : findPlacement cid l = some p) :
    (insertPlacement p (erasePlacement cid l)).Pairwise (fun a b => a.overlaps b = false) := by
  have hsymm : ∀ {a b : Placement}, a.overlaps b = false → b.overlaps a = false := by
    intro a b h; rw [overlaps_comm]; exact h
  rw [(insertPlacement_perm p _).pairwise_iff hsymm]
  exact ((erasePlacement_perm h).pairwise_iff hsymm).mp hl

/-- A placement of the track does not overlap the other placements of the track. -/
theorem any_overlaps_erasePlacement (cid : Int) (p : Placement) (l : List Placement)
    (hl : l.Pairwise (fun a b => a.overlaps b = false))
    (h : findPlacement cid l = some p) :
    (erasePlacement cid l).any (fun q => p.overlaps q) = false := by
  have hsymm : ∀ {a b : Placement}, a.overlaps b = false → b.overlaps a = false := by
    intro a b h; rw [overlaps_comm]; exact h
  have h2 := ((erasePlacement_perm h).pairwise_iff hsymm).mp hl
  rw [List.pairwise_cons] at h2
  rw [List.any_eq_false]
  intro q hq
  simpa using h2.1 q hq

/-! ## What `requestClipMove` does -/

theorem getTrackById_ok {dbg : Bool} {m : TimelineModel} {tid : Int} {node : Nat}
    (h : getTrackById dbg m tid = .ok node) :
    mapFind tid m.iteratorTable = some node ∧ ∃ t, nodeFind node m.allTracks = some t := by
  unfold getTrackById at h
  cases ht : mapFind tid m.iteratorTable with
  | none => rw [ht] at h; cases dbg <;> simp at h
  | some n =>
    rw [ht] at h
    cases hn : nodeFind n m.allTracks with
    | none => simp [hn] at h
    | some t =>
      simp [hn] at h
      subst h
      exact ⟨rfl, t, hn⟩

theorem getTrackById_of_find {dbg : Bool} {m : TimelineModel} {tid : Int} {node : Nat}
    {t : TrackModel} (h1 : mapFind tid m.iteratorTable = some node)
    (h2 : nodeFind node m.allTracks = some t) : getTrackById dbg m tid = .ok node := by
  simp [getTrackById, h1, h2]

/-- The model after the closure `operation` of `requestClipMove`. -/
theorem setTrack_ok {cid tid : Int} {m : TimelineModel} {c : ClipModel}
    (h : mapFind cid m.allClips = some c) :
    requestClipMove.setTrack cid tid m = .ok (true, setCurrentTrackId cid tid m) := by
  simp [requestClipMove.setTrack, h]

theorem onTrack_allClips (node : Nat) (f : List Placement → List Placement)
    (m : TimelineModel) : (onTrack node f m).allClips = m.allClips := rfl

theorem onTrack_iteratorTable (node : Nat) (f : List Placement → List Placement)
    (m : TimelineModel) : (onTrack node f m).iteratorTable = m.iteratorTable := rfl

theorem onTrack_onTrack (node : Nat) (f g : List Placement → List Placement)
    (m : TimelineModel) : onTrack node g (onTrack node f m) = onTrack node (g ∘ f) m := by
  simp only [onTrack, nodeModify_nodeModify]
  rfl

theorem onTrack_fixed (node : Nat) (f : List Placement → List Placement) (m : TimelineModel)
    (h : ∀ t, nodeFind node m.allTracks = some t → f t.placements = t.placements) :
    onTrack node f m = m := by
  unfold onTrack
  rw [nodeModify_fixed]
  intro t ht
  rw [h t ht]

theorem onTrack_comm (n n' : Nat) (hn : n ≠ n') (f g : List Placement → List Placement)
    (m : TimelineModel) : onTrack n f (onTrack n' g m) = onTrack n' g (onTrack n f m) := by
  simp only [onTrack]
  rw [nodeModify_comm n n' hn]

theorem nodeFind_onTrack (n n' : Nat) (f : List Placement → List Placement)
    (m : TimelineModel) :
    nodeFind n (onTrack n' f m).allTracks =
      if n = n' then (nodeFind n m.allTracks).map (fun t => { t with placements := f t.placements })
      else nodeFind n m.allTracks := by
  simp only [onTrack, nodeFind_nodeModify]

/-- What the deletion stage of `requestClipMove` yields. -/
theorem deletion_inv {dbg : Bool} {m m1 : TimelineModel} {cid old_tid : Int} {b : Bool}
    {u r : Fun} (h : requestClipMove.deletion dbg m cid old_tid = .ok (b, u, r, m1)) :
    (old_tid = -1 ∧ b = true ∧ u = Fun.id ∧ r = Fun.id ∧ m1 = m) ∨
    (old_tid ≠ -1 ∧ ∃ nodeO tO, mapFind old_tid m.iteratorTable = some nodeO ∧
      nodeFind nodeO m.allTracks = some tO ∧
      ((findPlacement cid tO.placements = none ∧ b = false ∧ u = Fun.id ∧ r = Fun.id ∧
          m1 = m) ∨
       (∃ p0, findPlacement cid tO.placements = some p0 ∧ b = true ∧
          u = (TrackModel.insertStep nodeO p0).andThen Fun.id ∧
          r = Fun.id.andThen (TrackModel.removeStep nodeO cid) ∧
          m1 = onTrack nodeO (erasePlacement cid) m))) := by
  unfold requestClipMove.deletion at h
  by_cases ho : old_tid = -1
  · left
    simp [ho] at h
    obtain ⟨h1, h2, h3, h4⟩ := h
    exact ⟨ho, h1, h2.symm, h3.symm, h4.symm⟩
  · right
    refine ⟨ho, ?_⟩
    simp only [ne_eq, ho, not_false_eq_true, if_true] at h
    cases hg : getTrackById dbg m old_tid with
    | error e => simp [hg] at h
    | ok nodeO =>
      obtain ⟨ht1, tO, ht2⟩ := getTrackById_ok hg
      refine ⟨nodeO, tO, ht1, ht2, ?_⟩
      simp only [hg, TrackModel.requestClipDeletion, ht2] at h
      cases hf : findPlacement cid tO.placements with
      | none =>
        left
        simp [hf] at h
        obtain ⟨h1, h2, h3, h4⟩ := h
        exact ⟨rfl, h1, h2.symm, h3.symm, h4.symm⟩
      | some p0 =>
        right
        simp [hf, UPDATE_UNDO_REDO] at h
        obtain ⟨h1, h2, h3, h4⟩ := h
        exact ⟨p0, rfl, h1, h2.symm, h3.symm, h4.symm⟩

/-- What the insertion stage of `requestClipMove` yields. -/
theorem insertion_inv {dbg : Bool} {m m' : TimelineModel} {cid tid position : Int} {b : Bool}
    {undo redo u r : Fun}
    (h : requestClipMove.insertion dbg m cid tid position undo redo = .ok (b, u, r, m')) :
    ∃ clip nodeT tT, mapFind cid m.allClips = some clip ∧
      mapFind tid m.iteratorTable = some nodeT ∧ nodeFind nodeT m.allTracks = some tT ∧
      ((tT.placements.any
          (fun q => (Placement.mk clip.id position clip.playtime).overlaps q) = true ∧
          b = false ∧ u = undo ∧ r = redo ∧ m' = m) ∨
       (tT.placements.any
          (fun q => (Placement.mk clip.id position clip.playtime).overlaps q) = false ∧
          b = true ∧ u = (TrackModel.removeStep nodeT clip.id).andThen undo ∧
          r = redo.andThen (TrackModel.insertStep nodeT ⟨clip.id, position, clip.playtime⟩) ∧
          m' = onTrack nodeT (insertPlacement ⟨clip.id, position, clip.playtime⟩) m)) := by
  unfold requestClipMove.insertion at h
  cases hg : getTrackById dbg m tid with
  | error e => simp [hg] at h
  | ok nodeT =>
    obtain ⟨ht1, tT, ht2⟩ := getTrackById_ok hg
    cases hc : mapFind cid m.allClips with
    | none => simp [hg, hc] at h
    | some clip =>
      refine ⟨clip, nodeT, tT, rfl, ht1, ht2, ?_⟩
      simp only [hg, hc, TrackModel.requestClipInsertion, ht2] at h
      by_cases hov : tT.placements.any
          (fun q => (Placement.mk clip.id position clip.playtime).overlaps q) = true
      · left
        simp [hov] at h
        obtain ⟨h1, h2, h3, h4⟩ := h
        exact ⟨hov, h1, h2.symm, h3.symm, h4.symm⟩
      · right
        simp [hov, UPDATE_UNDO_REDO] at h
        simp only [Bool.not_eq_true] at hov
        obtain ⟨h1, h2, h3, h4⟩ := h
        exact ⟨hov, h1, h2.symm, h3.symm, h4.symm⟩

/-- The track requests leave the registries of clips and of tracks as they are. -/
theorem deletion_frame {dbg : Bool} {m m1 : TimelineModel} {cid old_tid : Int} {b : Bool}
    {u r : Fun} (h : requestClipMove.deletion dbg m cid old_tid = .ok (b, u, r, m1)) :
    m1.allClips = m.allClips ∧ m1.iteratorTable = m.iteratorTable := by
  rcases deletion_inv h with ⟨_, _, _, _, hm⟩ | ⟨_, _, _, _, _, h2⟩
  · subst hm; exact ⟨rfl, rfl⟩
  · rcases h2 with ⟨_, _, _, _, hm⟩ | ⟨_, _, _, _, _, hm⟩ <;> subst hm <;> exact ⟨rfl, rfl⟩

theorem insertion_frame {dbg : Bool} {m m' : TimelineModel} {cid tid position : Int} {b : Bool}
    {undo redo u r : Fun}
    (h : requestClipMove.insertion dbg m cid tid position undo redo = .ok (b, u, r, m')) :
    m'.allClips = m.allClips ∧ m'.iteratorTable = m.iteratorTable := by
  obtain ⟨_, _, _, _, _, _, h2⟩ := insertion_inv h
  rcases h2 with ⟨_, _, _, _, hm⟩ | ⟨_, _, _, _, hm⟩ <;> subst hm <;> exact ⟨rfl, rfl⟩

theorem requestClipMove_of_stages {dbg : Bool} {m m1 m2 : TimelineModel}
    {stack : Option DocUndoStack} {cid tid position : Int} {clip : ClipModel}
    {u1 r1 u2 r2 : Fun}
    (hc : mapFind cid m.allClips = some clip)
    (hd : requestClipMove.deletion dbg m cid clip.currentTrackId = .ok (true, u1, r1, m1))
    (hi : requestClipMove.insertion dbg m1 cid tid position u1 r1 = .ok (true, u2, r2, m2)) :
    requestClipMove dbg m stack cid tid position =
      match PUSH_UNDO dbg stack ((requestClipMove.setTrack cid clip.currentTrackId).andThen u2)
          (r2.andThen (requestClipMove.setTrack cid tid)) "Move clip" with
      | .error e => .error e
      | .ok stack1 => .ok (true, setCurrentTrackId cid tid m2, stack1) := by
  have hc2 : mapFind cid m2.allClips = some clip := by
    rw [(insertion_frame hi).1, (deletion_frame hd).1]; exact hc
  unfold requestClipMove
  simp only [hc, hd, hi, UPDATE_UNDO_REDO, setTrack_ok hc2]

/-- A `requestClipMove` that returns `true` went through a successful deletion stage and a
successful insertion stage, set the track id of the clip and pushed the composed closures. -/
theorem requestClipMove_true_inv {dbg : Bool} {m m' : TimelineModel}
    {stack stack' : Option DocUndoStack} {cid tid position : Int}
    (h : requestClipMove dbg m stack cid tid position = .ok (true, m', stack')) :
    ∃ clip u1 r1 m1 u2 r2 m2, mapFind cid m.allClips = some clip ∧
      requestClipMove.deletion dbg m cid clip.currentTrackId = .ok (true, u1, r1, m1) ∧
      requestClipMove.insertion dbg m1 cid tid position u1 r1 = .ok (true, u2, r2, m2) ∧
      m' = setCurrentTrackId cid tid m2 ∧
      PUSH_UNDO dbg stack ((requestClipMove.setTrack cid clip.currentTrackId).andThen u2)
        (r2.andThen (requestClipMove.setTrack cid tid)) "Move clip" = .ok stack' := by
  unfold requestClipMove at h
  cases hc : mapFind cid m.allClips with
  | none => rw [hc] at h; cases dbg <;> simp at h
  | some clip =>
    simp only [hc] at h
    cases hd : requestClipMove.deletion dbg m cid clip.currentTrackId with
    | error e => simp [hd] at h
    | ok res =>
      obtain ⟨b, u1, r1, m1⟩ := res
      cases b with
      | false =>
        simp only [hd, requestClipMove.failure] at h
        cases hq : Q_ASSERT_call dbg u1 m1 <;> simp [hq] at h
      | true =>
        simp only [hd] at h
        cases hi : requestClipMove.insertion dbg m1 cid tid position u1 r1 with
        | error e => simp [hi] at h
        | ok res2 =>
          obtain ⟨b2, u2, r2, m2⟩ := res2
          cases b2 with
          | false =>
            simp only [hi, requestClipMove.failure] at h
            cases hq : Q_ASSERT_call dbg u2 m2 <;> simp [hq] at h
          | true =>
            have hc2 : mapFind cid m2.allClips = some clip := by
              rw [(insertion_frame hi).1, (deletion_frame hd).1]; exact hc
            simp only [hi, UPDATE_UNDO_REDO, setTrack_ok hc2] at h
            refine ⟨clip, u1, r1, m1, u2, r2, m2, rfl, hd, hi, ?_⟩
            cases hp : PUSH_UNDO dbg stack
                ((requestClipMove.setTrack cid clip.currentTrackId).andThen u2)
                (r2.andThen (requestClipMove.setTrack cid tid)) "Move clip" with
            | error e => simp [hp] at h
            | ok st1 =>
              simp [hp] at h
              exact ⟨h.1.symm, by rw [h.2]⟩

/-- A `requestClipMove` that returns `false` left the undo stack alone; its model is what
`Q_ASSERT(undo())` made of the model of the stage that failed. -/
theorem requestClipMove_false_inv {dbg : Bool} {m m' : TimelineModel}
    {stack stack' : Option DocUndoStack} {cid tid position : Int}
    (h : requestClipMove dbg m stack cid tid position = .ok (false, m', stack')) :
    stack' = stack ∧ ∃ clip, mapFind cid m.allClips = some clip ∧
      ((∃ u1 r1 m1,
          requestClipMove.deletion dbg m cid clip.currentTrackId = .ok (false, u1, r1, m1) ∧
          Q_ASSERT_call dbg u1 m1 = .ok m') ∨
       (∃ u1 r1 m1 u2 r2 m2,
          requestClipMove.deletion dbg m cid clip.currentTrackId = .ok (true, u1, r1, m1) ∧
          requestClipMove.insertion dbg m1 cid tid position u1 r1 = .ok (false, u2, r2, m2) ∧
          Q_ASSERT_call dbg u2 m2 = .ok m')) := by
  unfold requestClipMove at h
  cases hc : mapFind cid m.allClips with
  | none => rw [hc] at h; cases dbg <;> simp at h
  | some clip =>
    simp only [hc] at h
    cases hd : requestClipMove.deletion dbg m cid clip.currentTrackId with
    | error e => simp [hd] at h
    | ok res =>
      obtain ⟨b, u1, r1, m1⟩ := res
      cases b with
      | false =>
        simp only [hd, requestClipMove.failure] at h
        cases hq : Q_ASSERT_call dbg u1 m1 with
        | error e => simp [hq] at h
        | ok mq =>
          simp [hq] at h
          exact ⟨h.2.symm, clip, rfl, Or.inl ⟨u1, r1, m1, hd, by rw [hq, h.1]⟩⟩
      | true =>
        simp only [hd] at h
        cases hi : requestClipMove.insertion dbg m1 cid tid position u1 r1 with
        | error e => simp [hi] at h
        | ok res2 =>
          obtain ⟨b2, u2, r2, m2⟩ := res2
          cases b2 with
          | false =>
            simp only [hi, requestClipMove.failure] at h
            cases hq : Q_ASSERT_call dbg u2 m2 with
            | error e => simp [hq] at h
            | ok mq =>
              simp [hq] at h
              exact ⟨h.2.symm, clip, rfl,
                Or.inr ⟨u1, r1, m1, u2, r2, m2, hd, hi, by rw [hq, h.1]⟩⟩
          | true =>
            have hc2 : mapFind cid m2.allClips = some clip := by
              rw [(insertion_frame hi).1, (deletion_frame hd).1]; exact hc
            simp only [hi, UPDATE_UNDO_REDO, setTrack_ok hc2] at h
            cases hp : PUSH_UNDO dbg stack
                ((requestClipMove.setTrack cid clip.currentTrackId).andThen u2)
                (r2.andThen (requestClipMove.setTrack cid tid)) "Move clip" with
            | error e => simp [hp] at h
            | ok st1 => simp [hp] at h

/-! ## The claims on `requestClipMove` -/

/-- The undo closure of a successful deletion stage gives back the model the stage started
from, when the placements of the tracks are ordered by position. -/
theorem deletion_undo {dbg : Bool} {m m1 : TimelineModel} {cid old_tid : Int} {u r : Fun}
    (hs : ∀ nt ∈ m.allTracks, nt.2.placements.Pairwise (fun a b => a.position < b.position))
    (h : requestClipMove.deletion dbg m cid old_tid = .ok (true, u, r, m1)) :
    u m1 = .ok (true, m) := by
  rcases deletion_inv h with ⟨_, _, hu, _, hm⟩ | ⟨_, nodeO, tO, _, ht, h2⟩
  · subst hu hm; rfl
  · rcases h2 with ⟨_, hb, _⟩ | ⟨p0, hp, _, hu, _, hm⟩
    · cases hb
    · subst hu hm
      have hfix : onTrack nodeO (insertPlacement p0 ∘ erasePlacement cid) m = m := by
        apply onTrack_fixed
        intro t ht'
        rw [ht] at ht'
        cases ht'
        exact insertPlacement_erasePlacement cid p0 _ (hs _ (nodeFind_mem ht)) hp
      simp [Fun.andThen, TrackModel.insertStep, Fun.id, onTrack_onTrack, hfix]

/-- The redo closure of a successful deletion stage leads from the model the stage started
from to the model it ended in. -/
theorem deletion_redo {dbg : Bool} {m m1 : TimelineModel} {cid old_tid : Int} {u r : Fun}
    (h : requestClipMove.deletion dbg m cid old_tid = .ok (true, u, r, m1)) :
    r m = .ok (true, m1) := by
  rcases deletion_inv h with ⟨_, _, _, hr, hm⟩ | ⟨_, nodeO, tO, _, ht, h2⟩
  · subst hr hm; rfl
  · rcases h2 with ⟨_, hb, _⟩ | ⟨p0, hp, _, _, hr, hm⟩
    · cases hb
    · subst hr hm
      simp [Fun.andThen, TrackModel.removeStep, Fun.id]

/-- In a debug build a `requestClipMove` that returns `false` has restored the model, when
the placements of the tracks are ordered by position. -/
theorem requestClipMove_debug_failure {m m' : TimelineModel}
    {stack stack' : Option DocUndoStack} {cid tid position : Int}
    (hs : ∀ nt ∈ m.allTracks, nt.2.placements.Pairwise (fun a b => a.position < b.position))
    (h : requestClipMove true m stack cid tid position = .ok (false, m', stack')) :
    m' = m ∧ stack' = stack := by
  obtain ⟨hst, clip, _, h2⟩ := requestClipMove_false_inv h
  refine ⟨?_, hst⟩
  rcases h2 with ⟨u1, r1, m1, hd, hq⟩ | ⟨u1, r1, m1, u2, r2, m2, hd, hi, hq⟩
  · rcases deletion_inv hd with ⟨_, hb, _⟩ | ⟨_, nodeO, tO, _, _, h3⟩
    · cases hb
    · rcases h3 with ⟨_, _, hu, _, hm⟩ | ⟨_, _, hb, _⟩
      · subst hu hm
        simp [Q_ASSERT_call, Fun.id] at hq
        exact hq.symm
      · cases hb
  · obtain ⟨_, _, _, _, _, _, h3⟩ := insertion_inv hi
    rcases h3 with ⟨_, _, hu, _, hm⟩ | ⟨_, hb, _⟩
    · subst hu hm
      simp [Q_ASSERT_call, deletion_undo hs hd] at hq
      exact hq.symm
    · cases hb

/-- C1, at the failing input.  In a build with `QT_NO_DEBUG` the statement
`Q_ASSERT(undo())` does not call `undo`: on the populated test timeline
`requestClipMove(3, 0, 150)` takes clip 3 off track 1, fails to insert it into track 0,
where clip 2 covers the frames 100 to 199, and returns `false` with clip 3 on no track
and its track id still 1.  The debug build restores the model on the same input. -/
theorem requestClipMove_release_skips_undo :
    requestClipMove false populated (some []) 3 0 150 = .ok (false, populatedLost, some []) ∧
    populatedLost ≠ populated ∧
    requestClipMove true populated (some []) 3 0 150 = .ok (false, populated, some []) :=
  ⟨rfl, by decide, rfl⟩

/-- C2.  When the deletion from the current track of the registered clip `cid` (skipped
for an unplaced clip, for which `ok` stays `true`) and the insertion into track `tid` both
succeed, `requestClipMove(cid, tid, position)` returns `true`, the undo stack `st` has
exactly one more entry, labelled "Move clip", and the track id of the clip is `tid`
afterwards.  This holds in the debug build and in the build with `QT_NO_DEBUG`. -/
theorem requestClipMove_success (dbg : Bool) (m m1 m2 : TimelineModel) (st : DocUndoStack)
    (cid tid position : Int) (clip : ClipModel) (u1 r1 u2 r2 : Fun)
    (hc : mapFind cid m.allClips = some clip)
    (hd : requestClipMove.deletion dbg m cid clip.currentTrackId = .ok (true, u1, r1, m1))
    (hi : requestClipMove.insertion dbg m1 cid tid position u1 r1 = .ok (true, u2, r2, m2)) :
    ∃ m' entry, requestClipMove dbg m (some st) cid tid position =
        .ok (true, m', some (entry :: st)) ∧
      entry.text = "Move clip" ∧
      (mapFind cid m'.allClips).map ClipModel.currentTrackId = some tid := by
  refine ⟨setCurrentTrackId cid tid m2,
    ⟨(requestClipMove.setTrack cid clip.currentTrackId).andThen u2,
      r2.andThen (requestClipMove.setTrack cid tid), "Move clip"⟩, ?_, rfl, ?_⟩
  · rw [requestClipMove_of_stages hc hd hi]
    rfl
  · have hc2 : mapFind cid m2.allClips = some clip := by
      rw [(insertion_frame hi).1, (deletion_frame hd).1]; exact hc
    simp [setCurrentTrackId, mapFind_mapModify, hc2]

theorem requestClipMove_success_witness :
    mapFind 3 populated.allClips = some ⟨3, 1, 100⟩ ∧
    requestClipMove.deletion true populated 3 1 =
      .ok (true, (TrackModel.insertStep 1 ⟨3, 50, 100⟩).andThen Fun.id,
        Fun.id.andThen (TrackModel.removeStep 1 3), populatedLost) ∧
    (∃ m' entry, requestClipMove true populated (some []) 3 0 300 =
        .ok (true, m', some [entry]) ∧
      entry.text = "Move clip" ∧
      (mapFind 3 m'.allClips).map ClipModel.currentTrackId = some 0) :=
  ⟨rfl, rfl, requestClipMove_success true populated populatedLost
    (onTrack 0 (insertPlacement ⟨3, 300, 100⟩) populatedLost) []
    3 0 300 ⟨3, 1, 100⟩ _ _ _ _ rfl rfl rfl⟩

/-- C3, counterexample.  Clip id 7 is not registered in the populated test timeline and
track 0 is: `requestClipMove(7, 0, 0)` does not return `false`; the debug build stops at the
failed assertion `m_allClips.count(cid) > 0`, and the build with `QT_NO_DEBUG` dereferences
the null pointer `m_allClips[7]`. -/
theorem requestClipMove_unregistered_clip_aborts :
    isClip populated 7 = false ∧ isTrack populated 0 = true ∧
    requestClipMove true populated (some []) 7 0 0 = .error Fault.assertion ∧
    requestClipMove false populated (some []) 7 0 0 = .error Fault.undefined :=
  ⟨rfl, rfl, rfl, rfl⟩

/-- C3, amended.  For an id `cid` that is not in the clip registry
`requestClipMove(cid, tid, position)` does not return: a debug build ends in the failed
assertion of line 291, a build with `QT_NO_DEBUG` in the dereference of the null pointer
`m_allClips[cid]`; no model and no undo stack result from the call. -/
theorem requestClipMove_unregistered_clip (dbg : Bool) (m : TimelineModel)
    (stack : Option DocUndoStack) (cid tid position : Int) (h : isClip m cid = false) :
    requestClipMove dbg m stack cid tid position =
      .error (if dbg then Fault.assertion else Fault.undefined) := by
  unfold isClip at h
  cases hc : mapFind cid m.allClips with
  | some c => simp [hc] at h
  | none =>
    unfold requestClipMove
    cases dbg <;> simp [hc]

theorem requestClipMove_unregistered_clip_witness :
    isClip TimelineModel.empty 0 = false ∧
    requestClipMove true TimelineModel.empty none 0 0 0 = .error Fault.assertion :=
  ⟨rfl, requestClipMove_unregistered_clip true TimelineModel.empty none 0 0 0 rfl⟩

theorem setCurrentTrackId_restore {cid tid : Int} {m : TimelineModel} {clip : ClipModel}
    (hc : mapFind cid m.allClips = some clip) :
    setCurrentTrackId cid clip.currentTrackId (setCurrentTrackId cid tid m) = m := by
  have : mapModify cid (fun c => { c with currentTrackId := clip.currentTrackId })
      (mapModify cid (fun c => { c with currentTrackId := tid }) m.allClips) = m.allClips := by
    rw [mapModify_mapModify]
    apply mapModify_fixed
    intro v hv
    rw [hc] at hv
    cases hv
    rfl
  cases m
  simp only [setCurrentTrackId] at this ⊢
  rw [this]

theorem mapFind_setCurrentTrackId {cid tid : Int} {m : TimelineModel} {clip : ClipModel}
    (hc : mapFind cid m.allClips = some clip) :
    mapFind cid (setCurrentTrackId cid tid m).allClips =
      some { clip with currentTrackId := tid } := by
  simp [setCurrentTrackId, mapFind_mapModify, hc]

theorem onTrack_setCurrentTrackId (node : Nat) (f : List Placement → List Placement)
    (cid tid : Int) (m : TimelineModel) :
    onTrack node f (setCurrentTrackId cid tid m) = setCurrentTrackId cid tid (onTrack node f m) :=
  rfl

/-- After a successful deletion stage the clip is on no track, in a well-formed model. -/
theorem not_placed_after_deletion {dbg : Bool} {m m1 : TimelineModel} {cid : Int}
    {clip : ClipModel} {u1 r1 : Fun} (hwf : WellFormed m)
    (hc : mapFind cid m.allClips = some clip)
    (hd : requestClipMove.deletion dbg m cid clip.currentTrackId = .ok (true, u1, r1, m1))
    {n : Nat} {t : TrackModel} (ht : nodeFind n m1.allTracks = some t) :
    findPlacement cid t.placements = none := by
  obtain ⟨_, _, hnodup, hplaced, _, _⟩ := hwf
  have key : ∀ t', nodeFind n m.allTracks = some t' →
      findPlacement cid t'.placements ≠ none →
      clip.currentTrackId ≠ -1 ∧ mapFind clip.currentTrackId m.iteratorTable = some n := by
    intro t' ht' hne
    cases hp : findPlacement cid t'.placements with
    | none => exact absurd hp hne
    | some p =>
      have := hplaced (n, t') (nodeFind_mem ht') p (findPlacement_mem hp) clip
        (by rw [findPlacement_cid hp]; exact hc)
      exact this
  rcases deletion_inv hd with ⟨ho, _, _, _, hm⟩ | ⟨_, nodeO, tO, hto, htO, h2⟩
  · subst hm
    by_contra hne
    exact (key t ht hne).1 ho
  · rcases h2 with ⟨_, hb, _⟩ | ⟨p0, hp, _, _, _, hm⟩
    · cases hb
    · subst hm
      rw [nodeFind_onTrack] at ht
      by_cases hn : n = nodeO
      · subst hn
        simp only [if_true, htO, Option.map_some', Option.some.injEq] at ht
        subst ht
        exact findPlacement_erasePlacement cid _ (hnodup _ (nodeFind_mem htO))
      · simp only [hn, if_false] at ht
        by_contra hne
        have := (key t ht hne).2
        rw [hto] at this
        exact hn (Option.some.inj this).symm

/-- The undo closure of a successful insertion stage gives back the model the deletion
stage started from, in a well-formed model. -/
theorem insertion_undo {dbg : Bool} {m m1 m2 : TimelineModel} {cid tid position : Int}
    {clip : ClipModel} {u1 r1 u2 r2 : Fun} (hwf : WellFormed m)
    (hc : mapFind cid m.allClips = some clip)
    (hd : requestClipMove.deletion dbg m cid clip.currentTrackId = .ok (true, u1, r1, m1))
    (hi : requestClipMove.insertion dbg m1 cid tid position u1 r1 = .ok (true, u2, r2, m2)) :
    u2 m2 = .ok (true, m) := by
  have hid : clip.id = cid := hwf.1 (cid, clip) (mapFind_mem hc)
  obtain ⟨clip', nodeT, tT, hc', _, hnode, h3⟩ := insertion_inv hi
  rw [(deletion_frame hd).1, hc] at hc'
  cases hc'
  rcases h3 with ⟨_, hb, _⟩ | ⟨_, _, hu, _, hm⟩
  · cases hb
  · subst hu hm
    have hfix : onTrack nodeT
        (erasePlacement clip.id ∘ insertPlacement ⟨clip.id, position, clip.playtime⟩) m1
        = m1 := by
      apply onTrack_fixed
      intro t ht
      have hnone := not_placed_after_deletion hwf hc hd ht
      rw [← hid] at hnone
      exact erasePlacement_insertPlacement ⟨clip.id, position, clip.playtime⟩ _ hnone
    simp [Fun.andThen, TrackModel.removeStep, onTrack_onTrack, hfix,
      deletion_undo hwf.2.1 hd]

/-- The redo closure of a successful insertion stage leads from the model the deletion
stage started from to the model the insertion stage ended in. -/
theorem insertion_redo {dbg : Bool} {m m1 m2 : TimelineModel} {cid tid position : Int}
    {old_tid : Int} {u1 r1 u2 r2 : Fun}
    (hd : requestClipMove.deletion dbg m cid old_tid = .ok (true, u1, r1, m1))
    (hi : requestClipMove.insertion dbg m1 cid tid position u1 r1 = .ok (true, u2, r2, m2)) :
    r2 m = .ok (true, m2) := by
  obtain ⟨clip', nodeT, tT, _, _, _, h3⟩ := insertion_inv hi
  rcases h3 with ⟨_, hb, _⟩ | ⟨_, _, _, hr, hm⟩
  · cases hb
  · subst hr hm
    simp [Fun.andThen, TrackModel.insertStep, deletion_redo hd]

/-- The entry a `requestClipMove` pushes on a live undo stack. -/
theorem requestClipMove_entry {dbg : Bool} {m m' : TimelineModel} {st : DocUndoStack}
    {stack' : Option DocUndoStack} {cid tid position : Int}
    (h : requestClipMove dbg m (some st) cid tid position = .ok (true, m', stack')) :
    ∃ clip u1 r1 m1 u2 r2 m2, mapFind cid m.allClips = some clip ∧
      requestClipMove.deletion dbg m cid clip.currentTrackId = .ok (true, u1, r1, m1) ∧
      requestClipMove.insertion dbg m1 cid tid position u1 r1 = .ok (true, u2, r2, m2) ∧
      m' = setCurrentTrackId cid tid m2 ∧
      stack' = some (⟨(requestClipMove.setTrack cid clip.currentTrackId).andThen u2,
        r2.andThen (requestClipMove.setTrack cid tid), "Move clip"⟩ :: st) := by
  obtain ⟨clip, u1, r1, m1, u2, r2, m2, hc, hd, hi, hm, hp⟩ := requestClipMove_true_inv h
  refine ⟨clip, u1, r1, m1, u2, r2, m2, hc, hd, hi, hm, ?_⟩
  simp only [PUSH_UNDO, Except.ok.injEq] at hp
  exact hp.symm

theorem andThen_ok {f g : Fun} {m m1 m2 : TimelineModel} {a b : Bool}
    (hf : f m = .ok (a, m1)) (hg : g m1 = .ok (b, m2)) :
    f.andThen g m = .ok (b && a, m2) := by
  simp [Fun.andThen, hf, hg]

/-- C4.  In a model that satisfies the invariants of the data model, for a
`requestClipMove(cid, tid, position)` that returns `true` with the live undo stack `st`:
the stack has one new entry, and running its undo closure on the model after the call
returns `true` and yields the model before the call, the whole of it: the track id of the
clip, the placements of every track, the clip registry and the track list.  The closure
is the sequence of the track-id reversal, the undo of the insertion (the clip leaves the
track `tid`) and the undo of the deletion (the old placement enters the old track again;
nothing for a clip that was unplaced). -/
theorem requestClipMove_undo_restores (dbg : Bool) (m m' : TimelineModel) (st : DocUndoStack)
    (stack' : Option DocUndoStack) (cid tid position : Int) (hwf : WellFormed m)
    (h : requestClipMove dbg m (some st) cid tid position = .ok (true, m', stack')) :
    ∃ entry clip nodeT undoDeletion,
      stack' = some (entry :: st) ∧ mapFind cid m.allClips = some clip ∧
      entry.undo m' = .ok (true, m) ∧
      mapFind tid m.iteratorTable = some nodeT ∧
      entry.undo = (requestClipMove.setTrack cid clip.currentTrackId).andThen
        ((TrackModel.removeStep nodeT cid).andThen undoDeletion) ∧
      (clip.currentTrackId = -1 → undoDeletion = Fun.id) ∧
      (clip.currentTrackId ≠ -1 → ∃ nodeO tO p0,
        mapFind clip.currentTrackId m.iteratorTable = some nodeO ∧
        nodeFind nodeO m.allTracks = some tO ∧
        findPlacement cid tO.placements = some p0 ∧
        undoDeletion = (TrackModel.insertStep nodeO p0).andThen Fun.id) := by
  obtain ⟨clip, u1, r1, m1, u2, r2, m2, hc, hd, hi, hm, hst⟩ := requestClipMove_entry h
  have hid : clip.id = cid := hwf.1 (cid, clip) (mapFind_mem hc)
  have hc2 : mapFind cid m2.allClips = some clip := by
    rw [(insertion_frame hi).1, (deletion_frame hd).1]; exact hc
  have hundo : u2 m2 = .ok (true, m) := insertion_undo hwf hc hd hi
  obtain ⟨clip', nodeT, tT, hc', htab, _, h3⟩ := insertion_inv hi
  rw [(deletion_frame hd).1, hc] at hc'
  cases hc'
  rw [(deletion_frame hd).2] at htab
  rcases h3 with ⟨_, hb, _⟩ | ⟨_, _, hu, _, _⟩
  · cases hb
  · refine ⟨_, clip, nodeT, u1, hst, hc, ?_, htab, ?_, ?_, ?_⟩
    · subst hm
      exact andThen_ok (setTrack_ok (mapFind_setCurrentTrackId hc2))
        (by rw [@setCurrentTrackId_restore cid tid m2 clip hc2]; exact hundo)
    · rw [hu, hid]
    · intro ho
      rcases deletion_inv hd with ⟨_, _, hu1, _⟩ | ⟨hne, _⟩
      · exact hu1
      · exact absurd ho hne
    · intro hne
      rcases deletion_inv hd with ⟨ho, _⟩ | ⟨_, nodeO, tO, hto, htO, h4⟩
      · exact absurd ho hne
      · rcases h4 with ⟨_, hb, _⟩ | ⟨p0, hp, _, hu1, _⟩
        · cases hb
        · exact ⟨nodeO, tO, p0, hto, htO, hp, hu1⟩

theorem requestClipMove_undo_restores_witness :
    WellFormed populated ∧
    ∃ stack', requestClipMove true populated (some []) 3 0 300 =
        .ok (true, populatedMoved, stack') ∧
      ∃ entry clip nodeT undoDeletion,
        stack' = some [entry] ∧ mapFind 3 populated.allClips = some clip ∧
        entry.undo populatedMoved = .ok (true, populated) ∧
        mapFind 0 populated.iteratorTable = some nodeT ∧
        entry.undo = (requestClipMove.setTrack 3 clip.currentTrackId).andThen
          ((TrackModel.removeStep nodeT 3).andThen undoDeletion) ∧
        (clip.currentTrackId = -1 → undoDeletion = Fun.id) ∧
        (clip.currentTrackId ≠ -1 → ∃ nodeO tO p0,
          mapFind clip.currentTrackId populated.iteratorTable = some nodeO ∧
          nodeFind nodeO populated.allTracks = some tO ∧
          findPlacement 3 tO.placements = some p0 ∧
          undoDeletion = (TrackModel.insertStep nodeO p0).andThen Fun.id) :=
  ⟨by decide, _, rfl,
    requestClipMove_undo_restores true populated populatedMoved [] _ 3 0 300 (by decide) rfl⟩

/-- C5.  In a model that satisfies the invariants of the data model, for a
`requestClipMove(cid, tid, position)` that returns `true` with the live undo stack `st`:
running the undo closure of the new entry and then its redo closure on the model after the
call yields this very model again, both closures returning `true`; in between the model
is the one before the call. -/
theorem requestClipMove_undo_redo (dbg : Bool) (m m' : TimelineModel) (st : DocUndoStack)
    (stack' : Option DocUndoStack) (cid tid position : Int) (hwf : WellFormed m)
    (h : requestClipMove dbg m (some st) cid tid position = .ok (true, m', stack')) :
    ∃ entry, stack' = some (entry :: st) ∧
      entry.undo m' = .ok (true, m) ∧ entry.redo m = .ok (true, m') ∧
      (entry.undo.andThen entry.redo) m' = .ok (true, m') := by
  obtain ⟨clip, u1, r1, m1, u2, r2, m2, hc, hd, hi, hm, hst⟩ := requestClipMove_entry h
  have hc2 : mapFind cid m2.allClips = some clip := by
    rw [(insertion_frame hi).1, (deletion_frame hd).1]; exact hc
  have hundo : u2 m2 = .ok (true, m) := insertion_undo hwf hc hd hi
  have hredo : r2 m = .ok (true, m2) := insertion_redo hd hi
  have h1 : ((requestClipMove.setTrack cid clip.currentTrackId).andThen u2) m' =
      .ok (true, m) := by
    subst hm
    exact andThen_ok (setTrack_ok (mapFind_setCurrentTrackId hc2))
      (by rw [@setCurrentTrackId_restore cid tid m2 clip hc2]; exact hundo)
  have h2 : (r2.andThen (requestClipMove.setTrack cid tid)) m = .ok (true, m') := by
    subst hm
    exact andThen_ok hredo (setTrack_ok hc2)
  exact ⟨_, hst, h1, h2, andThen_ok h1 h2⟩

theorem requestClipMove_undo_redo_witness :
    WellFormed populated ∧
    ∃ stack', requestClipMove true populated (some []) 3 0 300 =
        .ok (true, populatedMoved, stack') ∧
      ∃ entry, stack' = some [entry] ∧
        entry.undo populatedMoved = .ok (true, populated) ∧
        entry.redo populated = .ok (true, populatedMoved) ∧
        (entry.undo.andThen entry.redo) populatedMoved = .ok (true, populatedMoved) :=
  ⟨by decide, _, rfl,
    requestClipMove_undo_redo true populated populatedMoved [] _ 3 0 300 (by decide) rfl⟩

theorem Q_ASSERT_call_inv {dbg : Bool} {u : Fun} {m m' : TimelineModel}
    (h : Q_ASSERT_call dbg u m = .ok m') :
    (dbg = false ∧ m' = m) ∨ (dbg = true ∧ u m = .ok (true, m')) := by
  unfold Q_ASSERT_call at h
  cases dbg with
  | false => simp at h; exact Or.inl ⟨rfl, h.symm⟩
  | true =>
    right
    simp only [if_true] at h
    cases hu : u m with
    | error e => simp [hu] at h
    | ok res =>
      obtain ⟨b, mu⟩ := res
      cases b with
      | false => simp [hu] at h
      | true => simp [hu] at h; exact ⟨rfl, by rw [h]⟩

theorem noOverlap_onTrack {node : Nat} {f : List Placement → List Placement}
    {m : TimelineModel} (h0 : NoOverlap m)
    (hf : ∀ t, nodeFind node m.allTracks = some t →
      (f t.placements).Pairwise (fun a b => a.overlaps b = false)) :
    NoOverlap (onTrack node f m) := by
  intro nt hnt
  rcases mem_nodeModify hnt with hmem | ⟨t, ht, rfl⟩
  · exact h0 nt hmem
  · exact hf t ht

theorem noOverlap_setCurrentTrackId {cid tid : Int} {m : TimelineModel} (h0 : NoOverlap m) :
    NoOverlap (setCurrentTrackId cid tid m) := h0

theorem noOverlap_deletion {dbg : Bool} {m m1 : TimelineModel} {cid old_tid : Int} {b : Bool}
    {u r : Fun} (h0 : NoOverlap m)
    (h : requestClipMove.deletion dbg m cid old_tid = .ok (b, u, r, m1)) : NoOverlap m1 := by
  rcases deletion_inv h with ⟨_, _, _, _, hm⟩ | ⟨_, nodeO, tO, _, _, h2⟩
  · subst hm; exact h0
  · rcases h2 with ⟨_, _, _, _, hm⟩ | ⟨p0, _, _, _, _, hm⟩
    · subst hm; exact h0
    · subst hm
      exact noOverlap_onTrack h0
        (fun t ht => pairwise_erasePlacement cid _ (h0 _ (nodeFind_mem ht)))

theorem noOverlap_insertion {dbg : Bool} {m m' : TimelineModel} {cid tid position : Int}
    {b : Bool} {undo redo u r : Fun} (h0 : NoOverlap m)
    (h : requestClipMove.insertion dbg m cid tid position undo redo = .ok (b, u, r, m')) :
    NoOverlap m' := by
  obtain ⟨clip, nodeT, tT, _, _, hnode, h2⟩ := insertion_inv h
  rcases h2 with ⟨_, _, _, _, hm⟩ | ⟨hov, _, _, _, hm⟩
  · subst hm; exact h0
  · subst hm
    refine noOverlap_onTrack h0 (fun t ht => ?_)
    rw [hnode] at ht
    cases ht
    exact pairwise_insertPlacement _ _ (h0 _ (nodeFind_mem hnode)) hov

/-- What `Q_ASSERT(undo())` makes of the model after a successful deletion stage keeps the
placements free of overlaps, in both builds. -/
theorem noOverlap_deletion_undone {dbg : Bool} {m m1 m' : TimelineModel} {cid old_tid : Int}
    {u r : Fun} (h0 : NoOverlap m)
    (hd : requestClipMove.deletion dbg m cid old_tid = .ok (true, u, r, m1))
    (hq : Q_ASSERT_call dbg u m1 = .ok m') : NoOverlap m' := by
  rcases Q_ASSERT_call_inv hq with ⟨_, hm⟩ | ⟨_, hu⟩
  · subst hm; exact noOverlap_deletion h0 hd
  · rcases deletion_inv hd with ⟨_, _, hu1, _, hm⟩ | ⟨_, nodeO, tO, _, htO, h2⟩
    · subst hu1 hm
      simp [Fun.id] at hu
      subst hu; exact h0
    · rcases h2 with ⟨_, hb, _⟩ | ⟨p0, hp, _, hu1, _, hm⟩
      · cases hb
      · subst hu1 hm
        simp [Fun.andThen, TrackModel.insertStep, Fun.id, onTrack_onTrack] at hu
        subst hu
        refine noOverlap_onTrack h0 (fun t ht => ?_)
        rw [htO] at ht
        cases ht
        exact pairwise_reinsert cid p0 _ (h0 _ (nodeFind_mem htO)) hp

/-- One `requestClipMove`, successful or failed, keeps the placements free of overlaps. -/
theorem noOverlap_requestClipMove {dbg : Bool} {m m' : TimelineModel}
    {stack stack' : Option DocUndoStack} {cid tid position : Int} {b : Bool}
    (h0 : NoOverlap m)
    (h : requestClipMove dbg m stack cid tid position = .ok (b, m', stack')) :
    NoOverlap m' := by
  cases b with
  | true =>
    obtain ⟨clip, u1, r1, m1, u2, r2, m2, _, hd, hi, hm, _⟩ := requestClipMove_true_inv h
    subst hm
    exact noOverlap_setCurrentTrackId (noOverlap_insertion (noOverlap_deletion h0 hd) hi)
  | false =>
    obtain ⟨_, clip, _, h2⟩ := requestClipMove_false_inv h
    rcases h2 with ⟨u1, r1, m1, hd, hq⟩ | ⟨u1, r1, m1, u2, r2, m2, hd, hi, hq⟩
    · rcases deletion_inv hd with ⟨_, hb, _⟩ | ⟨_, nodeO, tO, _, _, h3⟩
      · cases hb
      · rcases h3 with ⟨_, _, hu, _, hm⟩ | ⟨_, _, hb, _⟩
        · subst hu hm
          rcases Q_ASSERT_call_inv hq with ⟨_, hm⟩ | ⟨_, hu⟩
          · subst hm; exact h0
          · simp [Fun.id] at hu
            subst hu; exact h0
        · cases hb
    · obtain ⟨_, _, _, _, _, _, h3⟩ := insertion_inv hi
      rcases h3 with ⟨_, _, hu, _, hm⟩ | ⟨_, hb, _⟩
      · subst hu hm
        exact noOverlap_deletion_undone h0 hd hq
      · cases hb

/-- C6.  From a model in which no two placements on the same track overlap, a run of
`requestClipMove` calls, successful or failed, in the debug build or in the build with
`QT_NO_DEBUG`, ends in a model in which no two placements on the same track overlap.  The
run is any finite sequence of calls, so the statement holds after every call of a run. -/
theorem requestClipMoves_noOverlap (dbg : Bool) (calls : List (Int × Int × Int))
    (m m' : TimelineModel) (stack stack' : Option DocUndoStack) (h0 : NoOverlap m)
    (h : requestClipMoves dbg calls (m, stack) = .ok (m', stack')) : NoOverlap m' := by
  induction calls generalizing m stack with
  | nil =>
    simp only [requestClipMoves, Except.ok.injEq, Prod.mk.injEq] at h
    rw [← h.1]; exact h0
  | cons call rest ih =>
    obtain ⟨cid, tid, position⟩ := call
    simp only [requestClipMoves] at h
    cases hr : requestClipMove dbg m stack cid tid position with
    | error e => simp [hr] at h
    | ok res =>
      obtain ⟨b, m1, stack1⟩ := res
      simp only [hr] at h
      exact ih m1 stack1 (noOverlap_requestClipMove h0 hr) h

theorem requestClipMoves_noOverlap_witness :
    NoOverlap populated ∧
    ∃ stack', requestClipMoves true [(3, 0, 150), (2, 1, 40), (2, 1, 200), (3, 0, 0)]
        (populated, some []) =
        .ok ({ populated with
          allTracks := [(0, ⟨0, [⟨3, 0, 100⟩]⟩), (1, ⟨1, [⟨2, 200, 100⟩]⟩)]
          allClips := [(2, ⟨2, 1, 100⟩), (3, ⟨3, 0, 100⟩)] }, stack') ∧
      NoOverlap { populated with
          allTracks := [(0, ⟨0, [⟨3, 0, 100⟩]⟩), (1, ⟨1, [⟨2, 200, 100⟩]⟩)]
          allClips := [(2, ⟨2, 1, 100⟩), (3, ⟨3, 0, 100⟩)] } :=
  ⟨by decide, _, rfl,
    requestClipMoves_noOverlap true [(3, 0, 150), (2, 1, 40), (2, 1, 200), (3, 0, 0)]
      populated _ (some []) _ (by decide) rfl⟩

theorem deletion_of_placed (dbg : Bool) {m : TimelineModel} {cid old_tid : Int} {node : Nat}
    {t : TrackModel} {p0 : Placement} (ho : old_tid ≠ -1)
    (htab : mapFind old_tid m.iteratorTable = some node)
    (hnode : nodeFind node m.allTracks = some t)
    (hp : findPlacement cid t.placements = some p0) :
    requestClipMove.deletion dbg m cid old_tid =
      .ok (true, (TrackModel.insertStep node p0).andThen Fun.id,
        Fun.id.andThen (TrackModel.removeStep node cid), onTrack node (erasePlacement cid) m) := by
  simp [requestClipMove.deletion, ho, getTrackById_of_find htab hnode,
    TrackModel.requestClipDeletion, hnode, hp, UPDATE_UNDO_REDO]

theorem insertion_of_free (dbg : Bool) {m : TimelineModel} {cid tid : Int} (position : Int)
    {node : Nat} {t : TrackModel} {clip : ClipModel} (undo redo : Fun)
    (htab : mapFind tid m.iteratorTable = some node)
    (hnode : nodeFind node m.allTracks = some t)
    (hc : mapFind cid m.allClips = some clip)
    (hov : t.placements.any
      (fun q => (Placement.mk clip.id position clip.playtime).overlaps q) = false) :
    requestClipMove.insertion dbg m cid tid position undo redo =
      .ok (true, (TrackModel.removeStep node clip.id).andThen undo,
        redo.andThen (TrackModel.insertStep node ⟨clip.id, position, clip.playtime⟩),
        onTrack node (insertPlacement ⟨clip.id, position, clip.playtime⟩) m) := by
  simp [requestClipMove.insertion, getTrackById_of_find htab hnode, hc,
    TrackModel.requestClipInsertion, hnode, hov, UPDATE_UNDO_REDO]

/-- C7.  In a model that satisfies the invariants of the data model and has no overlapping
placements, let clip `cid` be placed on track `originalTid` at `originalPos`.  When
`requestClipMove(cid, tid, position)` returns `true` with the live undo stack `st`, the
following `requestClipMove(cid, originalTid, originalPos)` returns `true` as well, the model
after it is the model before the first move, the whole of it, and the undo stack is
exactly two entries deeper. -/
theorem requestClipMove_there_and_back (dbg : Bool) (m m1 : TimelineModel) (st : DocUndoStack)
    (stack1 : Option DocUndoStack) (cid tid position originalTid originalPos : Int)
    (clip : ClipModel) (nodeO : Nat) (tO : TrackModel)
    (hwf : WellFormed m) (hno : NoOverlap m)
    (hc : mapFind cid m.allClips = some clip) (hon : clip.currentTrackId = originalTid)
    (hto : mapFind originalTid m.iteratorTable = some nodeO)
    (htO : nodeFind nodeO m.allTracks = some tO)
    (hp : findPlacement cid tO.placements = some ⟨cid, originalPos, clip.playtime⟩)
    (h1 : requestClipMove dbg m (some st) cid tid position = .ok (true, m1, stack1)) :
    ∃ e1 e2, stack1 = some (e1 :: st) ∧
      requestClipMove dbg m1 stack1 cid originalTid originalPos =
        .ok (true, m, some (e2 :: e1 :: st)) := by
  subst hon
  obtain ⟨clip', u1, r1, ma, u2, r2, mb, hc', hd, hi, hm, hst⟩ := requestClipMove_entry h1
  rw [hc] at hc'
  cases hc'
  have hid : clip.id = cid := hwf.1 (cid, clip) (mapFind_mem hc)
  have hsent : mapFind (-1) m.iteratorTable = none := hwf.2.2.2.2.1
  have horig : clip.currentTrackId ≠ -1 := by
    intro h; rw [h, hsent] at hto; cases hto
  -- the first move: the clip leaves its track and enters the track `tid`
  have hda := deletion_of_placed dbg horig hto htO hp
  rw [hd] at hda
  simp only [Except.ok.injEq, Prod.mk.injEq, true_and] at hda
  obtain ⟨-, -, hma⟩ := hda
  obtain ⟨clip', nodeT, tT, hc', htab, hnodeT, h3⟩ := insertion_inv hi
  rw [(deletion_frame hd).1, hc] at hc'
  cases hc'
  rcases h3 with ⟨_, hb, _⟩ | ⟨_, _, _, _, hmb⟩
  · cases hb
  have hfree : findPlacement cid tT.placements = none :=
    not_placed_after_deletion hwf hc hd hnodeT
  have htid : tid ≠ -1 := by
    intro h; rw [h, (deletion_frame hd).2, hsent] at htab; cases htab
  rw [hid] at hmb
  -- the second move: the deletion from the track `tid`
  have hc1 : mapFind cid m1.allClips = some { clip with currentTrackId := tid } := by
    rw [hm]
    apply mapFind_setCurrentTrackId
    rw [(insertion_frame hi).1, (deletion_frame hd).1]; exact hc
  have htab1 : mapFind tid m1.iteratorTable = some nodeT := by
    rw [hm, hmb]; exact htab
  have hnode1 : nodeFind nodeT m1.allTracks =
      some ⟨tT.id, insertPlacement ⟨cid, position, clip.playtime⟩ tT.placements⟩ := by
    rw [hm, hmb]
    show nodeFind nodeT (onTrack nodeT _ ma).allTracks = _
    rw [nodeFind_onTrack]
    simp [hnodeT]
  have hd2 := deletion_of_placed dbg htid htab1 hnode1
    (findPlacement_insertPlacement ⟨cid, position, clip.playtime⟩ _ hfree)
  have hback : onTrack nodeT (erasePlacement cid) m1 = setCurrentTrackId cid tid ma := by
    rw [hm, hmb, onTrack_setCurrentTrackId, onTrack_onTrack]
    congr 1
    apply onTrack_fixed
    intro t ht
    rw [hnodeT] at ht
    cases ht
    exact erasePlacement_insertPlacement ⟨cid, position, clip.playtime⟩ _ hfree
  rw [hback] at hd2
  -- the second move: the insertion into the original track
  have htab2 : mapFind clip.currentTrackId (setCurrentTrackId cid tid ma).iteratorTable =
      some nodeO := by
    rw [hma]; exact hto
  have hnode2 : nodeFind nodeO (setCurrentTrackId cid tid ma).allTracks =
      some ⟨tO.id, erasePlacement cid tO.placements⟩ := by
    rw [hma]
    show nodeFind nodeO (onTrack nodeO _ m).allTracks = _
    rw [nodeFind_onTrack]
    simp [htO]
  have hc2 : mapFind cid (setCurrentTrackId cid tid ma).allClips =
      some { clip with currentTrackId := tid } := by
    apply mapFind_setCurrentTrackId
    rw [(deletion_frame hd).1]; exact hc
  have hov : (erasePlacement cid tO.placements).any
      (fun q => (Placement.mk cid originalPos clip.playtime).overlaps q) = false :=
    any_overlaps_erasePlacement cid _ _ (hno _ (nodeFind_mem htO)) hp
  have hi2 := insertion_of_free dbg originalPos
    ((TrackModel.insertStep nodeT ⟨cid, position, clip.playtime⟩).andThen Fun.id)
    (Fun.id.andThen (TrackModel.removeStep nodeT cid)) htab2 hnode2 hc2
    (by simpa [hid] using hov)
  have hrestored : onTrack nodeO
      (insertPlacement ⟨cid, originalPos, clip.playtime⟩) (setCurrentTrackId cid tid ma) =
      setCurrentTrackId cid tid m := by
    rw [hma, onTrack_setCurrentTrackId, onTrack_onTrack]
    congr 1
    apply onTrack_fixed
    intro t ht
    rw [htO] at ht
    cases ht
    exact insertPlacement_erasePlacement cid _ _ (hwf.2.1 _ (nodeFind_mem htO)) hp
  simp only [hid] at hi2
  rw [hrestored] at hi2
  refine ⟨_,
    ⟨(requestClipMove.setTrack cid tid).andThen
        ((TrackModel.removeStep nodeO cid).andThen
          ((TrackModel.insertStep nodeT ⟨cid, position, clip.playtime⟩).andThen Fun.id)),
      ((Fun.id.andThen (TrackModel.removeStep nodeT cid)).andThen
          (TrackModel.insertStep nodeO ⟨cid, originalPos, clip.playtime⟩)).andThen
        (requestClipMove.setTrack cid clip.currentTrackId), "Move clip"⟩, hst, ?_⟩
  rw [requestClipMove_of_stages hc1 hd2 hi2, hst]
  simp only [PUSH_UNDO]
  rw [@setCurrentTrackId_restore cid tid m clip hc]

theorem requestClipMove_there_and_back_witness :
    WellFormed populated ∧ NoOverlap populated ∧
    mapFind 3 populated.allClips = some ⟨3, 1, 100⟩ ∧
    mapFind 1 populated.iteratorTable = some 1 ∧
    nodeFind 1 populated.allTracks = some ⟨1, [⟨3, 50, 100⟩]⟩ ∧
    ∃ stack1, requestClipMove true populated (some []) 3 0 300 =
        .ok (true, populatedMoved, stack1) ∧
      ∃ e1 e2, stack1 = some [e1] ∧
        requestClipMove true populatedMoved stack1 3 1 50 =
          .ok (true, populated, some [e2, e1]) :=
  ⟨by decide, by decide, rfl, rfl, rfl, _, rfl,
    requestClipMove_there_and_back true populated populatedMoved [] _ 3 0 300 1 50
      ⟨3, 1, 100⟩ 1 ⟨1, [⟨3, 50, 100⟩]⟩ (by decide) (by decide) rfl rfl rfl rfl rfl rfl⟩

/-! ## The requests that delegate -/

/-- C8.  Whatever the delegates are, with the live undo stack `st`: when
`ClipModel::requestResize` returns `true` for the registered clip, `requestClipResize`
returns `true` and the stack has exactly one new entry, labelled "Resize clip", that holds
the closures of the delegate; when `groupItems` returns an id other than `-1`,
`requestGroupClips` returns `true` with one new entry "Group clips"; when `ungroupItem`
returns `true`, `requestUngroupClip` returns `true` with one new entry "Ungroup clips".
The model after the request is the one the delegate left. -/
theorem delegating_requests_push (d : Delegates) (dbg : Bool) (m : TimelineModel)
    (st : DocUndoStack) :
    (∀ cid size right clip undo redo m1, mapFind cid m.allClips = some clip →
      d.requestResize clip size right Fun.id Fun.id m = .ok (true, undo, redo, m1) →
      requestClipResize d dbg m (some st) cid size right =
        .ok (true, m1, some (⟨undo, redo, "Resize clip"⟩ :: st))) ∧
    (∀ ids gid undo redo m1, gid ≠ -1 →
      d.groupItems ids Fun.id Fun.id m = .ok (gid, undo, redo, m1) →
      requestGroupClips d dbg m (some st) ids =
        .ok (true, m1, some (⟨undo, redo, "Group clips"⟩ :: st))) ∧
    (∀ id undo redo m1,
      d.ungroupItem id Fun.id Fun.id m = .ok (true, undo, redo, m1) →
      requestUngroupClip d dbg m (some st) id =
        .ok (true, m1, some (⟨undo, redo, "Ungroup clips"⟩ :: st))) := by
  refine ⟨?_, ?_, ?_⟩
  · intro cid size right clip undo redo m1 hc hd
    simp [requestClipResize, hc, hd, PUSH_UNDO]
  · intro ids gid undo redo m1 hg hd
    simp [requestGroupClips, hd, hg, PUSH_UNDO]
  · intro id undo redo m1 hd
    simp [requestUngroupClip, hd, PUSH_UNDO]

theorem delegating_requests_push_witness :
    (∃ m1 entry, requestClipResize sampleDelegates true populated (some []) 2 50 true =
        .ok (true, m1, some [entry]) ∧ entry.text = "Resize clip") ∧
    (∃ m1 entry, requestGroupClips sampleDelegates true populated (some []) [2, 3] =
        .ok (true, m1, some [entry]) ∧ entry.text = "Group clips") ∧
    (∃ m1 entry, requestUngroupClip sampleDelegates true (setParent 2 100 populated)
        (some []) 2 = .ok (true, m1, some [entry]) ∧ entry.text = "Ungroup clips") :=
  ⟨⟨_, _, (delegating_requests_push sampleDelegates true populated []).1 2 50 true
      ⟨2, 0, 100⟩
      (Fun.andThen (fun s => .ok (true, setPlaytime 2 100 s)) Fun.id)
      (Fun.andThen Fun.id (fun s => .ok (true, setPlaytime 2 50 s)))
      (setPlaytime 2 50 populated) rfl rfl, rfl⟩,
   ⟨_, _, (delegating_requests_push sampleDelegates true populated []).2.1 [2, 3] 100
      (Fun.andThen (fun s => .ok (true, { s with groups := populated.groups })) Fun.id)
      (Fun.andThen Fun.id (fun s => .ok (true, linkGroup 100 [2, 3] s)))
      (linkGroup 100 [2, 3] populated) (by decide) rfl, rfl⟩,
   ⟨_, _, (delegating_requests_push sampleDelegates true (setParent 2 100 populated) []).2.2 2
      (Fun.andThen (fun s => .ok (true, setParent 2 100 s)) Fun.id)
      (Fun.andThen Fun.id (fun s => .ok (true, setParent 2 (-1) s)))
      (setParent 2 (-1) (setParent 2 100 populated)) rfl, rfl⟩⟩

/-- C9.  Whatever the delegates are and whatever the undo stack is: when
`ClipModel::requestResize` returns `false`, `groupItems` returns `-1`, or `ungroupItem`
returns `false`, the request returns `false`, the undo stack is the one before the call,
and the model is the one the delegate left: the request itself changes nothing, so a
delegate that rejects without mutating leaves the registries of the model unchanged. -/
theorem delegating_requests_reject (d : Delegates) (dbg : Bool) (m : TimelineModel)
    (stack : Option DocUndoStack) :
    (∀ cid size right clip undo redo m1, mapFind cid m.allClips = some clip →
      d.requestResize clip size right Fun.id Fun.id m = .ok (false, undo, redo, m1) →
      requestClipResize d dbg m stack cid size right = .ok (false, m1, stack)) ∧
    (∀ ids undo redo m1,
      d.groupItems ids Fun.id Fun.id m = .ok (-1, undo, redo, m1) →
      requestGroupClips d dbg m stack ids = .ok (false, m1, stack)) ∧
    (∀ id undo redo m1,
      d.ungroupItem id Fun.id Fun.id m = .ok (false, undo, redo, m1) →
      requestUngroupClip d dbg m stack id = .ok (false, m1, stack)) := by
  refine ⟨?_, ?_, ?_⟩
  · intro cid size right clip undo redo m1 hc hd
    simp [requestClipResize, hc, hd]
  · intro ids undo redo m1 hd
    simp [requestGroupClips, hd]
  · intro id undo redo m1 hd
    simp [requestUngroupClip, hd]

theorem delegating_requests_reject_witness :
    requestClipResize sampleDelegates true populated (some []) 2 0 true =
      .ok (false, populated, some []) ∧
    requestGroupClips sampleDelegates true populated (some []) [] =
      .ok (false, populated, some []) ∧
    requestUngroupClip sampleDelegates false populated none 2 = .ok (false, populated, none) :=
  ⟨(delegating_requests_reject sampleDelegates true populated (some [])).1 2 0 true
      ⟨2, 0, 100⟩ Fun.id Fun.id populated rfl rfl,
   (delegating_requests_reject sampleDelegates true populated (some [])).2.1 []
      Fun.id Fun.id populated rfl,
   (delegating_requests_reject sampleDelegates false populated none).2.2 2
      Fun.id Fun.id populated rfl⟩

/-! ## The track ids of the clips -/

theorem mapFind_mapAssign {α : Type} (k k' : Int) (v : α) (l : List (Int × α)) :
    mapFind k (mapAssign k' v l) = if k = k' then some v else mapFind k l := by
  induction l with
  | nil =>
    by_cases hk : k = k'
    · simp [mapFind, mapAssign, hk]
    · have : ¬ k' = k := fun h => hk h.symm
      simp [mapFind, mapAssign, hk, this]
  | cons x xs ih =>
    obtain ⟨j, w⟩ := x
    by_cases hj : j = k'
    · by_cases hk : k = k'
      · simp [mapFind, mapAssign, hj, hk]
      · have : ¬ k' = k := fun h => hk h.symm
        simp [mapFind, mapAssign, hj, hk, this]
    · by_cases hk : j = k
      · have : ¬ k = k' := fun h => hj (hk.trans h)
        simp [mapFind, mapAssign, hj, hk, this]
      · simp [mapFind, mapAssign, hj, hk, ih]

theorem mapFind_mapErase_ne {α : Type} {k k' : Int} (hk : k ≠ k') (l : List (Int × α)) :
    mapFind k (mapErase k' l) = mapFind k l := by
  induction l with
  | nil => simp [mapErase]
  | cons x xs ih =>
    obtain ⟨j, w⟩ := x
    by_cases hj : j = k'
    · subst hj
      have : ¬ j = k := fun h => hk h.symm
      simp [mapFind, mapErase, this]
    · by_cases hjk : j = k
      · subst hjk
        simp [mapFind, mapErase, hk]
      · simp [mapFind, mapErase, hj, hjk, ih]

theorem mem_mapAssign {α : Type} {k : Int} {v : α} {l : List (Int × α)} {x : Int × α}
    (h : x ∈ mapAssign k v l) : x ∈ l ∨ x = (k, v) := by
  induction l with
  | nil => simp [mapAssign] at h; exact Or.inr h
  | cons y ys ih =>
    obtain ⟨j, w⟩ := y
    by_cases hj : j = k
    · simp only [mapAssign, hj, if_true, List.mem_cons] at h
      rcases h with h | h
      · exact Or.inr h
      · exact Or.inl (by simp [h])
    · simp only [mapAssign, hj, if_false, List.mem_cons] at h
      rcases h with h | h
      · exact Or.inl (by simp [h])
      · rcases ih h with h' | h'
        · exact Or.inl (by simp [h'])
        · exact Or.inr h'

theorem mem_mapErase {α : Type} {k : Int} {l : List (Int × α)} {x : Int × α}
    (h : x ∈ mapErase k l) : x ∈ l := by
  induction l with
  | nil => simp [mapErase] at h
  | cons y ys ih =>
    obtain ⟨j, w⟩ := y
    by_cases hj : j = k
    · simp only [mapErase, hj, if_true] at h
      simp [h]
    · simp only [mapErase, hj, if_false, List.mem_cons] at h
      rcases h with h | h
      · simp [h]
      · simp [ih h]

theorem clipTracksLive_congr {m m' : TimelineModel} (h1 : m'.allClips = m.allClips)
    (h2 : m'.iteratorTable = m.iteratorTable) (h : ClipTracksLive m) : ClipTracksLive m' := by
  unfold ClipTracksLive isTrack at *
  rw [h1, h2]
  exact h

/-- A `requestClipMove` that returns `false` leaves the clip registry and the track table
as they are, in both builds. -/
theorem requestClipMove_false_frame {dbg : Bool} {m m' : TimelineModel}
    {stack stack' : Option DocUndoStack} {cid tid position : Int}
    (h : requestClipMove dbg m stack cid tid position = .ok (false, m', stack')) :
    m'.allClips = m.allClips ∧ m'.iteratorTable = m.iteratorTable := by
  have hq : ∀ {u r : Fun} {m1 m2 : TimelineModel} {b : Bool} {old : Int},
      requestClipMove.deletion dbg m cid old = .ok (b, u, r, m1) →
      Q_ASSERT_call dbg u m1 = .ok m2 →
      m2.allClips = m.allClips ∧ m2.iteratorTable = m.iteratorTable := by
    intro u r m1 m2 b old hd hq
    rcases Q_ASSERT_call_inv hq with ⟨_, hm⟩ | ⟨_, hu⟩
    · subst hm; exact deletion_frame hd
    · rcases deletion_inv hd with ⟨_, _, hu1, _, hm⟩ | ⟨_, nodeO, tO, _, _, h2⟩
      · subst hu1 hm
        simp [Fun.id] at hu
        subst hu; exact ⟨rfl, rfl⟩
      · rcases h2 with ⟨_, _, hu1, _, hm⟩ | ⟨p0, _, _, hu1, _, hm⟩
        · subst hu1 hm
          simp [Fun.id] at hu
          subst hu; exact ⟨rfl, rfl⟩
        · subst hu1 hm
          simp [Fun.andThen, TrackModel.insertStep, Fun.id] at hu
          subst hu; exact ⟨rfl, rfl⟩
  obtain ⟨_, clip, _, h2⟩ := requestClipMove_false_inv h
  rcases h2 with ⟨u1, r1, m1, hd, hq1⟩ | ⟨u1, r1, m1, u2, r2, m2, hd, hi, hq2⟩
  · exact hq hd hq1
  · obtain ⟨_, _, _, _, _, _, h3⟩ := insertion_inv hi
    rcases h3 with ⟨_, _, hu, _, hm⟩ | ⟨_, hb, _⟩
    · subst hu hm
      exact hq hd hq2
    · cases hb

theorem clipTracksLive_requestClipMove {dbg : Bool} {m m' : TimelineModel}
    {stack stack' : Option DocUndoStack} {cid tid position : Int} {b : Bool}
    (h0 : ClipTracksLive m)
    (h : requestClipMove dbg m stack cid tid position = .ok (b, m', stack')) :
    ClipTracksLive m' := by
  cases b with
  | false =>
    obtain ⟨h1, h2⟩ := requestClipMove_false_frame h
    exact clipTracksLive_congr h1 h2 h0
  | true =>
    obtain ⟨clip, u1, r1, m1, u2, r2, m2, _, hd, hi, hm, _⟩ := requestClipMove_true_inv h
    obtain ⟨_, nodeT, _, _, htab, _, _⟩ := insertion_inv hi
    rw [(deletion_frame hd).2] at htab
    have hc2 : m2.allClips = m.allClips := by
      rw [(insertion_frame hi).1, (deletion_frame hd).1]
    have ht2 : m2.iteratorTable = m.iteratorTable := by
      rw [(insertion_frame hi).2, (deletion_frame hd).2]
    subst hm
    intro kc hkc
    have hkc' : kc ∈ mapModify cid (fun c => { c with currentTrackId := tid }) m.allClips := by
      rw [← hc2]; exact hkc
    have hT : ∀ id, isTrack (setCurrentTrackId cid tid m2) id = isTrack m id := by
      intro id; unfold isTrack; show (mapFind id m2.iteratorTable).isSome = _; rw [ht2]
    rw [hT]
    rcases mem_mapModify hkc' with hmem | ⟨v, _, rfl⟩
    · exact h0 kc hmem
    · right
      simp [isTrack, htab]

theorem registerTrack_ok {dbg : Bool} {m m' : TimelineModel} {track : TrackModel} {pos : Int}
    (h : registerTrack dbg m track pos = .ok m') :
    m'.allClips = m.allClips ∧
      m'.iteratorTable = mapAssign track.id m.nextNode m.iteratorTable := by
  unfold registerTrack at h
  simp only at h
  split_ifs at h
  all_goals (simp only [Except.ok.injEq] at h; subst h; exact ⟨rfl, rfl⟩)

theorem deregisterTrack_ok {m m' : TimelineModel} {id : Int}
    (h : deregisterTrack m id = .ok m') :
    m'.allClips = m.allClips ∧ m'.iteratorTable = mapErase id m.iteratorTable := by
  unfold deregisterTrack at h
  cases hn : mapFind id m.iteratorTable with
  | none => simp [hn] at h
  | some node =>
    simp only [hn] at h
    cases hi : nodeIndex node m.allTracks with
    | none => simp [hi] at h
    | some index =>
      simp only [hi, Except.ok.injEq] at h
      subst h
      exact ⟨rfl, rfl⟩

theorem registerClip_ok {dbg : Bool} {m m' : TimelineModel} {clip : ClipModel}
    (h : registerClip dbg m clip = .ok m') :
    m'.allClips = mapAssign clip.id clip m.allClips ∧ m'.iteratorTable = m.iteratorTable := by
  unfold registerClip at h
  simp only at h
  split_ifs at h
  simp only [Except.ok.injEq] at h
  subst h
  exact ⟨rfl, rfl⟩

theorem deregisterClip_ok {dbg : Bool} {m m' : TimelineModel} {id : Int}
    (h : deregisterClip dbg m id = .ok m') :
    m'.allClips = mapErase id m.allClips ∧ m'.iteratorTable = m.iteratorTable := by
  unfold deregisterClip at h
  split_ifs at h
  simp only [Except.ok.injEq] at h
  subst h
  exact ⟨rfl, rfl⟩

theorem map_ok_inv {α β : Type} {f : α → β} {x : Except Fault α} {b : β}
    (h : x.map f = .ok b) : ∃ a, x = .ok a ∧ b = f a := by
  cases x with
  | error e => simp [Except.map] at h
  | ok a => simp only [Except.map, Except.ok.injEq] at h; exact ⟨a, rfl, h.symm⟩

/-- One request that spares the tracks of the clips keeps the track id of every registered
clip `-1` or registered. -/
theorem clipTracksLive_run {dbg : Bool} {r : Request}
    {s s1 : TimelineModel × Option DocUndoStack} (h0 : ClipTracksLive s.1)
    (hr : r.sparesClipTracks s.1 = true) (h : r.run dbg s = .ok s1) : ClipTracksLive s1.1 := by
  cases r with
  | registerTrack id pos =>
    obtain ⟨m', hm, rfl⟩ := map_ok_inv h
    obtain ⟨h1, h2⟩ := registerTrack_ok hm
    intro kc hkc
    rw [h1] at hkc
    rcases h0 kc hkc with h3 | h3
    · exact Or.inl h3
    · right
      simp only [isTrack, h2, mapFind_mapAssign] at h3 ⊢
      split
      · rfl
      · exact h3
  | deregisterTrack id =>
    obtain ⟨m', hm, rfl⟩ := map_ok_inv h
    obtain ⟨h1, h2⟩ := deregisterTrack_ok hm
    simp only [Request.sparesClipTracks, List.all_eq_true, bne_iff_ne, ne_eq] at hr
    intro kc hkc
    rw [h1] at hkc
    rcases h0 kc hkc with h3 | h3
    · exact Or.inl h3
    · right
      simp only [isTrack, h2] at h3 ⊢
      rw [mapFind_mapErase_ne (hr kc hkc)]
      exact h3
  | registerClip id playtime =>
    obtain ⟨m', hm, rfl⟩ := map_ok_inv h
    obtain ⟨h1, h2⟩ := registerClip_ok hm
    intro kc hkc
    rw [h1] at hkc
    simp only [isTrack, h2]
    rcases mem_mapAssign hkc with hmem | rfl
    · exact h0 kc hmem
    · exact Or.inl rfl
  | deregisterClip id =>
    obtain ⟨m', hm, rfl⟩ := map_ok_inv h
    obtain ⟨h1, h2⟩ := deregisterClip_ok hm
    intro kc hkc
    rw [h1] at hkc
    simp only [isTrack, h2]
    exact h0 kc (mem_mapErase hkc)
  | requestClipMove cid tid position =>
    obtain ⟨res, hm, rfl⟩ := map_ok_inv h
    obtain ⟨b, m', st'⟩ := res
    exact clipTracksLive_requestClipMove h0 hm

/-- C10, counterexample.  A track, a clip, the clip moved onto the track, and the track
deregistered: `deregisterTrack` leaves the clip in the registry with the id of the track,
which is not in the track registry any more. -/
theorem deregisterTrack_leaves_track_id :
    (runRequests true
      [.registerTrack 0 (-1), .registerClip 1 100, .requestClipMove 1 0 0, .deregisterTrack 0]
      (TimelineModel.empty, some [])).map Prod.fst = .ok danglingModel ∧
    ¬ ClipTracksLive danglingModel :=
  ⟨rfl, by decide⟩

/-- C10, amended.  In every state reached from the empty model by a run of `registerTrack`,
`deregisterTrack`, `registerClip`, `deregisterClip` and `requestClipMove` in which no
`deregisterTrack` removes a track that a registered clip names as its current track, every
clip of the clip registry has a track id that is `-1` or the id of a registered track. -/
theorem runRequests_clipTracksLive (dbg : Bool) (requests : List Request)
    (stack stack' : Option DocUndoStack) (m' : TimelineModel)
    (hs : sparesClipTracks dbg requests (TimelineModel.empty, stack) = true)
    (h : runRequests dbg requests (TimelineModel.empty, stack) = .ok (m', stack')) :
    ClipTracksLive m' := by
  have key : ∀ (rs : List Request) (s s' : TimelineModel × Option DocUndoStack),
      ClipTracksLive s.1 → sparesClipTracks dbg rs s = true →
      runRequests dbg rs s = .ok s' → ClipTracksLive s'.1 := by
    intro rs
    induction rs with
    | nil =>
      intro s s' h0 _ h
      simp only [runRequests, Except.ok.injEq] at h
      rw [← h]; exact h0
    | cons r rest ih =>
      intro s s' h0 hs h
      simp only [runRequests] at h
      simp only [sparesClipTracks, Bool.and_eq_true] at hs
      cases hr : r.run dbg s with
      | error e => simp [hr] at h
      | ok s1 =>
        simp only [hr] at h hs
        exact ih s1 s' (clipTracksLive_run h0 hs.1 hr) hs.2 h
  exact key requests (TimelineModel.empty, stack) (m', stack')
    (by intro kc hkc; simp [TimelineModel.empty] at hkc) hs h

theorem runRequests_clipTracksLive_witness :
    sparesClipTracks true (populateRequests ++ [.deregisterClip 3, .deregisterTrack 1])
      (TimelineModel.empty, some []) = true ∧
    ∃ stack', runRequests true (populateRequests ++ [.deregisterClip 3, .deregisterTrack 1])
      (TimelineModel.empty, some []) = .ok (populatedFirst, stack') ∧
      ClipTracksLive populatedFirst :=
  ⟨rfl, _, rfl,
    runRequests_clipTracksLive true
      (populateRequests ++ [Request.deregisterClip 3, Request.deregisterTrack 1])
      (some []) _ populatedFirst rfl rfl⟩

/-! ## Supporting facts: the test timeline is reached, and registered ids give no fault -/

/-- The requests of `TimelineModel::construct(undo_stack, true)` build the populated model,
in both builds. -/
theorem populateRequests_run :
    (runRequests true populateRequests (TimelineModel.empty, some [])).map Prod.fst =
      .ok populated ∧
    (runRequests false populateRequests (TimelineModel.empty, some [])).map Prod.fst =
      .ok populated :=
  ⟨rfl, rfl⟩

theorem Q_ASSERT_call_of_ok {dbg : Bool} {u : Fun} {m m' : TimelineModel}
    (h : u m = .ok (true, m')) : ∃ m2, Q_ASSERT_call dbg u m = .ok m2 := by
  cases dbg with
  | false => exact ⟨m, by simp [Q_ASSERT_call]⟩
  | true => exact ⟨m', by simp [Q_ASSERT_call, h]⟩

/-- For a registered clip whose track id is `-1` or registered, a registered target track,
and an undo stack that is live (or a build without assertions), `requestClipMove` returns:
no assertion fails and nothing undefined is touched. -/
theorem requestClipMove_returns (dbg : Bool) (m : TimelineModel)
    (stack : Option DocUndoStack) (cid tid position : Int) (clip : ClipModel)
    (hc : mapFind cid m.allClips = some clip)
    (hold : clip.currentTrackId = -1 ∨ ∃ n t,
      mapFind clip.currentTrackId m.iteratorTable = some n ∧ nodeFind n m.allTracks = some t)
    (htid : ∃ n t, mapFind tid m.iteratorTable = some n ∧ nodeFind n m.allTracks = some t)
    (hstack : stack.isSome = true ∨ dbg = false) :
    ∃ r, requestClipMove dbg m stack cid tid position = .ok r := by
  -- the deletion stage returns, with an undo closure that succeeds
  have hdel : ∃ b u r m1, requestClipMove.deletion dbg m cid clip.currentTrackId =
      .ok (b, u, r, m1) ∧ (∃ m2, u m1 = .ok (true, m2)) ∧
      m1.allClips = m.allClips ∧ m1.iteratorTable = m.iteratorTable ∧
      (∀ n t, nodeFind n m.allTracks = some t → ∃ t1, nodeFind n m1.allTracks = some t1) := by
    rcases hold with ho | ⟨n, t, hn, ht⟩
    · exact ⟨true, Fun.id, Fun.id, m, by simp [requestClipMove.deletion, ho],
        ⟨m, rfl⟩, rfl, rfl, fun n t h => ⟨t, h⟩⟩
    · by_cases ho : clip.currentTrackId = -1
      · exact ⟨true, Fun.id, Fun.id, m, by simp [requestClipMove.deletion, ho],
          ⟨m, rfl⟩, rfl, rfl, fun n t h => ⟨t, h⟩⟩
      · cases hp : findPlacement cid t.placements with
        | none =>
          refine ⟨false, Fun.id, Fun.id, m, ?_, ⟨m, rfl⟩, rfl, rfl, fun n t h => ⟨t, h⟩⟩
          simp [requestClipMove.deletion, ho, getTrackById_of_find hn ht,
            TrackModel.requestClipDeletion, ht, hp]
        | some p0 =>
          refine ⟨true, _, _, _, deletion_of_placed dbg ho hn ht hp, ?_, rfl, rfl, ?_⟩
          · exact ⟨_, rfl⟩
          · intro n' t' h'
            rw [nodeFind_onTrack, h']
            split <;> simp
  obtain ⟨b, u1, r1, m1, hd, ⟨mu, hu⟩, hclips, htab, hnodes⟩ := hdel
  cases b with
  | false =>
    obtain ⟨m2, hq⟩ := @Q_ASSERT_call_of_ok dbg u1 m1 mu hu
    exact ⟨(false, m2, stack), by simp [requestClipMove, hc, hd, requestClipMove.failure, hq]⟩
  | true =>
    obtain ⟨n, t, hn, ht⟩ := htid
    obtain ⟨t1, ht1⟩ := hnodes n t ht
    have hc1 : mapFind cid m1.allClips = some clip := by rw [hclips]; exact hc
    have hn1 : mapFind tid m1.iteratorTable = some n := by rw [htab]; exact hn
    by_cases hov : t1.placements.any
        (fun q => (Placement.mk clip.id position clip.playtime).overlaps q) = true
    · have hi : requestClipMove.insertion dbg m1 cid tid position u1 r1 =
          .ok (false, u1, r1, m1) := by
        simp [requestClipMove.insertion, getTrackById_of_find hn1 ht1, hc1,
          TrackModel.requestClipInsertion, ht1, hov]
      obtain ⟨m2, hq⟩ := @Q_ASSERT_call_of_ok dbg u1 m1 mu hu
      exact ⟨(false, m2, stack),
        by simp [requestClipMove, hc, hd, hi, requestClipMove.failure, hq]⟩
    · simp only [Bool.not_eq_true] at hov
      have hi := insertion_of_free dbg position u1 r1 hn1 ht1 hc1 hov
      rw [requestClipMove_of_stages hc hd hi]
      cases stack with
      | some st => exact ⟨_, rfl⟩
      | none =>
        rcases hstack with h | h
        · simp at h
        · subst h; exact ⟨_, rfl⟩

/-! ## The invariants of the data model are kept by `requestClipMove` -/

theorem mem_erasePlacement {cid : Int} {q : Placement} {l : List Placement}
    (h : q ∈ erasePlacement cid l) : q ∈ l :=
  (erasePlacement_sublist cid l).subset h

theorem mem_insertPlacement {p q : Placement} {l : List Placement} :
    q ∈ insertPlacement p l ↔ q = p ∨ q ∈ l := by
  rw [(insertPlacement_perm p l).mem_iff, List.mem_cons]

theorem position_ne_of_not_overlaps {p q : Placement} (h : p.overlaps q = false)
    (hp : 0 < p.duration) (hq : 0 < q.duration) : q.position ≠ p.position := by
  unfold Placement.overlaps at h
  simp only [decide_eq_false_iff_not, not_lt] at h
  intro heq
  rw [heq] at h
  simp only [max_self] at h
  have := le_min (le_of_lt (lt_add_of_pos_right p.position hp))
    (le_of_lt (lt_add_of_pos_right p.position hq))
  have h1 : p.position < min (p.position + p.duration) (p.position + q.duration) :=
    lt_min (lt_add_of_pos_right _ hp) (lt_add_of_pos_right _ hq)
  exact absurd h (not_le.mpr h1)

theorem pairwise_lt_insertPlacement (p : Placement) (l : List Placement)
    (hl : l.Pairwise (fun a b => a.position < b.position))
    (hne : ∀ q ∈ l, q.position ≠ p.position) :
    (insertPlacement p l).Pairwise (fun a b => a.position < b.position) := by
  induction l with
  | nil => simp [insertPlacement]
  | cons q qs ih =>
    rw [List.pairwise_cons] at hl
    by_cases h : p.position ≤ q.position
    · simp only [insertPlacement, h, if_true]
      have hlt : p.position < q.position :=
        lt_of_le_of_ne h (fun e => hne q (by simp) e.symm)
      refine List.pairwise_cons.mpr ⟨?_, List.pairwise_cons.mpr hl⟩
      intro r hr
      rcases List.mem_cons.mp hr with rfl | hr
      · exact hlt
      · exact lt_trans hlt (hl.1 r hr)
    · simp only [insertPlacement, h, if_false]
      refine List.pairwise_cons.mpr ⟨?_, ih hl.2 (fun r hr => hne r (by simp [hr]))⟩
      intro r hr
      rcases mem_insertPlacement.mp hr with rfl | hr
      · exact not_le.mp h
      · exact hl.1 r hr

theorem nodup_insertPlacement (p : Placement) (l : List Placement)
    (hl : (l.map Placement.cid).Nodup) (hp : ∀ q ∈ l, q.cid ≠ p.cid) :
    ((insertPlacement p l).map Placement.cid).Nodup := by
  rw [((insertPlacement_perm p l).map Placement.cid).nodup_iff, List.map_cons,
    List.nodup_cons]
  refine ⟨?_, hl⟩
  intro hmem
  obtain ⟨q, hq, hqc⟩ := List.mem_map.mp hmem
  exact hp q hq hqc

theorem nodup_erasePlacement (cid : Int) (l : List Placement)
    (hl : (l.map Placement.cid).Nodup) : ((erasePlacement cid l).map Placement.cid).Nodup :=
  hl.sublist ((erasePlacement_sublist cid l).map Placement.cid)

theorem map_fst_nodeModify (n : Nat) (f : TrackModel → TrackModel)
    (l : List (Nat × TrackModel)) : (nodeModify n f l).map Prod.fst = l.map Prod.fst := by
  induction l with
  | nil => simp [nodeModify]
  | cons x xs ih =>
    obtain ⟨j, v⟩ := x
    by_cases hj : j = n <;> simp [nodeModify, hj, ih]

theorem nodeFind_of_mem {n : Nat} {t : TrackModel} {l : List (Nat × TrackModel)}
    (hn : (l.map Prod.fst).Nodup) (h : (n, t) ∈ l) : nodeFind n l = some t := by
  induction l with
  | nil => simp at h
  | cons x xs ih =>
    obtain ⟨j, v⟩ := x
    rw [List.map_cons, List.nodup_cons] at hn
    rcases List.mem_cons.mp h with heq | hmem
    · cases heq; simp [nodeFind]
    · have hj : ¬ j = n := by
        intro e
        exact hn.1 (by rw [e]; exact List.mem_map.mpr ⟨(n, t), hmem, rfl⟩)
      simp [nodeFind, hj, ih hn.2 hmem]

/-- With distinct nodes, the elements of the track list after an update of node `n` are
the elements at the other nodes and the updated element. -/
theorem mem_nodeModify_nodup {n : Nat} {f : TrackModel → TrackModel}
    {l : List (Nat × TrackModel)} {x : Nat × TrackModel} (hn : (l.map Prod.fst).Nodup)
    (h : x ∈ nodeModify n f l) :
    (x ∈ l ∧ x.1 ≠ n) ∨ ∃ t, nodeFind n l = some t ∧ x = (n, f t) := by
  rcases mem_nodeModify h with hmem | hmod
  · by_cases hx : x.1 = n
    · right
      obtain ⟨j, v⟩ := x
      simp only at hx
      subst hx
      have hfind := nodeFind_of_mem hn hmem
      have hn' : ((nodeModify j f l).map Prod.fst).Nodup := by
        rw [map_fst_nodeModify]; exact hn
      have h2 := nodeFind_of_mem hn' h
      rw [nodeFind_nodeModify, if_pos rfl, hfind] at h2
      simp only [Option.map_some', Option.some.injEq] at h2
      exact ⟨v, hfind, by rw [h2]⟩
    · exact Or.inl ⟨hmem, hx⟩
  · exact Or.inr hmod

/-- What a successful deletion stage leaves behind: the nodes of the track list are the
same; every track is ordered, holds a clip at most once and only placements that last;
no placement is of the clip `cid`, and every placement was on the same node before. -/
theorem deletion_vacates {dbg : Bool} {m m1 : TimelineModel} {cid : Int} {clip : ClipModel}
    {u1 r1 : Fun} (hwf : WellFormed m) (hpos : PositiveDurations m)
    (hc : mapFind cid m.allClips = some clip)
    (hd : requestClipMove.deletion dbg m cid clip.currentTrackId = .ok (true, u1, r1, m1)) :
    m1.allTracks.map Prod.fst = m.allTracks.map Prod.fst ∧
    ∀ nt ∈ m1.allTracks,
      nt.2.placements.Pairwise (fun a b => a.position < b.position) ∧
      (nt.2.placements.map Placement.cid).Nodup ∧
      ∀ q ∈ nt.2.placements, 0 < q.duration ∧ q.cid ≠ cid ∧
        ∃ nt0 ∈ m.allTracks, nt0.1 = nt.1 ∧ q ∈ nt0.2.placements := by
  have hnodes : m1.allTracks.map Prod.fst = m.allTracks.map Prod.fst := by
    rcases deletion_inv hd with ⟨_, _, _, _, hm⟩ | ⟨_, nodeO, tO, _, _, h2⟩
    · rw [hm]
    · rcases h2 with ⟨_, _, _, _, hm⟩ | ⟨_, _, _, _, _, hm⟩
      · rw [hm]
      · rw [hm]; exact map_fst_nodeModify _ _ _
  refine ⟨hnodes, ?_⟩
  have hnd1 : (m1.allTracks.map Prod.fst).Nodup := by rw [hnodes]; exact hwf.2.2.2.2.2
  have hfree : ∀ nt ∈ m1.allTracks, ∀ q ∈ nt.2.placements, q.cid ≠ cid := by
    intro nt hnt
    exact findPlacement_eq_none.mp
      (not_placed_after_deletion hwf hc hd (nodeFind_of_mem hnd1 hnt))
  obtain ⟨_, hsorted, hnodup, _, _, hnd⟩ := hwf
  have hold : ∀ nt ∈ m1.allTracks,
      nt.2.placements.Pairwise (fun a b => a.position < b.position) ∧
      (nt.2.placements.map Placement.cid).Nodup ∧
      ∀ q ∈ nt.2.placements, ∃ nt0 ∈ m.allTracks, nt0.1 = nt.1 ∧ q ∈ nt0.2.placements := by
    intro nt hnt
    have hsame : nt ∈ m.allTracks → _ := fun hmem =>
      (⟨hsorted nt hmem, hnodup nt hmem, fun q hq => ⟨nt, hmem, rfl, hq⟩⟩ :
        nt.2.placements.Pairwise (fun a b => a.position < b.position) ∧
        (nt.2.placements.map Placement.cid).Nodup ∧
        ∀ q ∈ nt.2.placements, ∃ nt0 ∈ m.allTracks, nt0.1 = nt.1 ∧ q ∈ nt0.2.placements)
    rcases deletion_inv hd with ⟨_, _, _, _, hm⟩ | ⟨_, nodeO, tO, _, htO, h2⟩
    · subst hm; exact hsame hnt
    · rcases h2 with ⟨_, _, _, _, hm⟩ | ⟨_, _, _, _, _, hm⟩
      · subst hm; exact hsame hnt
      · subst hm
        rcases mem_nodeModify hnt with hmem | ⟨t, ht, rfl⟩
        · exact hsame hmem
        · have hmem := nodeFind_mem ht
          exact ⟨(hsorted _ hmem).sublist (erasePlacement_sublist cid _),
            nodup_erasePlacement cid _ (hnodup _ hmem),
            fun q hq => ⟨(nodeO, t), hmem, rfl, mem_erasePlacement hq⟩⟩
  intro nt hnt
  obtain ⟨h1, h2, h3⟩ := hold nt hnt
  refine ⟨h1, h2, fun q hq => ?_⟩
  obtain ⟨nt0, hnt0, hn0, hq0⟩ := h3 q hq
  exact ⟨hpos.1 nt0 hnt0 q hq0, hfree nt hnt q hq, nt0, hnt0, hn0, hq0⟩

/-- The model a successful deletion stage ends in satisfies the invariants. -/
theorem deletion_sound {dbg : Bool} {m m1 : TimelineModel} {cid : Int} {clip : ClipModel}
    {u1 r1 : Fun} (hwf : WellFormed m) (hpos : PositiveDurations m)
    (hc : mapFind cid m.allClips = some clip)
    (hd : requestClipMove.deletion dbg m cid clip.currentTrackId = .ok (true, u1, r1, m1)) :
    WellFormed m1 ∧ PositiveDurations m1 := by
  obtain ⟨hnodes, hv⟩ := deletion_vacates hwf hpos hc hd
  obtain ⟨hclips, htab⟩ := deletion_frame hd
  obtain ⟨hkeys, _, _, hplaced, hsent, hnd⟩ := hwf
  refine ⟨⟨?_, fun nt hnt => (hv nt hnt).1, fun nt hnt => (hv nt hnt).2.1, ?_, ?_, ?_⟩,
    fun nt hnt q hq => ((hv nt hnt).2.2 q hq).1, ?_⟩
  · rw [hclips]; exact hkeys
  · intro nt hnt q hq c hcq
    obtain ⟨_, _, nt0, hnt0, hn0, hq0⟩ := (hv nt hnt).2.2 q hq
    rw [hclips] at hcq
    rw [htab, ← hn0]
    exact hplaced nt0 hnt0 q hq0 c hcq
  · rw [htab]; exact hsent
  · rw [hnodes]; exact hnd
  · rw [hclips]; exact hpos.2

/-- The invariants of the data model, with placements and clips that last at least one
frame, are kept by every `requestClipMove`, successful or failed, in both builds. -/
theorem wellFormed_requestClipMove {dbg : Bool} {m m' : TimelineModel}
    {stack stack' : Option DocUndoStack} {cid tid position : Int} {b : Bool}
    (hwf : WellFormed m) (hpos : PositiveDurations m)
    (h : requestClipMove dbg m stack cid tid position = .ok (b, m', stack')) :
    WellFormed m' ∧ PositiveDurations m' := by
  cases b with
  | false =>
    obtain ⟨_, clip, hc, h2⟩ := requestClipMove_false_inv h
    have hq : ∀ {u : Fun} {mx : TimelineModel}, (WellFormed mx ∧ PositiveDurations mx) →
        Q_ASSERT_call dbg u mx = .ok m' → WellFormed m' ∧ PositiveDurations m' := by
      intro u mx hmx hq
      rcases Q_ASSERT_call_inv hq with ⟨_, hm⟩ | ⟨hdbg, _⟩
      · rw [hm]; exact hmx
      · subst hdbg
        rw [(requestClipMove_debug_failure hwf.2.1 h).1]
        exact ⟨hwf, hpos⟩
    rcases h2 with ⟨u1, r1, m1, hd, hq1⟩ | ⟨u1, r1, m1, u2, r2, m2, hd, hi, hq2⟩
    · rcases deletion_inv hd with ⟨_, hb, _⟩ | ⟨_, _, _, _, _, h3⟩
      · cases hb
      · rcases h3 with ⟨_, _, _, _, hm⟩ | ⟨_, _, hb, _⟩
        · subst hm; exact hq ⟨hwf, hpos⟩ hq1
        · cases hb
    · obtain ⟨_, _, _, _, _, _, h3⟩ := insertion_inv hi
      rcases h3 with ⟨_, _, _, _, hm⟩ | ⟨_, hb, _⟩
      · subst hm; exact hq (deletion_sound hwf hpos hc hd) hq2
      · cases hb
  | true =>
    obtain ⟨clip, u1, r1, m1, u2, r2, m2, hc, hd, hi, hm, _⟩ := requestClipMove_true_inv h
    obtain ⟨hnodes, hv⟩ := deletion_vacates hwf hpos hc hd
    obtain ⟨hclips, htab⟩ := deletion_frame hd
    obtain ⟨clip', nodeT, tT, hc', htabT, hnodeT, h3⟩ := insertion_inv hi
    rw [hclips, hc] at hc'
    cases hc'
    rw [htab] at htabT
    have hid : clip.id = cid := hwf.1 (cid, clip) (mapFind_mem hc)
    have hplay : 0 < clip.playtime := hpos.2 (cid, clip) (mapFind_mem hc)
    obtain ⟨hkeys, _, _, hplaced, hsent, hnd⟩ := hwf
    have hnd1 : (m1.allTracks.map Prod.fst).Nodup := by rw [hnodes]; exact hnd
    have htid : tid ≠ -1 := by
      intro e; rw [e, hsent] at htabT; cases htabT
    rcases h3 with ⟨_, hb, _⟩ | ⟨hov, _, _, _, hm2⟩
    · cases hb
    have hT := hv (nodeT, tT) (nodeFind_mem hnodeT)
    rw [List.any_eq_false] at hov
    -- the tracks of the model after the call
    have htracks : ∀ nt ∈ m'.allTracks,
        (nt ∈ m1.allTracks ∧ nt.1 ≠ nodeT) ∨
        nt = (nodeT, ⟨tT.id, insertPlacement ⟨clip.id, position, clip.playtime⟩
          tT.placements⟩) := by
      intro nt hnt
      rw [hm, hm2] at hnt
      rcases mem_nodeModify_nodup hnd1 hnt with hmem | ⟨t, ht, rfl⟩
      · exact Or.inl hmem
      · rw [hnodeT] at ht
        cases ht
        exact Or.inr rfl
    have hclips' : m'.allClips =
        mapModify cid (fun c => { c with currentTrackId := tid }) m.allClips := by
      rw [hm, hm2]
      show mapModify cid _ m1.allClips = _
      rw [hclips]
    have htab' : m'.iteratorTable = m.iteratorTable := by
      rw [hm, hm2]; exact htab
    have hnodes' : m'.allTracks.map Prod.fst = m.allTracks.map Prod.fst := by
      rw [hm, hm2]
      show (nodeModify nodeT _ m1.allTracks).map Prod.fst = _
      rw [map_fst_nodeModify, hnodes]
    refine ⟨⟨?_, ?_, ?_, ?_, ?_, ?_⟩, ?_, ?_⟩
    · intro kc hkc
      rw [hclips'] at hkc
      rcases mem_mapModify hkc with hmem | ⟨v, hv', rfl⟩
      · exact hkeys kc hmem
      · exact hkeys (cid, v) hv'
    · intro nt hnt
      rcases htracks nt hnt with ⟨hmem, _⟩ | rfl
      · exact (hv nt hmem).1
      · refine pairwise_lt_insertPlacement _ _ hT.1 (fun q hq => ?_)
        have hqd := (hT.2.2 q hq).1
        exact position_ne_of_not_overlaps (by simpa using hov q hq) hplay hqd
    · intro nt hnt
      rcases htracks nt hnt with ⟨hmem, _⟩ | rfl
      · exact (hv nt hmem).2.1
      · refine nodup_insertPlacement _ _ hT.2.1 (fun q hq => ?_)
        rw [hid]
        exact (hT.2.2 q hq).2.1
    · intro nt hnt q hq c hcq
      rw [htab']
      rw [Option.mem_def, hclips', mapFind_mapModify] at hcq
      have hfrom : ∀ nt1 ∈ m1.allTracks, q ∈ nt1.2.placements →
          c.currentTrackId ≠ -1 ∧ mapFind c.currentTrackId m.iteratorTable = some nt1.1 := by
        intro nt1 hnt1 hq1
        obtain ⟨_, hne, nt0, hnt0, hn0, hq0⟩ := (hv nt1 hnt1).2.2 q hq1
        rw [if_neg hne] at hcq
        rw [← hn0]
        exact hplaced nt0 hnt0 q hq0 c hcq
      rcases htracks nt hnt with ⟨hmem, _⟩ | rfl
      · exact hfrom nt hmem hq
      · rcases mem_insertPlacement.mp hq with rfl | hq'
        · simp only [hid, if_true, hc, Option.map_some', Option.some.injEq] at hcq
          subst hcq
          exact ⟨htid, htabT⟩
        · exact hfrom (nodeT, tT) (nodeFind_mem hnodeT) hq'
    · rw [htab']; exact hsent
    · rw [hnodes']; exact hnd
    · intro nt hnt q hq
      rcases htracks nt hnt with ⟨hmem, _⟩ | rfl
      · exact ((hv nt hmem).2.2 q hq).1
      · rcases mem_insertPlacement.mp hq with rfl | hq'
        · exact hplay
        · exact (hT.2.2 q hq').1
    · intro kc hkc
      rw [hclips'] at hkc
      rcases mem_mapModify hkc with hmem | ⟨v, hv', rfl⟩
      · exact hpos.2 kc hmem
      · exact hpos.2 (cid, v) hv'

/-- The populated test timeline satisfies the invariants of the data model. -/
theorem populated_sound :
    WellFormed populated ∧ NoOverlap populated ∧ PositiveDurations populated :=
  ⟨by decide, by decide, by decide⟩

/-! ## Registration and deregistration of clips -/

theorem length_mapAssign_of_none {α : Type} {k : Int} (v : α) {l : List (Int × α)}
    (h : mapFind k l = none) : (mapAssign k v l).length = l.length + 1 := by
  induction l with
  | nil => simp [mapAssign]
  | cons x xs ih =>
    obtain ⟨j, w⟩ := x
    by_cases hj : j = k
    · simp [mapFind, hj] at h
    · simp [mapFind, hj] at h
      simp [mapAssign, hj, ih h]

theorem length_mapErase_of_some {α : Type} {k : Int} {l : List (Int × α)}
    (h : (mapFind k l).isSome = true) : (mapErase k l).length + 1 = l.length := by
  induction l with
  | nil => simp [mapFind] at h
  | cons x xs ih =>
    obtain ⟨j, w⟩ := x
    by_cases hj : j = k
    · simp [mapErase, hj]
    · simp [mapFind, hj] at h
      simp [mapErase, hj, ih h]

theorem descendants_subset (links : List (Int × Int)) (fuel : Nat) (acc : List Int) :
    ∀ x ∈ acc, x ∈ GroupsModel.descendants links fuel acc := by
  induction fuel generalizing acc with
  | zero => intro x hx; exact hx
  | succ n ih =>
    intro x hx
    simp only [GroupsModel.descendants]
    exact ih _ x (List.mem_append_left _ hx)

theorem mapFind_filter_none {α : Type} (k : Int) (keep : Int × α → Bool)
    (l : List (Int × α)) (h : ∀ v, keep (k, v) = false) :
    mapFind k (l.filter keep) = none := by
  induction l with
  | nil => simp [mapFind]
  | cons x xs ih =>
    obtain ⟨j, w⟩ := x
    by_cases hj : j = k
    · subst hj
      simp [List.filter, h, ih]
    · cases hk : keep (j, w) <;> simp [List.filter, hk, mapFind, hj, ih]

/-- C11, at the failing input.  Clip 3 of the populated test timeline is registered and
placed on track 1.  `deregisterClip(3)` takes the clip out of the clip registry and
leaves its placement on track 1 (the source says so: "TODO send deletion order to the
track containing the clip"), so afterwards a placement references an id that is not
registered, in both builds. -/
theorem deregisterClip_leaves_placement :
    isClip populated 3 = true ∧
    nodeFind 1 populated.allTracks = some ⟨1, [⟨3, 50, 100⟩]⟩ ∧
    deregisterClip true populated 3 = .ok populatedOrphan ∧
    deregisterClip false populated 3 = .ok populatedOrphan ∧
    isClip populatedOrphan 3 = false ∧
    nodeFind 1 populatedOrphan.allTracks = some ⟨1, [⟨3, 50, 100⟩]⟩ ∧
    PlacementsRegistered populated ∧ ¬ PlacementsRegistered populatedOrphan :=
  ⟨rfl, rfl, rfl, rfl, rfl, rfl, by decide, by decide⟩

/-- C12.  `registerClip(clip)` with an id that is not in the clip registry returns with the
clip stored under its id, `getClipsCount()` one higher, and the group model after one
`createGroupItem(id)`, in which the id is an item without parent.  `deregisterClip(id)` of
a registered clip returns with `getClipsCount()` one lower and the group model after
`destructGroupItem(id, true, undo, redo)`, in which the id is no item any more. -/
theorem registerClip_deregisterClip_count (dbg : Bool) (m : TimelineModel) :
    (∀ clip : ClipModel, isClip m clip.id = false →
      ∃ m', registerClip dbg m clip = .ok m' ∧
        mapFind clip.id m'.allClips = some clip ∧
        getClipsCount m' = getClipsCount m + 1 ∧
        m'.groups = m.groups.createGroupItem clip.id ∧
        mapFind clip.id m'.groups.upLink = some (-1)) ∧
    (∀ id : Int, isClip m id = true →
      ∃ m', deregisterClip dbg m id = .ok m' ∧
        getClipsCount m' = getClipsCount m - 1 ∧
        m'.groups = m.groups.destructGroupItem id true ∧
        mapFind id m'.groups.upLink = none) := by
  constructor
  · intro clip hc
    simp only [isClip] at hc
    have hnone : mapFind clip.id m.allClips = none := by
      cases h : mapFind clip.id m.allClips with
      | none => rfl
      | some c => simp [h] at hc
    refine ⟨{ m with allClips := mapAssign clip.id clip m.allClips,
                     groups := m.groups.createGroupItem clip.id },
      by simp [registerClip, hnone], ?_, ?_, rfl, ?_⟩
    · simp [mapFind_mapAssign]
    · simp only [getClipsCount, length_mapAssign_of_none clip hnone]
      push_cast
      rfl
    · simp [GroupsModel.createGroupItem, mapFind_mapAssign]
  · intro id hc
    simp only [isClip] at hc
    refine ⟨{ m with allClips := mapErase id m.allClips,
                     groups := m.groups.destructGroupItem id true },
      by simp [deregisterClip, hc], ?_, rfl, ?_⟩
    · simp only [getClipsCount]
      have := length_mapErase_of_some hc
      omega
    · simp only [GroupsModel.destructGroupItem, if_true]
      apply mapFind_filter_none
      intro v
      have hmem : id ∈ GroupsModel.descendants m.groups.upLink m.groups.upLink.length [id] :=
        descendants_subset _ _ _ id (by simp)
      simp [hmem]

theorem registerClip_deregisterClip_count_witness :
    (∃ m', registerClip true populated ⟨4, -1, 25⟩ = .ok m' ∧
      mapFind 4 m'.allClips = some ⟨4, -1, 25⟩ ∧
      getClipsCount m' = getClipsCount populated + 1 ∧
      m'.groups = populated.groups.createGroupItem 4 ∧
      mapFind 4 m'.groups.upLink = some (-1)) ∧
    (∃ m', deregisterClip true populated 3 = .ok m' ∧
      getClipsCount m' = getClipsCount populated - 1 ∧
      m'.groups = populated.groups.destructGroupItem 3 true ∧
      mapFind 3 m'.groups.upLink = none) :=
  ⟨(registerClip_deregisterClip_count true populated).1 ⟨4, -1, 25⟩ rfl,
   (registerClip_deregisterClip_count true populated).2 3 rfl⟩

/-! ## The track structure -/

theorem sameTracks_refl (m : TimelineModel) : SameTracks m m := ⟨rfl, rfl, rfl, rfl⟩

theorem sameTracks_trans {m m1 m2 : TimelineModel} (h1 : SameTracks m m1)
    (h2 : SameTracks m1 m2) : SameTracks m m2 :=
  ⟨h2.1.trans h1.1, h2.2.1.trans h1.2.1, h2.2.2.1.trans h1.2.2.1, h2.2.2.2.trans h1.2.2.2⟩

theorem map_ids_nodeModify (n : Nat) (f : List Placement → List Placement)
    (l : List (Nat × TrackModel)) :
    (nodeModify n (fun t => { t with placements := f t.placements }) l).map
      (fun nt => (nt.1, nt.2.id)) = l.map (fun nt => (nt.1, nt.2.id)) := by
  induction l with
  | nil => simp [nodeModify]
  | cons x xs ih =>
    obtain ⟨j, v⟩ := x
    by_cases hj : j = n <;> simp [nodeModify, hj, ih]

theorem sameTracks_onTrack (node : Nat) (f : List Placement → List Placement)
    (m : TimelineModel) : SameTracks m (onTrack node f m) :=
  ⟨rfl, map_ids_nodeModify node f m.allTracks, rfl, rfl⟩

theorem sameTracks_setCurrentTrackId (cid tid : Int) (m : TimelineModel) :
    SameTracks m (setCurrentTrackId cid tid m) := ⟨rfl, rfl, rfl, rfl⟩

theorem sameTracks_length {m m' : TimelineModel} (h : SameTracks m m') :
    m'.allTracks.length = m.allTracks.length := by
  have := congrArg List.length h.2.1
  simpa using this

/-- A closure keeps the track structure when every run of it does. -/
theorem sameTracks_andThen {f g : Fun}
    (hf : ∀ mx my b, f mx = .ok (b, my) → SameTracks mx my)
    (hg : ∀ mx my b, g mx = .ok (b, my) → SameTracks mx my) :
    ∀ mx my b, (f.andThen g) mx = .ok (b, my) → SameTracks mx my := by
  intro mx my b h
  unfold Fun.andThen at h
  cases hfx : f mx with
  | error e => simp [hfx] at h
  | ok r1 =>
    obtain ⟨v, m1⟩ := r1
    simp only [hfx] at h
    cases hgx : g m1 with
    | error e => simp [hgx] at h
    | ok r2 =>
      obtain ⟨u, m2⟩ := r2
      simp only [hgx, Except.ok.injEq, Prod.mk.injEq] at h
      rw [← h.2]
      exact sameTracks_trans (hf _ _ _ hfx) (hg _ _ _ hgx)

theorem sameTracks_id : ∀ mx my b, Fun.id mx = .ok (b, my) → SameTracks mx my := by
  intro mx my b h
  simp only [Fun.id, Except.ok.injEq, Prod.mk.injEq] at h
  rw [← h.2]; exact sameTracks_refl mx

theorem sameTracks_insertStep (node : Nat) (p : Placement) :
    ∀ mx my b, TrackModel.insertStep node p mx = .ok (b, my) → SameTracks mx my := by
  intro mx my b h
  simp only [TrackModel.insertStep, Except.ok.injEq, Prod.mk.injEq] at h
  rw [← h.2]; exact sameTracks_onTrack _ _ _

theorem sameTracks_removeStep (node : Nat) (cid : Int) :
    ∀ mx my b, TrackModel.removeStep node cid mx = .ok (b, my) → SameTracks mx my := by
  intro mx my b h
  simp only [TrackModel.removeStep, Except.ok.injEq, Prod.mk.injEq] at h
  rw [← h.2]; exact sameTracks_onTrack _ _ _

theorem sameTracks_deletion {dbg : Bool} {m m1 : TimelineModel} {cid old_tid : Int} {b : Bool}
    {u r : Fun} (h : requestClipMove.deletion dbg m cid old_tid = .ok (b, u, r, m1)) :
    SameTracks m m1 ∧ ∀ mx my c, u mx = .ok (c, my) → SameTracks mx my := by
  rcases deletion_inv h with ⟨_, _, hu, _, hm⟩ | ⟨_, nodeO, tO, _, _, h2⟩
  · subst hu hm; exact ⟨sameTracks_refl _, sameTracks_id⟩
  · rcases h2 with ⟨_, _, hu, _, hm⟩ | ⟨p0, _, _, hu, _, hm⟩
    · subst hu hm; exact ⟨sameTracks_refl _, sameTracks_id⟩
    · subst hu hm
      exact ⟨sameTracks_onTrack _ _ _,
        sameTracks_andThen (sameTracks_insertStep _ _) sameTracks_id⟩

theorem sameTracks_insertion {dbg : Bool} {m m' : TimelineModel} {cid tid position : Int}
    {b : Bool} {undo redo u r : Fun}
    (hundo : ∀ mx my c, undo mx = .ok (c, my) → SameTracks mx my)
    (h : requestClipMove.insertion dbg m cid tid position undo redo = .ok (b, u, r, m')) :
    SameTracks m m' ∧ ∀ mx my c, u mx = .ok (c, my) → SameTracks mx my := by
  obtain ⟨clip, nodeT, tT, _, _, _, h2⟩ := insertion_inv h
  rcases h2 with ⟨_, _, hu, _, hm⟩ | ⟨_, _, hu, _, hm⟩
  · subst hu hm; exact ⟨sameTracks_refl _, hundo⟩
  · subst hu hm
    exact ⟨sameTracks_onTrack _ _ _, sameTracks_andThen (sameTracks_removeStep _ _) hundo⟩

theorem sameTracks_Q_ASSERT_call {dbg : Bool} {u : Fun} {m m' : TimelineModel}
    (hu : ∀ mx my c, u mx = .ok (c, my) → SameTracks mx my)
    (h : Q_ASSERT_call dbg u m = .ok m') : SameTracks m m' := by
  rcases Q_ASSERT_call_inv h with ⟨_, hm⟩ | ⟨_, hr⟩
  · subst hm; exact sameTracks_refl _
  · exact hu _ _ _ hr

/-- A `requestClipMove`, successful or failed, leaves the track structure as it is. -/
theorem sameTracks_requestClipMove {dbg : Bool} {m m' : TimelineModel}
    {stack stack' : Option DocUndoStack} {cid tid position : Int} {b : Bool}
    (h : requestClipMove dbg m stack cid tid position = .ok (b, m', stack')) :
    SameTracks m m' := by
  cases b with
  | true =>
    obtain ⟨clip, u1, r1, m1, u2, r2, m2, _, hd, hi, hm, _⟩ := requestClipMove_true_inv h
    subst hm
    exact sameTracks_trans (sameTracks_deletion hd).1
      (sameTracks_trans (sameTracks_insertion (sameTracks_deletion hd).2 hi).1
        (sameTracks_setCurrentTrackId _ _ _))
  | false =>
    obtain ⟨_, clip, _, h2⟩ := requestClipMove_false_inv h
    rcases h2 with ⟨u1, r1, m1, hd, hq⟩ | ⟨u1, r1, m1, u2, r2, m2, hd, hi, hq⟩
    · exact sameTracks_trans (sameTracks_deletion hd).1
        (sameTracks_Q_ASSERT_call (sameTracks_deletion hd).2 hq)
    · have hins := sameTracks_insertion (sameTracks_deletion hd).2 hi
      exact sameTracks_trans (sameTracks_deletion hd).1
        (sameTracks_trans hins.1 (sameTracks_Q_ASSERT_call hins.2 hq))

theorem length_insertAt {α : Type} (x : α) (k : Nat) (l : List α) :
    (insertAt x k l).length = l.length + 1 := by
  induction k generalizing l with
  | zero => simp [insertAt]
  | succ n ih =>
    cases l with
    | nil => simp [insertAt]
    | cons y ys => simp [insertAt, ih]

theorem nodeIndex_lt {node : Nat} {l : List (Nat × TrackModel)} {i : Nat}
    (h : nodeIndex node l = some i) : i < l.length := by
  induction l generalizing i with
  | nil => simp [nodeIndex] at h
  | cons x xs ih =>
    obtain ⟨j, v⟩ := x
    by_cases hj : j = node
    · simp [nodeIndex, hj] at h
      subst h; simp
    · simp only [nodeIndex, hj, if_false, Option.map_eq_some'] at h
      obtain ⟨k, hk, rfl⟩ := h
      have := ih hk
      simp only [List.length_cons]
      omega

theorem length_nodeErase {node : Nat} {l : List (Nat × TrackModel)} {i : Nat}
    (h : nodeIndex node l = some i) : (nodeErase node l).length + 1 = l.length := by
  induction l generalizing i with
  | nil => simp [nodeIndex] at h
  | cons x xs ih =>
    obtain ⟨j, v⟩ := x
    by_cases hj : j = node
    · simp [nodeErase, hj]
    · simp only [nodeIndex, hj, if_false, Option.map_eq_some'] at h
      obtain ⟨k, hk, _⟩ := h
      simp [nodeErase, hj, ih hk]

/-- What a `registerTrack` that returns has done. -/
theorem registerTrack_inv {dbg : Bool} {m m' : TimelineModel} {track : TrackModel} {pos : Int}
    (h : registerTrack dbg m track pos = .ok m') :
    ∃ k : Nat, (k : Int) = (if pos = -1 then (m.allTracks.length : Int) else pos) ∧
      k ≤ m.allTracks.length ∧
      m'.tractor = insertAt m.nextNode k m.tractor ∧
      m'.allTracks = insertAt (m.nextNode, track) k m.allTracks ∧
      m'.iteratorTable = mapAssign track.id m.nextNode m.iteratorTable ∧
      m'.nextNode = m.nextNode + 1 ∧ m'.allClips = m.allClips ∧
      m'.groups = m.groups ∧ m'.allGroups = m.allGroups := by
  unfold registerTrack at h
  simp only at h
  generalize hp : (if pos = -1 then (m.allTracks.length : Int) else pos) = p at h ⊢
  by_cases hrange : p < 0 ∨ (m.allTracks.length : Int) < p
  · rw [if_pos hrange] at h
    cases dbg <;> simp at h
  · rw [if_neg hrange] at h
    simp only [not_or, not_lt] at hrange
    have hres : m' = { m with tractor := insertAt m.nextNode p.toNat m.tractor,
                              allTracks := insertAt (m.nextNode, track) p.toNat m.allTracks,
                              iteratorTable := mapAssign track.id m.nextNode m.iteratorTable,
                              nextNode := m.nextNode + 1 } := by
      split_ifs at h
      simp only [Except.ok.injEq] at h
      exact h.symm
    subst hres
    refine ⟨p.toNat, Int.toNat_of_nonneg hrange.1, ?_, rfl, rfl, rfl, rfl, rfl, rfl, rfl⟩
    have := hrange.2
    omega

/-- What a `deregisterTrack` that returns has done. -/
theorem deregisterTrack_inv {m m' : TimelineModel} {id : Int}
    (h : deregisterTrack m id = .ok m') :
    ∃ node index, mapFind id m.iteratorTable = some node ∧
      nodeIndex node m.allTracks = some index ∧
      m'.tractor = m.tractor.eraseIdx index ∧
      m'.allTracks = nodeErase node m.allTracks ∧
      m'.iteratorTable = mapErase id m.iteratorTable ∧
      m'.nextNode = m.nextNode ∧ m'.allClips = m.allClips := by
  unfold deregisterTrack at h
  cases hn : mapFind id m.iteratorTable with
  | none => simp [hn] at h
  | some node =>
    simp only [hn] at h
    cases hi : nodeIndex node m.allTracks with
    | none => simp [hi] at h
    | some index =>
      simp only [hi, Except.ok.injEq] at h
      subst h
      exact ⟨node, index, rfl, hi, rfl, rfl, rfl, rfl, rfl⟩

/-! ## Registration and deregistration of tracks -/

theorem trackCounts_run {dbg : Bool} {r : Request}
    {s s1 : TimelineModel × Option DocUndoStack} (h0 : TrackCountsAgree s.1)
    (hr : r.freshTrackId s.1 = true) (h : r.run dbg s = .ok s1) : TrackCountsAgree s1.1 := by
  cases r with
  | registerTrack id pos =>
    obtain ⟨m', hm, rfl⟩ := map_ok_inv h
    obtain ⟨k, _, _, h1, h2, h3, _⟩ := registerTrack_inv hm
    have hnone : mapFind id s.1.iteratorTable = none := by
      simp only [Request.freshTrackId, isTrack, Bool.not_eq_true'] at hr
      cases hx : mapFind id s.1.iteratorTable with
      | none => rfl
      | some n => simp [hx] at hr
    unfold TrackCountsAgree at h0 ⊢
    have hl := length_mapAssign_of_none s.1.nextNode hnone
    simp only [h1, h2, h3, length_insertAt]
    exact ⟨by omega, by rw [hl]; omega⟩
  | deregisterTrack id =>
    obtain ⟨m', hm, rfl⟩ := map_ok_inv h
    obtain ⟨node, index, hn, hi, h1, h2, h3, _⟩ := deregisterTrack_inv hm
    unfold TrackCountsAgree at h0 ⊢
    have hlt := nodeIndex_lt hi
    have he := length_nodeErase hi
    have ht := @length_mapErase_of_some Nat id s.1.iteratorTable (by simp [hn])
    have hx : (s.1.tractor.eraseIdx index).length = s.1.tractor.length - 1 :=
      List.length_eraseIdx_of_lt (by omega)
    simp only [h1, h2, h3, hx]
    omega
  | registerClip id playtime =>
    obtain ⟨m', hm, rfl⟩ := map_ok_inv h
    unfold registerClip at hm
    simp only at hm
    split_ifs at hm
    simp only [Except.ok.injEq] at hm
    subst hm
    exact h0
  | deregisterClip id =>
    obtain ⟨m', hm, rfl⟩ := map_ok_inv h
    unfold deregisterClip at hm
    split_ifs at hm
    simp only [Except.ok.injEq] at hm
    subst hm
    exact h0
  | requestClipMove cid tid position =>
    obtain ⟨res, hm, rfl⟩ := map_ok_inv h
    obtain ⟨b, m', st'⟩ := res
    have hs := sameTracks_requestClipMove hm
    unfold TrackCountsAgree at h0 ⊢
    simp only [hs.1, hs.2.2.1, sameTracks_length hs]
    exact h0

theorem getTracksCount_of_agree (dbg : Bool) {m : TimelineModel} (h : TrackCountsAgree m) :
    getTracksCount dbg m = .ok (m.allTracks.length : Int) := by
  unfold getTracksCount
  simp [h.1]

/-- C13.  In every model reached from the empty model by a run of requests in which every
`registerTrack` is of an id that is not in the id table (a debug build asserts it), the
track count of the composition graph equals the size of the track list and the size of
the id table; so the assertions of `getTracksCount` hold and it returns the number of
registered tracks.  A `registerTrack` whose `pos` is neither `-1` nor between `0` and the
track count, and a `deregisterTrack` of an id that is not registered, do not return. -/
theorem runRequests_trackCounts (dbg : Bool) (requests : List Request)
    (stack stack' : Option DocUndoStack) (m' : TimelineModel)
    (hf : freshTrackIds dbg requests (TimelineModel.empty, stack) = true)
    (h : runRequests dbg requests (TimelineModel.empty, stack) = .ok (m', stack')) :
    TrackCountsAgree m' ∧
      getTracksCount dbg m' = .ok (m'.allTracks.length : Int) ∧
      getTracksCount dbg m' = .ok (m'.iteratorTable.length : Int) := by
  have key : ∀ (rs : List Request) (s s' : TimelineModel × Option DocUndoStack),
      TrackCountsAgree s.1 → freshTrackIds dbg rs s = true →
      runRequests dbg rs s = .ok s' → TrackCountsAgree s'.1 := by
    intro rs
    induction rs with
    | nil =>
      intro s s' h0 _ h
      simp only [runRequests, Except.ok.injEq] at h
      rw [← h]; exact h0
    | cons r rest ih =>
      intro s s' h0 hs h
      simp only [runRequests] at h
      simp only [freshTrackIds, Bool.and_eq_true] at hs
      cases hr : r.run dbg s with
      | error e => simp [hr] at h
      | ok s1 =>
        simp only [hr] at h hs
        exact ih s1 s' (trackCounts_run h0 hs.1 hr) hs.2 h
  have hagree := key requests (TimelineModel.empty, stack) (m', stack') ⟨rfl, rfl⟩ hf h
  refine ⟨hagree, getTracksCount_of_agree dbg hagree, ?_⟩
  rw [getTracksCount_of_agree dbg hagree, hagree.2]

theorem runRequests_trackCounts_witness :
    freshTrackIds true (populateRequests ++ [Request.deregisterTrack 0])
      (TimelineModel.empty, some []) = true ∧
    ∃ m' stack', runRequests true (populateRequests ++ [Request.deregisterTrack 0])
        (TimelineModel.empty, some []) = .ok (m', stack') ∧
      TrackCountsAgree m' ∧
      getTracksCount true m' = .ok (m'.allTracks.length : Int) ∧
      getTracksCount true m' = .ok (m'.iteratorTable.length : Int) :=
  ⟨rfl, { populated with tractor := [1], allTracks := [(1, ⟨1, [⟨3, 50, 100⟩]⟩)],
                         iteratorTable := [(1, 1)] }, _, rfl,
    runRequests_trackCounts true (populateRequests ++ [Request.deregisterTrack 0])
      (some []) _ _ rfl rfl⟩

theorem getElem?_insertAt {α : Type} (x : α) (k : Nat) (l : List α) (hk : k ≤ l.length) :
    (insertAt x k l)[k]? = some x := by
  induction k generalizing l with
  | zero => simp [insertAt]
  | succ n ih =>
    cases l with
    | nil => simp at hk
    | cons y ys =>
      simp only [List.length_cons, Nat.add_le_add_iff_right] at hk
      simp [insertAt, ih ys hk]

theorem eraseIdx_insertAt {α : Type} (x : α) (k : Nat) (l : List α) (hk : k ≤ l.length) :
    (insertAt x k l).eraseIdx k = l := by
  induction k generalizing l with
  | zero => simp [insertAt]
  | succ n ih =>
    cases l with
    | nil => simp at hk
    | cons y ys =>
      simp only [List.length_cons, Nat.add_le_add_iff_right] at hk
      simp [insertAt, ih ys hk]

theorem mem_insertAt {α : Type} {x y : α} {k : Nat} {l : List α}
    (h : y ∈ insertAt x k l) : y = x ∨ y ∈ l := by
  induction k generalizing l with
  | zero => simpa [insertAt] using h
  | succ n ih =>
    cases l with
    | nil => simp [insertAt] at h; exact Or.inl h
    | cons z zs =>
      simp only [insertAt, List.mem_cons] at h
      rcases h with h | h
      · exact Or.inr (by simp [h])
      · rcases ih h with h' | h'
        · exact Or.inl h'
        · exact Or.inr (by simp [h'])

theorem nodeFind_insertAt {node n0 : Nat} (hne : node ≠ n0) (t : TrackModel) (k : Nat)
    (l : List (Nat × TrackModel)) :
    nodeFind node (insertAt (n0, t) k l) = nodeFind node l := by
  have hne' : ¬ n0 = node := fun e => hne e.symm
  induction k generalizing l with
  | zero => simp [insertAt, nodeFind, hne']
  | succ n ih =>
    cases l with
    | nil => simp [insertAt, nodeFind, hne']
    | cons z zs =>
      obtain ⟨j, v⟩ := z
      by_cases hj : j = node <;> simp [insertAt, nodeFind, hj, ih]

theorem mem_nodeErase {node : Nat} {l : List (Nat × TrackModel)} {x : Nat × TrackModel}
    (h : x ∈ nodeErase node l) : x ∈ l := by
  induction l with
  | nil => simp [nodeErase] at h
  | cons y ys ih =>
    obtain ⟨j, w⟩ := y
    by_cases hj : j = node
    · simp only [nodeErase, hj, if_true] at h
      simp [h]
    · simp only [nodeErase, hj, if_false, List.mem_cons] at h
      rcases h with h | h
      · simp [h]
      · simp [ih h]

theorem registerTrack_of_fresh (dbg : Bool) (m : TimelineModel) (track : TrackModel)
    (pos : Int) (k : Nat)
    (hk : (k : Int) = (if pos = -1 then (m.allTracks.length : Int) else pos))
    (hle : k ≤ m.allTracks.length) (hfresh : isTrack m track.id = false) :
    registerTrack dbg m track pos =
      .ok { m with tractor := insertAt m.nextNode k m.tractor,
                   allTracks := insertAt (m.nextNode, track) k m.allTracks,
                   iteratorTable := mapAssign track.id m.nextNode m.iteratorTable,
                   nextNode := m.nextNode + 1 } := by
  unfold registerTrack
  simp only [isTrack] at hfresh
  simp only [← hk, hfresh]
  have h1 : ¬ ((k : Int) < 0 ∨ (m.allTracks.length : Int) < (k : Int)) := by omega
  rw [if_neg h1]
  simp

/-- C14.  `registerTrack(track, pos)` of a track whose id is not in the id table, with
`0 <= pos <= n` for the track count `n`, or `pos = -1`, returns; the new track is at index
`pos` of the track list, at index `n` for `pos = -1`; the list without the element at this
index is the list before the call, so the tracks registered before keep their relative
order; and every id registered before resolves through `getTrackById` and
`getTrackById_const` to the same list node and the same track as before. -/
theorem registerTrack_order (dbg : Bool) (m : TimelineModel) (track : TrackModel) (pos : Int)
    (hfresh : isTrack m track.id = false) (halloc : NodesAllocated m)
    (hpos : pos = -1 ∨ (0 ≤ pos ∧ pos ≤ (m.allTracks.length : Int))) :
    ∃ (m' : TimelineModel) (k : Nat), registerTrack dbg m track pos = .ok m' ∧
      (k : Int) = (if pos = -1 then (m.allTracks.length : Int) else pos) ∧
      (m'.allTracks[k]?).map Prod.snd = some track ∧
      m'.allTracks.eraseIdx k = m.allTracks ∧
      ∀ id, isTrack m id = true →
        getTrackById dbg m' id = getTrackById dbg m id ∧
        getTrackById_const dbg m' id = getTrackById_const dbg m id := by
  obtain ⟨k, hk, hle⟩ : ∃ k : Nat,
      (k : Int) = (if pos = -1 then (m.allTracks.length : Int) else pos) ∧
      k ≤ m.allTracks.length := by
    rcases hpos with h | ⟨h1, h2⟩
    · exact ⟨m.allTracks.length, by simp [h], le_refl _⟩
    · by_cases hm1 : pos = -1
      · omega
      · exact ⟨pos.toNat, by simp [hm1, Int.toNat_of_nonneg h1], by omega⟩
  refine ⟨_, k, registerTrack_of_fresh dbg m track pos k hk hle hfresh, hk, ?_, ?_, ?_⟩
  · simp [getElem?_insertAt _ k _ hle]
  · exact eraseIdx_insertAt _ k _ hle
  · intro id hid
    simp only [isTrack] at hid hfresh
    have hne : id ≠ track.id := by
      intro e; rw [e, hfresh] at hid; simp at hid
    cases hn : mapFind id m.iteratorTable with
    | none => simp [hn] at hid
    | some node =>
      have hlt : node < m.nextNode := halloc.2 (id, node) (mapFind_mem hn)
      have hnode : nodeFind node (insertAt (m.nextNode, track) k m.allTracks) =
          nodeFind node m.allTracks := nodeFind_insertAt (by omega) track k m.allTracks
      simp [getTrackById, getTrackById_const, mapFind_mapAssign, hne, hn, hnode]

theorem registerTrack_order_witness :
    isTrack populated 7 = false ∧ NodesAllocated populated ∧
    ∃ (m' : TimelineModel) (k : Nat), registerTrack true populated ⟨7, []⟩ 1 = .ok m' ∧
      (k : Int) = (if (1 : Int) = -1 then (populated.allTracks.length : Int) else 1) ∧
      (m'.allTracks[k]?).map Prod.snd = some ⟨7, []⟩ ∧
      m'.allTracks.eraseIdx k = populated.allTracks ∧
      ∀ id, isTrack populated id = true →
        getTrackById true m' id = getTrackById true populated id ∧
        getTrackById_const true m' id = getTrackById_const true populated id :=
  ⟨rfl, by decide,
    registerTrack_order true populated ⟨7, []⟩ 1 rfl (by decide) (Or.inr (by decide))⟩

theorem nodesAllocated_run {dbg : Bool} {r : Request}
    {s s1 : TimelineModel × Option DocUndoStack} (h0 : NodesAllocated s.1)
    (h : r.run dbg s = .ok s1) : NodesAllocated s1.1 := by
  cases r with
  | registerTrack id pos =>
    obtain ⟨m', hm, rfl⟩ := map_ok_inv h
    obtain ⟨k, _, _, _, h2, h3, h4, _⟩ := registerTrack_inv hm
    unfold NodesAllocated at h0 ⊢
    simp only [h2, h3, h4]
    constructor
    · intro nt hnt
      rcases mem_insertAt hnt with rfl | hmem
      · exact Nat.lt_succ_self _
      · exact Nat.lt_succ_of_lt (h0.1 nt hmem)
    · intro e he
      rcases mem_mapAssign he with hmem | rfl
      · exact Nat.lt_succ_of_lt (h0.2 e hmem)
      · exact Nat.lt_succ_self _
  | deregisterTrack id =>
    obtain ⟨m', hm, rfl⟩ := map_ok_inv h
    obtain ⟨node, index, _, _, _, h2, h3, h4, _⟩ := deregisterTrack_inv hm
    unfold NodesAllocated at h0 ⊢
    simp only [h2, h3, h4]
    exact ⟨fun nt hnt => h0.1 nt (mem_nodeErase hnt), fun e he => h0.2 e (mem_mapErase he)⟩
  | registerClip id playtime =>
    obtain ⟨m', hm, rfl⟩ := map_ok_inv h
    unfold registerClip at hm
    simp only at hm
    split_ifs at hm
    simp only [Except.ok.injEq] at hm
    subst hm
    exact h0
  | deregisterClip id =>
    obtain ⟨m', hm, rfl⟩ := map_ok_inv h
    unfold deregisterClip at hm
    split_ifs at hm
    simp only [Except.ok.injEq] at hm
    subst hm
    exact h0
  | requestClipMove cid tid position =>
    obtain ⟨res, hm, rfl⟩ := map_ok_inv h
    obtain ⟨b, m', st'⟩ := res
    have hs := sameTracks_requestClipMove hm
    unfold NodesAllocated at h0 ⊢
    simp only [hs.2.2.1, hs.2.2.2]
    refine ⟨fun nt hnt => ?_, h0.2⟩
    have hmem : (nt.1, nt.2.id) ∈ m'.allTracks.map (fun nt => (nt.1, nt.2.id)) :=
      List.mem_map.mpr ⟨nt, hnt, rfl⟩
    rw [hs.2.1] at hmem
    obtain ⟨nt0, hnt0, he⟩ := List.mem_map.mp hmem
    have : nt0.1 = nt.1 := (Prod.mk.inj he).1
    rw [← this]
    exact h0.1 nt0 hnt0

/-- Every model reached from the empty model by a run of requests has its list nodes
handed out before `nextNode`. -/
theorem runRequests_nodesAllocated (dbg : Bool) (requests : List Request)
    (stack stack' : Option DocUndoStack) (m' : TimelineModel)
    (h : runRequests dbg requests (TimelineModel.empty, stack) = .ok (m', stack')) :
    NodesAllocated m' := by
  have key : ∀ (rs : List Request) (s s' : TimelineModel × Option DocUndoStack),
      NodesAllocated s.1 → runRequests dbg rs s = .ok s' → NodesAllocated s'.1 := by
    intro rs
    induction rs with
    | nil =>
      intro s s' h0 h
      simp only [runRequests, Except.ok.injEq] at h
      rw [← h]; exact h0
    | cons r rest ih =>
      intro s s' h0 h
      simp only [runRequests] at h
      cases hr : r.run dbg s with
      | error e => simp [hr] at h
      | ok s1 =>
        simp only [hr] at h
        exact ih s1 s' (nodesAllocated_run h0 hr) h
  exact key requests (TimelineModel.empty, stack) (m', stack')
    ⟨by intro nt hnt; simp [TimelineModel.empty] at hnt,
     by intro e he; simp [TimelineModel.empty] at he⟩ h

/-! ## Ids -/

theorem wrapInt32_of_range {x : Int} (h1 : -2147483648 ≤ x) (h2 : x < 2147483648) :
    wrapInt32 x = x := by
  unfold wrapInt32
  omega

theorem getNextIds_eq (count : Nat) (n : Int) (h0 : 0 ≤ n)
    (h : n + count ≤ 2147483648) :
    getNextIds count n = (List.range count).map (fun (i : Nat) => n + (i : Int)) := by
  induction count generalizing n with
  | zero => simp [getNextIds]
  | succ c ih =>
    push_cast at h
    rw [List.range_succ_eq_map, List.map_cons, List.map_map]
    simp only [getNextIds, getNextId]
    by_cases hc : c = 0
    · subst hc; simp [getNextIds]
    · have hw : wrapInt32 (n + 1) = n + 1 := wrapInt32_of_range (by omega) (by omega)
      rw [hw, ih (n + 1) (by omega) (by omega)]
      congr 1
      · simp
      · apply List.map_congr_left
        intro i _
        simp only [Function.comp, Nat.cast_succ]
        omega

theorem isSome_mapFind_mapErase {α : Type} {k k' : Int} {l : List (Int × α)}
    (h : (mapFind k (mapErase k' l)).isSome = true) : (mapFind k l).isSome = true := by
  induction l with
  | nil => simp [mapErase, mapFind] at h
  | cons x xs ih =>
    obtain ⟨j, w⟩ := x
    by_cases hj : j = k'
    · simp only [mapErase, hj, if_true] at h
      by_cases hk : j = k
      · simp [mapFind, hk]
      · simp [mapFind, hk, h]
    · simp only [mapErase, hj, if_false] at h
      by_cases hk : j = k
      · simp [mapFind, hk]
      · simp only [mapFind, hk, if_false] at h ⊢
        exact ih h

/-- The ids a request can add to the registries: a clip id only by `registerClip`, a track
id only by `registerTrack`. -/
theorem ids_after_run {dbg : Bool} {r : Request}
    {s s1 : TimelineModel × Option DocUndoStack} (h : r.run dbg s = .ok s1) (x : Int) :
    (isClip s1.1 x = true → isClip s.1 x = true ∨ ∃ playtime, r = .registerClip x playtime) ∧
    (isTrack s1.1 x = true → isTrack s.1 x = true ∨ ∃ pos, r = .registerTrack x pos) := by
  cases r with
  | registerTrack id pos =>
    obtain ⟨m', hm, rfl⟩ := map_ok_inv h
    obtain ⟨h1, h2⟩ := registerTrack_ok hm
    simp only [isClip, isTrack, h1, h2, mapFind_mapAssign]
    refine ⟨fun hc => Or.inl hc, fun ht => ?_⟩
    by_cases hx : x = id
    · exact Or.inr ⟨pos, by rw [hx]⟩
    · simp only [hx, if_false] at ht
      exact Or.inl ht
  | deregisterTrack id =>
    obtain ⟨m', hm, rfl⟩ := map_ok_inv h
    obtain ⟨h1, h2⟩ := deregisterTrack_ok hm
    simp only [isClip, isTrack, h1, h2]
    exact ⟨fun hc => Or.inl hc, fun ht => Or.inl (isSome_mapFind_mapErase ht)⟩
  | registerClip id playtime =>
    obtain ⟨m', hm, rfl⟩ := map_ok_inv h
    obtain ⟨h1, h2⟩ := registerClip_ok hm
    simp only [isClip, isTrack, h1, h2, mapFind_mapAssign]
    refine ⟨fun hc => ?_, fun ht => Or.inl ht⟩
    by_cases hx : x = id
    · exact Or.inr ⟨playtime, by rw [hx]⟩
    · simp only [hx, if_false] at hc
      exact Or.inl hc
  | deregisterClip id =>
    obtain ⟨m', hm, rfl⟩ := map_ok_inv h
    obtain ⟨h1, h2⟩ := deregisterClip_ok hm
    simp only [isClip, isTrack, h1, h2]
    exact ⟨fun hc => Or.inl (isSome_mapFind_mapErase hc), fun ht => Or.inl ht⟩
  | requestClipMove cid tid position =>
    obtain ⟨res, hm, rfl⟩ := map_ok_inv h
    obtain ⟨b, m', st'⟩ := res
    have hs := sameTracks_requestClipMove hm
    simp only [isClip, isTrack, hs.2.2.1]
    refine ⟨fun hc => Or.inl ?_, fun ht => Or.inl ht⟩
    cases b with
    | false => rw [(requestClipMove_false_frame hm).1] at hc; exact hc
    | true =>
      obtain ⟨clip, u1, r1, m1, u2, r2, m2, _, hd, hi, hm', _⟩ := requestClipMove_true_inv hm
      subst hm'
      simp only [setCurrentTrackId, mapFind_mapModify, (insertion_frame hi).1,
        (deletion_frame hd).1] at hc
      split at hc
      · cases hx : mapFind x s.1.allClips with
        | none => simp [hx] at hc
        | some c => rfl
      · exact hc

theorem ids_after_call {dbg : Bool} {c : Call}
    {s s1 : Int × TimelineModel × Option DocUndoStack}
    (hn : 0 ≤ s.1) (hlt : s.1 < 2147483647) (h : c.run dbg s = .ok s1) (x : Int) :
    s.1 ≤ s1.1 ∧ s1.1 ≤ s.1 + 1 ∧
    (isClip s1.2.1 x = true → isClip s.2.1 x = true ∨
      (x = s.1 ∧ s1.1 = s.1 + 1 ∧ ∃ playtime, c = .constructClip playtime)) ∧
    (isTrack s1.2.1 x = true → isTrack s.2.1 x = true ∨
      (x = s.1 ∧ s1.1 = s.1 + 1 ∧ ∃ pos, c = .constructTrack pos)) := by
  have hw : wrapInt32 (s.1 + 1) = s.1 + 1 := wrapInt32_of_range (by omega) (by omega)
  cases c with
  | constructTrack pos =>
    obtain ⟨s', hr, rfl⟩ := map_ok_inv h
    obtain ⟨hc, ht⟩ := ids_after_run hr x
    simp only [getNextId, hw]
    refine ⟨by omega, le_refl _, fun h1 => ?_, fun h1 => ?_⟩
    · rcases hc h1 with h2 | ⟨_, h2⟩
      · exact Or.inl h2
      · cases h2
    · rcases ht h1 with h2 | ⟨_, h2⟩
      · exact Or.inl h2
      · simp only [getNextId, Request.registerTrack.injEq] at h2
        exact Or.inr ⟨h2.1.symm, trivial, pos, rfl⟩
  | constructClip playtime =>
    obtain ⟨s', hr, rfl⟩ := map_ok_inv h
    obtain ⟨hc, ht⟩ := ids_after_run hr x
    simp only [getNextId, hw]
    refine ⟨by omega, le_refl _, fun h1 => ?_, fun h1 => ?_⟩
    · rcases hc h1 with h2 | ⟨_, h2⟩
      · exact Or.inl h2
      · simp only [getNextId, Request.registerClip.injEq] at h2
        exact Or.inr ⟨h2.1.symm, trivial, playtime, rfl⟩
    · rcases ht h1 with h2 | ⟨_, h2⟩
      · exact Or.inl h2
      · cases h2
  | deregisterTrack id =>
    obtain ⟨s', hr, rfl⟩ := map_ok_inv h
    obtain ⟨hc, ht⟩ := ids_after_run hr x
    refine ⟨le_refl _, by simp, fun h1 => ?_, fun h1 => ?_⟩
    · rcases hc h1 with h2 | ⟨_, h2⟩
      · exact Or.inl h2
      · cases h2
    · rcases ht h1 with h2 | ⟨_, h2⟩
      · exact Or.inl h2
      · cases h2
  | deregisterClip id =>
    obtain ⟨s', hr, rfl⟩ := map_ok_inv h
    obtain ⟨hc, ht⟩ := ids_after_run hr x
    refine ⟨le_refl _, by simp, fun h1 => ?_, fun h1 => ?_⟩
    · rcases hc h1 with h2 | ⟨_, h2⟩
      · exact Or.inl h2
      · cases h2
    · rcases ht h1 with h2 | ⟨_, h2⟩
      · exact Or.inl h2
      · cases h2
  | requestClipMove cid tid position =>
    obtain ⟨s', hr, rfl⟩ := map_ok_inv h
    obtain ⟨hc, ht⟩ := ids_after_run hr x
    refine ⟨le_refl _, by simp, fun h1 => ?_, fun h1 => ?_⟩
    · rcases hc h1 with h2 | ⟨_, h2⟩
      · exact Or.inl h2
      · cases h2
    · rcases ht h1 with h2 | ⟨_, h2⟩
      · exact Or.inl h2
      · cases h2

/-- C15.  Below the overflow of the 32-bit counter, `getNextId` returns the value of
`next_id` and raises it by one; from the initial value `0` the successive calls return
`0, 1, 2, ...`, each one more than the call before, and no two the same.  In every model
reached from the empty model by a run of at most `2^31 - 1` calls in which tracks and
clips are made by the factories, which take the id from `getNextId`, no id is both in the
clip registry and in the track registry. -/
theorem getNextId_ids :
    (∀ n : Int, 0 ≤ n → n < 2147483647 → getNextId n = (n, n + 1)) ∧
    (∀ count : Nat, count ≤ 2147483648 →
      getNextIds count 0 = (List.range count).map (fun (i : Nat) => (i : Int)) ∧
      (getNextIds count 0).Nodup) ∧
    (∀ (dbg : Bool) (calls : List Call) (stack stack' : Option DocUndoStack) (n' : Int)
        (m' : TimelineModel), calls.length ≤ 2147483647 →
      runCalls dbg calls (0, TimelineModel.empty, stack) = .ok (n', m', stack') →
      ∀ id, ¬ (isClip m' id = true ∧ isTrack m' id = true)) := by
  refine ⟨?_, ?_, ?_⟩
  · intro n h0 h1
    simp only [getNextId, wrapInt32_of_range (show -2147483648 ≤ n + 1 by omega)
      (show n + 1 < 2147483648 by omega)]
  · intro count hc
    have heq := getNextIds_eq count 0 (le_refl _) (by omega)
    simp only [zero_add] at heq
    refine ⟨heq, ?_⟩
    rw [heq]
    exact List.Nodup.map (fun a b hab => Int.ofNat.inj hab) (List.nodup_range count)
  · intro dbg calls stack stack' n' m' hlen h
    have key : ∀ (cs : List Call) (s s' : Int × TimelineModel × Option DocUndoStack),
        0 ≤ s.1 → s.1 + cs.length ≤ 2147483647 →
        (∀ x, isClip s.2.1 x = true → x < s.1) →
        (∀ x, isTrack s.2.1 x = true → x < s.1) →
        (∀ x, ¬ (isClip s.2.1 x = true ∧ isTrack s.2.1 x = true)) →
        runCalls dbg cs s = .ok s' →
        ∀ x, ¬ (isClip s'.2.1 x = true ∧ isTrack s'.2.1 x = true) := by
      intro cs
      induction cs with
      | nil =>
        intro s s' _ _ _ _ hd h
        simp only [runCalls, Except.ok.injEq] at h
        rw [← h]; exact hd
      | cons c rest ih =>
        intro s s' h0 hb hcl htr hd h
        simp only [runCalls] at h
        simp only [List.length_cons] at hb
        push_cast at hb
        cases hr : c.run dbg s with
        | error e => simp [hr] at h
        | ok s1 =>
          simp only [hr] at h
          have hstep := ids_after_call h0 (by omega) hr
          have hmono := (hstep 0).1
          have hup := (hstep 0).2.1
          refine ih s1 s' (by omega) (by omega) ?_ ?_ ?_ h
          · intro x hx
            rcases (hstep x).2.2.1 hx with h1 | ⟨h1, _, _⟩
            · have := hcl x h1; omega
            · omega
          · intro x hx
            rcases (hstep x).2.2.2 hx with h1 | ⟨h1, h2, _⟩
            · have := htr x h1; omega
            · omega
          · intro x ⟨hx1, hx2⟩
            rcases (hstep x).2.2.1 hx1 with h1 | ⟨h1, _, p, hp⟩
            · rcases (hstep x).2.2.2 hx2 with h2 | ⟨h2, _, _⟩
              · exact hd x ⟨h1, h2⟩
              · have := hcl x h1; omega
            · rcases (hstep x).2.2.2 hx2 with h2 | ⟨_, _, q, hq⟩
              · have := htr x h2; omega
              · rw [hp] at hq; cases hq
    exact key calls (0, TimelineModel.empty, stack) (n', m', stack') (le_refl _)
      (by simp only [zero_add]; exact_mod_cast hlen)
      (by intro x hx; simp [isClip, TimelineModel.empty, mapFind] at hx)
      (by intro x hx; simp [isTrack, TimelineModel.empty, mapFind] at hx)
      (by intro x ⟨hx, _⟩; simp [isClip, TimelineModel.empty, mapFind] at hx) h

theorem getNextId_ids_witness :
    getNextIds 4 0 = [0, 1, 2, 3] ∧
    ∃ stack', runCalls true
        [Call.constructTrack (-1), Call.constructTrack (-1), Call.constructClip 100,
          Call.constructClip 100, Call.requestClipMove 2 0 100, Call.requestClipMove 3 1 50]
        (0, TimelineModel.empty, some []) = .ok (4, populated, stack') ∧
      ∀ id, ¬ (isClip populated id = true ∧ isTrack populated id = true) := by
  obtain ⟨stack', h⟩ : ∃ stack', runCalls true
      [Call.constructTrack (-1), Call.constructTrack (-1), Call.constructClip 100,
        Call.constructClip 100, Call.requestClipMove 2 0 100, Call.requestClipMove 3 1 50]
      (0, TimelineModel.empty, some []) = .ok (4, populated, stack') := ⟨_, rfl⟩
  exact ⟨(getNextId_ids.2.1 4 (by decide)).1, stack', h,
    getNextId_ids.2.2 true _ (some []) stack' 4 populated (by decide) h⟩

/-! ## The read accessors and the tree projection -/

/-- C17.  With one empty track `T1` and the clips `C1` of duration `100` and `C2` of
duration `10`, in both builds: `requestClipMove(C1, T1, 100)` returns `true`;
`requestClipMove(C2, T1, 150)` returns `false` and leaves the model as it is, `C2` with
track id `-1` and on no track; `requestClipMove(C2, T1, 200)` returns `true`; and
`duration()` is then `210`. -/
theorem scenario_duration (dbg : Bool) :
    (runRequests dbg [.registerTrack 0 (-1), .registerClip 1 100, .registerClip 2 10]
      (TimelineModel.empty, some [])).map Prod.fst = .ok scenarioStart ∧
    ∃ e1 e2,
      requestClipMove dbg scenarioStart (some []) 1 0 100 = .ok (true, scenarioFirst, some [e1]) ∧
      requestClipMove dbg scenarioFirst (some [e1]) 2 0 150 =
        .ok (false, scenarioFirst, some [e1]) ∧
      mapFind 2 scenarioFirst.allClips = some ⟨2, -1, 10⟩ ∧
      (∀ nt ∈ scenarioFirst.allTracks, findPlacement 2 nt.2.placements = none) ∧
      requestClipMove dbg scenarioFirst (some [e1]) 2 0 200 =
        .ok (true, scenarioEnd, some [e2, e1]) ∧
      duration scenarioEnd = 210 := by
  cases dbg
  · exact ⟨rfl, _, _, rfl, rfl, rfl, by decide, rfl, rfl⟩
  · exact ⟨rfl, _, _, rfl, rfl, rfl, by decide, rfl, rfl⟩

theorem getElem?_cast_toNat {α : Type} (l : List α) (k : Nat) :
    l[((k : Int)).toNat]? = l[k]? := by
  simp

/-- C16.  In a model whose track counts agree, for every row with
`0 <= row < getTracksCount()`, `index(row, 0, root)` is a valid node at that row and column
`0` whose internal id is the id of the track at index `row` of the track list; and for
every column above `0`, whatever the row and the parent, `index` is the node
`QModelIndex()`, which is not valid. -/
theorem index_of_row (dbg : Bool) (m : TimelineModel) :
    (∀ (row count : Int) (root : QModelIndex), TrackCountsAgree m → root.isValid = false →
      getTracksCount dbg m = .ok count → 0 ≤ row → row < count →
      ∃ nt, m.allTracks[row.toNat]? = some nt ∧
        index dbg m row 0 root = .ok ⟨row, 0, nt.2.id, true⟩ ∧
        (QModelIndex.mk row 0 nt.2.id true).isValid = true) ∧
    (∀ (row column : Int) (parent : QModelIndex), column > 0 →
      index dbg m row column parent = .ok QModelIndex.none ∧
      QModelIndex.none.isValid = false) := by
  constructor
  · intro row count root hag hroot hcount h0 h1
    rw [getTracksCount_of_agree dbg hag] at hcount
    simp only [Except.ok.injEq] at hcount
    subst hcount
    have hlt : row.toNat < m.allTracks.length := by omega
    refine ⟨m.allTracks[row.toNat], List.getElem?_eq_getElem hlt, ?_, ?_⟩
    · unfold index
      simp only [gt_iff_lt, lt_self_iff_false, if_false, hroot, Bool.false_eq_true,
        getTracksCount_of_agree dbg hag, h1, if_true, not_lt.mpr h0,
        List.getElem?_eq_getElem hlt, createIndex]
    · simp [QModelIndex.isValid, h0]
  · intro row column parent hc
    exact ⟨by simp [index, hc], rfl⟩

theorem index_of_row_witness :
    TrackCountsAgree populated ∧ getTracksCount true populated = .ok 2 ∧
    index true populated 1 0 QModelIndex.none = .ok ⟨1, 0, 1, true⟩ ∧
    index true populated 0 1 QModelIndex.none = .ok QModelIndex.none :=
  ⟨by decide, rfl,
    by
      obtain ⟨nt, h1, h2, _⟩ := (index_of_row true populated).1 1 2 QModelIndex.none
        (by decide) rfl rfl (by decide) (by decide)
      have : nt = (1, ⟨1, [⟨3, 50, 100⟩]⟩) := by
        have h3 : populated.allTracks[(1 : Int).toNat]? = some (1, ⟨1, [⟨3, 50, 100⟩]⟩) := rfl
        rw [h1] at h3
        exact Option.some.inj h3
      rw [this] at h2
      exact h2,
    ((index_of_row true populated).2 0 1 QModelIndex.none (by decide)).1⟩

theorem nodeIndex_of_getElem {node : Nat} {t : TrackModel} {l : List (Nat × TrackModel)}
    {i : Nat} (hn : (l.map Prod.fst).Nodup) (h : l[i]? = some (node, t)) :
    nodeIndex node l = some i := by
  induction l generalizing i with
  | nil => simp at h
  | cons x xs ih =>
    obtain ⟨j, v⟩ := x
    rw [List.map_cons, List.nodup_cons] at hn
    cases i with
    | zero =>
      simp only [List.getElem?_cons_zero, Option.some.injEq, Prod.mk.injEq] at h
      simp [nodeIndex, h.1]
    | succ k =>
      simp only [List.getElem?_cons_succ] at h
      have hmem : (node, t) ∈ xs := List.getElem?_mem h
      have hne : j ≠ node := by
        intro he
        apply hn.1
        rw [he]
        exact List.mem_map.mpr ⟨(node, t), hmem, rfl⟩
      simp [nodeIndex, hne, ih hn.2 h]

theorem getTrackById_const_of_find {dbg : Bool} {m : TimelineModel} {tid : Int} {node : Nat}
    {t : TrackModel} (h1 : mapFind tid m.iteratorTable = some node)
    (h2 : nodeFind node m.allTracks = some t) : getTrackById_const dbg m tid = .ok t := by
  simp [getTrackById_const, h1, h2]

/-- C18.  For every track at row `t` of the track list and every clip placed on it at row
`c`, the clip being in the clip registry with the track's id as its current track id (and
its id not being `-1` nor a track id): `index(t, 0, root)` is the track node
`(t, 0, track id)`, `index(c, 0, track node)` is the clip node, and `parent` of the clip
node is the track node.  And `parent` of every node whose internal id is a track id, and
of every node that is not valid, is `QModelIndex()`, which is not valid. -/
theorem parent_of_index (dbg : Bool) (m : TimelineModel) :
    (∀ (t c node : Nat) (track : TrackModel) (p : Placement) (clip : ClipModel),
      TrackCountsAgree m → (m.allTracks.map Prod.fst).Nodup →
      m.allTracks[t]? = some (node, track) →
      mapFind track.id m.iteratorTable = some node →
      track.placements[c]? = some p → p.cid ≠ -1 →
      mapFind p.cid m.allClips = some clip → clip.currentTrackId = track.id →
      isTrack m p.cid = false →
      index dbg m t 0 QModelIndex.none = .ok ⟨t, 0, track.id, true⟩ ∧
      index dbg m c 0 ⟨t, 0, track.id, true⟩ = .ok ⟨c, 0, p.cid, true⟩ ∧
      parent dbg m ⟨c, 0, p.cid, true⟩ = .ok ⟨t, 0, track.id, true⟩) ∧
    (∀ ix : QModelIndex, ix.isValid = false ∨ isTrack m ix.internalId = true →
      parent dbg m ix = .ok QModelIndex.none ∧ QModelIndex.none.isValid = false) := by
  constructor
  · intro t c node track p clip hag hnd hrow htab hpl hcid hreg hon hnt
    have hlt : t < m.allTracks.length := by
      rcases Nat.lt_or_ge t m.allTracks.length with h | h
      · exact h
      · rw [List.getElem?_eq_none h] at hrow
        exact absurd hrow (by simp)
    have hfind : nodeFind node m.allTracks = some track :=
      nodeFind_of_mem hnd (List.getElem?_mem hrow)
    have htrack : getTrackById_const dbg m track.id = .ok track :=
      getTrackById_const_of_find htab hfind
    have hisT : isTrack m track.id = true := by simp [isTrack, htab]
    have hisC : isClip m p.cid = true := by simp [isClip, hreg]
    refine ⟨?_, ?_, ?_⟩
    · have hlt2 : (t : Int) < (m.allTracks.length : Int) := by omega
      have h0 : ¬ ((t : Int) < 0) := by omega
      unfold index
      simp only [gt_iff_lt, lt_self_iff_false, if_false, QModelIndex.none, QModelIndex.isValid,
        getTracksCount_of_agree dbg hag, hlt2, if_true, h0, Int.toNat_ofNat, hrow, createIndex,
        Bool.and_false, Bool.false_eq_true]
    · have hv : (QModelIndex.mk t 0 track.id true).isValid = true := by
        simp [QModelIndex.isValid]
      have h0 : ¬ ((c : Int) < 0) := by omega
      unfold index
      simp only [gt_iff_lt, lt_self_iff_false, if_false, hv, if_true, hisT, htrack,
        TrackModel.getClipByRow, h0, Int.toNat_ofNat, hpl, createIndex, Bool.not_true,
        Bool.and_false, Bool.false_eq_true, ne_eq, hcid, not_false_eq_true]
    · have hv : (QModelIndex.mk c 0 p.cid true).isValid = true := by
        simp [QModelIndex.isValid]
      unfold parent
      simp only [hv, hnt, hisC, getClipTrackId, hreg, hon, htab,
        nodeIndex_of_getElem hnd hrow, createIndex, Bool.not_true, Bool.or_false,
        Bool.and_false, Bool.false_eq_true, if_false]
  · intro ix h
    refine ⟨?_, rfl⟩
    unfold parent
    rcases h with h | h
    · simp [h]
    · simp [h]

theorem parent_of_index_witness :
    index true populated 1 0 QModelIndex.none = .ok ⟨1, 0, 1, true⟩ ∧
    index true populated 0 0 ⟨1, 0, 1, true⟩ = .ok ⟨0, 0, 3, true⟩ ∧
    parent true populated ⟨0, 0, 3, true⟩ = .ok ⟨1, 0, 1, true⟩ ∧
    parent true populated ⟨1, 0, 1, true⟩ = .ok QModelIndex.none :=
  have h := (parent_of_index true populated).1 1 0 1 ⟨1, [⟨3, 50, 100⟩]⟩ ⟨3, 50, 100⟩
    ⟨3, 1, 100⟩ (by decide) (by decide) rfl rfl rfl (by decide) rfl rfl rfl
  ⟨h.1, h.2.1, h.2.2,
    ((parent_of_index true populated).2 ⟨1, 0, 1, true⟩ (Or.inr rfl)).1⟩

/-- C19.  `data` looks the track of a track node up by the node's row, not by its internal
id.  After `registerTrack` of tracks `0` and `1`, both at position `0`, the node of row `0`
denotes track `1` (its internal id); in both builds its name is "Track 0" and its height
is `60`, the height of track `0`, while track `1` has height `140`.  And after
`deregisterTrack(0)` on the test timeline the node of row `0` denotes track `1`, and
`data` of it looks up the id `0`, which is no track any more: the assertion fails in the
debug build and `at` throws otherwise. -/
theorem data_looks_up_row :
    (∀ dbg, (runRequests dbg [.registerTrack 0 0, .registerTrack 1 0]
        (TimelineModel.empty, some [])).map Prod.fst = .ok swappedTracks ∧
      index dbg swappedTracks 0 0 QModelIndex.none = .ok ⟨0, 0, 1, true⟩ ∧
      getTrackById_const dbg swappedTracks 1 = .ok ⟨1, []⟩ ∧
      sampleProperty "kdenlive:trackheight" ⟨1, []⟩ = 140 ∧
      data sampleProperty dbg swappedTracks ⟨0, 0, 1, true⟩ .NameRole =
        .ok (.string "Track 0") ∧
      data sampleProperty dbg swappedTracks ⟨0, 0, 1, true⟩ .HeightRole = .ok (.int 60)) ∧
    deregisterTrack populated 0 = .ok populatedSecond ∧
    (∀ dbg, index dbg populatedSecond 0 0 QModelIndex.none = .ok ⟨0, 0, 1, true⟩ ∧
      data sampleProperty dbg populatedSecond ⟨0, 0, 1, true⟩ .NameRole =
        .error (if dbg then .assertion else .outOfRange) ∧
      data sampleProperty dbg populatedSecond ⟨0, 0, 1, true⟩ .HeightRole =
        .error (if dbg then .assertion else .outOfRange)) := by
  refine ⟨?_, rfl, ?_⟩
  · intro dbg
    cases dbg
    · exact ⟨rfl, rfl, rfl, by decide, rfl, rfl⟩
    · exact ⟨rfl, rfl, rfl, by decide, rfl, rfl⟩
  · intro dbg
    cases dbg
    · exact ⟨rfl, rfl, rfl⟩
    · exact ⟨rfl, rfl, rfl⟩

/-- C20.  `rowCount` of a node that is not valid (the root) is `getTracksCount()`; of a
valid node whose internal id is a track id and not a clip id it is the clip count of that
track; of a valid node whose internal id is a clip id, or neither a clip id nor a track
id, it is `0`; and `columnCount` is `1` for every node. -/
theorem rowCount_cases (dbg : Bool) (m : TimelineModel) :
    (∀ root : QModelIndex, root.isValid = false →
      rowCount dbg m root = getTracksCount dbg m) ∧
    (∀ (ix : QModelIndex) (node : Nat) (track : TrackModel), ix.isValid = true →
      isClip m ix.internalId = false →
      mapFind ix.internalId m.iteratorTable = some node →
      nodeFind node m.allTracks = some track →
      rowCount dbg m ix = getTrackClipsCount dbg m ix.internalId ∧
      rowCount dbg m ix = .ok (track.placements.length : Int)) ∧
    (∀ ix : QModelIndex, ix.isValid = true →
      isClip m ix.internalId = true ∨ isTrack m ix.internalId = false →
      rowCount dbg m ix = .ok 0) ∧
    (∀ ix : QModelIndex, columnCount ix = 1) := by
  refine ⟨?_, ?_, ?_, fun _ => rfl⟩
  · intro root h
    simp [rowCount, h]
  · intro ix node track hv hc ht hf
    have hisT : isTrack m ix.internalId = true := by simp [isTrack, ht]
    have h1 : rowCount dbg m ix = getTrackClipsCount dbg m ix.internalId := by
      simp [rowCount, hv, hc, hisT]
    refine ⟨h1, ?_⟩
    rw [h1]
    simp [getTrackClipsCount, getTrackById_const_of_find ht hf, TrackModel.getClipsCount]
  · intro ix hv h
    rcases h with h | h
    · simp [rowCount, hv, h]
    · simp [rowCount, hv, h]

theorem rowCount_cases_witness :
    rowCount true populated QModelIndex.none = .ok 2 ∧
    rowCount true populated ⟨1, 0, 1, true⟩ = .ok 1 ∧
    rowCount true populated ⟨0, 0, 3, true⟩ = .ok 0 ∧
    rowCount true populated ⟨0, 0, 7, true⟩ = .ok 0 :=
  ⟨((rowCount_cases true populated).1 QModelIndex.none rfl).trans rfl,
    ((rowCount_cases true populated).2.1 ⟨1, 0, 1, true⟩ 1 ⟨1, [⟨3, 50, 100⟩]⟩ rfl rfl rfl
      rfl).2,
    (rowCount_cases true populated).2.2.1 ⟨0, 0, 3, true⟩ rfl (Or.inl rfl),
    (rowCount_cases true populated).2.2.1 ⟨0, 0, 7, true⟩ rfl (Or.inr rfl)⟩

/-! ## The composition graph follows the track list -/

theorem map_fst_insertAt (node : Nat) (t : TrackModel) (k : Nat) (l : List (Nat × TrackModel)) :
    (insertAt (node, t) k l).map Prod.fst = insertAt node k (l.map Prod.fst) := by
  induction k generalizing l with
  | zero => simp [insertAt]
  | succ n ih =>
    cases l with
    | nil => simp [insertAt]
    | cons y ys => simp [insertAt, ih ys]

theorem nodeErase_eq_eraseIdx {node : Nat} {l : List (Nat × TrackModel)} {i : Nat}
    (h : nodeIndex node l = some i) : nodeErase node l = l.eraseIdx i := by
  induction l generalizing i with
  | nil => simp [nodeIndex] at h
  | cons x xs ih =>
    obtain ⟨j, v⟩ := x
    by_cases hj : j = node
    · simp only [nodeIndex, hj, if_true, Option.some.injEq] at h
      subst h
      simp [nodeErase, hj]
    · simp only [nodeIndex, hj, if_false, Option.map_eq_some'] at h
      obtain ⟨k, hk, rfl⟩ := h
      simp [nodeErase, hj, ih hk]

theorem map_fst_eraseIdx (l : List (Nat × TrackModel)) (i : Nat) :
    (l.eraseIdx i).map Prod.fst = (l.map Prod.fst).eraseIdx i := by
  induction l generalizing i with
  | nil => simp
  | cons x xs ih =>
    cases i with
    | zero => simp
    | succ k => simp [ih k]

theorem graphAligned_of_sameTracks {m m' : TimelineModel} (h : SameTracks m m')
    (h0 : GraphAligned m) : GraphAligned m' := by
  unfold GraphAligned at h0 ⊢
  obtain ⟨h1, h2, _, _⟩ := h
  have h3 := congrArg (List.map Prod.fst) h2
  simp only [List.map_map] at h3
  rw [h1, h0]
  exact h3.symm

theorem graphAligned_run {dbg : Bool} {r : Request}
    {s s1 : TimelineModel × Option DocUndoStack} (h0 : GraphAligned s.1)
    (h : r.run dbg s = .ok s1) : GraphAligned s1.1 := by
  cases r with
  | registerTrack id pos =>
    obtain ⟨m', hm, rfl⟩ := map_ok_inv h
    obtain ⟨k, _, _, h1, h2, _⟩ := registerTrack_inv hm
    unfold GraphAligned at h0 ⊢
    simp only [h1, h2, map_fst_insertAt, h0]
  | deregisterTrack id =>
    obtain ⟨m', hm, rfl⟩ := map_ok_inv h
    obtain ⟨node, index, _, hi, h1, h2, _⟩ := deregisterTrack_inv hm
    unfold GraphAligned at h0 ⊢
    simp only [h1, h2, nodeErase_eq_eraseIdx hi, map_fst_eraseIdx, h0]
  | registerClip id playtime =>
    obtain ⟨m', hm, rfl⟩ := map_ok_inv h
    unfold registerClip at hm
    simp only at hm
    split_ifs at hm
    simp only [Except.ok.injEq] at hm
    subst hm
    exact h0
  | deregisterClip id =>
    obtain ⟨m', hm, rfl⟩ := map_ok_inv h
    unfold deregisterClip at hm
    split_ifs at hm
    simp only [Except.ok.injEq] at hm
    subst hm
    exact h0
  | requestClipMove cid tid position =>
    obtain ⟨⟨b, m', st⟩, hm, rfl⟩ := map_ok_inv h
    exact graphAligned_of_sameTracks (sameTracks_requestClipMove hm) h0

/-- C21.  `deregisterTrack(id)` of an id that the table maps to the list node at index `i`
of the track list (the nodes of the list being distinct) returns; it removes from the
composition graph the track at index `i`, from the track list the element at index `i` and
nothing else, so the other tracks keep their relative order, and from the id table the
entry of `id` and no other; and it keeps the graph index by index equal to the track list.
Hence in every model reached from the empty model by a run of requests, the track sequence
of the composition graph is, index by index, the track list. -/
theorem deregisterTrack_aligned :
    (∀ (m : TimelineModel) (id : Int) (node i : Nat) (track : TrackModel),
      (m.allTracks.map Prod.fst).Nodup → mapFind id m.iteratorTable = some node →
      m.allTracks[i]? = some (node, track) →
      ∃ m', deregisterTrack m id = .ok m' ∧
        m'.tractor = m.tractor.eraseIdx i ∧
        m'.allTracks = m.allTracks.eraseIdx i ∧
        m'.allTracks.Sublist m.allTracks ∧
        m'.allTracks.length + 1 = m.allTracks.length ∧
        m'.iteratorTable = mapErase id m.iteratorTable ∧
        (∀ other, other ≠ id →
          mapFind other m'.iteratorTable = mapFind other m.iteratorTable) ∧
        (GraphAligned m → GraphAligned m')) ∧
    (∀ (dbg : Bool) (requests : List Request) (stack stack' : Option DocUndoStack)
      (m' : TimelineModel),
      runRequests dbg requests (TimelineModel.empty, stack) = .ok (m', stack') →
      GraphAligned m') := by
  constructor
  · intro m id node i track hnd htab hrow
    have hi : nodeIndex node m.allTracks = some i := nodeIndex_of_getElem hnd hrow
    have hlt : i < m.allTracks.length := nodeIndex_lt hi
    refine ⟨{ m with iteratorTable := mapErase id m.iteratorTable,
                     tractor := m.tractor.eraseIdx i,
                     allTracks := nodeErase node m.allTracks }, ?_, rfl, ?_, ?_, ?_, rfl, ?_, ?_⟩
    · simp [deregisterTrack, htab, hi]
    · exact nodeErase_eq_eraseIdx hi
    · simp only [nodeErase_eq_eraseIdx hi]
      exact List.eraseIdx_sublist _ _
    · simp only [nodeErase_eq_eraseIdx hi, List.length_eraseIdx, hlt, if_true]
      omega
    · intro other hne
      exact mapFind_mapErase_ne (fun e => hne e) _
    · intro h0
      unfold GraphAligned at h0 ⊢
      simp only [nodeErase_eq_eraseIdx hi, map_fst_eraseIdx, h0]
  · intro dbg requests
    have key : ∀ (rs : List Request) (s s' : TimelineModel × Option DocUndoStack),
        GraphAligned s.1 → runRequests dbg rs s = .ok s' → GraphAligned s'.1 := by
      intro rs
      induction rs with
      | nil =>
        intro s s' h0 h
        simp only [runRequests, Except.ok.injEq] at h
        rw [← h]; exact h0
      | cons r rest ih =>
        intro s s' h0 h
        simp only [runRequests] at h
        cases hr : r.run dbg s with
        | error e => simp [hr] at h
        | ok s1 =>
          simp only [hr] at h
          exact ih s1 s' (graphAligned_run h0 hr) h
    intro stack stack' m' h
    exact key requests (TimelineModel.empty, stack) (m', stack') rfl h

theorem deregisterTrack_aligned_witness :
    (∃ m', deregisterTrack populated 0 = .ok m' ∧
      m'.tractor = populated.tractor.eraseIdx 0 ∧
      m'.allTracks = populated.allTracks.eraseIdx 0 ∧
      m'.allTracks.Sublist populated.allTracks ∧
      m'.allTracks.length + 1 = populated.allTracks.length ∧
      m'.iteratorTable = mapErase 0 populated.iteratorTable ∧
      (∀ other, other ≠ 0 →
        mapFind other m'.iteratorTable = mapFind other populated.iteratorTable) ∧
      (GraphAligned populated → GraphAligned m')) ∧
    GraphAligned populatedSecond :=
  ⟨deregisterTrack_aligned.1 populated 0 0 0 ⟨0, [⟨2, 100, 100⟩]⟩ (by decide) rfl rfl,
    deregisterTrack_aligned.2 true (populateRequests ++ [Request.deregisterTrack 0]) (some [])
      _ populatedSecond rfl⟩

/-- C22, at the failing input.  `index(row, 0, root)` tests `row < getTracksCount()` and
not `0 <= row`.  On the test timeline `index(-1, 0, QModelIndex())` enters the branch of
the tracks and moves the iterator one step before `cbegin()`: it steps outside the
track list, in both builds, and so for every negative row in every model whose
`getTracksCount()` returns.  For the rows from `getTracksCount()` upwards `index` is the
node `QModelIndex()`. -/
theorem index_negative_row :
    (∀ dbg, index dbg populated (-1) 0 QModelIndex.none = .error .undefined) ∧
    (∀ (dbg : Bool) (m : TimelineModel) (row count : Int) (root : QModelIndex),
      root.isValid = false → getTracksCount dbg m = .ok count → row < 0 →
      index dbg m row 0 root = .error .undefined) ∧
    (∀ (dbg : Bool) (m : TimelineModel) (row count : Int) (root : QModelIndex),
      root.isValid = false → getTracksCount dbg m = .ok count → count ≤ row →
      index dbg m row 0 root = .ok QModelIndex.none) := by
  refine ⟨?_, ?_, ?_⟩
  · intro dbg
    cases dbg <;> rfl
  · intro dbg m row count root hroot hcount hrow
    have hc : 0 ≤ count := by
      unfold getTracksCount at hcount
      simp only at hcount
      split_ifs at hcount
      simp only [Except.ok.injEq] at hcount
      omega
    have hlt : row < count := by omega
    unfold index
    simp [hroot, hcount, hlt, hrow]
  · intro dbg m row count root hroot hcount hrow
    have hlt : ¬ row < count := by omega
    unfold index
    simp [hroot, hcount, hlt]

/-! ## The id counter of the clip manager -/

theorem toInt_range (s : String) :
    -2147483648 ≤ QString.toInt s ∧ QString.toInt s ≤ 2147483647 := by
  unfold QString.toInt
  simp only
  split
  · omega
  · split_ifs with h
    · exact h
    · omega

theorem wrapInt32_pred_succ (c : Int) (h1 : -2147483648 ≤ c) (h2 : c ≤ 2147483647) :
    wrapInt32 (wrapInt32 (c + 1) - 1) = c := by
  unfold wrapInt32
  omega

theorem raiseFolderIdCounter_clipIdCounter (s : ClipManager) (gid : String) :
    (s.raiseFolderIdCounter gid).clipIdCounter = s.clipIdCounter ∧
    (s.raiseFolderIdCounter gid).clipList = s.clipList := by
  unfold ClipManager.raiseFolderIdCounter
  split_ifs <;> exact ⟨rfl, rfl⟩

theorem addClip_clipList (s : ClipManager) (clip : DocClipBase) :
    (s.addClip clip).clipList = s.clipList ++ [clip] := by
  unfold ClipManager.addClip
  simp only [(raiseFolderIdCounter_clipIdCounter _ _).2]
  unfold ClipManager.raiseClipIdCounter
  split_ifs <;> rfl

theorem addClip_clipIdCounter (s : ClipManager) (clip : DocClipBase) :
    (s.addClip clip).clipIdCounter =
      if QString.toInt clip.id ≥ s.clipIdCounter then wrapInt32 (QString.toInt clip.id + 1)
      else s.clipIdCounter := by
  unfold ClipManager.addClip
  simp only [(raiseFolderIdCounter_clipIdCounter _ _).1]
  unfold ClipManager.raiseClipIdCounter
  split_ifs <;> rfl

/-- One call without overflow keeps the counter at least `1`, at most `2^31 - 1` and above
the ids of the list, and does not lower it. -/
theorem counterAbove_run {s : ClipManager} {c : ClipCall} (hr : c.inRange s = true)
    (h0 : s.CounterAbove) (hmax : s.clipIdCounter ≤ 2147483647) :
    (c.run s).CounterAbove ∧ (c.run s).clipIdCounter ≤ 2147483647 ∧
      s.clipIdCounter ≤ (c.run s).clipIdCounter := by
  obtain ⟨h1, h2⟩ := h0
  cases c with
  | addClip clip =>
    simp only [ClipCall.inRange, decide_eq_true_eq] at hr
    have hlo := (toInt_range clip.id).1
    have hw : wrapInt32 (QString.toInt clip.id + 1) = QString.toInt clip.id + 1 :=
      wrapInt32_of_range (by omega) (by omega)
    simp only [ClipCall.run, ClipManager.CounterAbove, addClip_clipList,
      addClip_clipIdCounter, hw]
    by_cases hge : QString.toInt clip.id ≥ s.clipIdCounter
    · simp only [hge, if_true]
      refine ⟨⟨by omega, ?_⟩, by omega, by omega⟩
      intro x hx
      rcases List.mem_append.mp hx with hx | hx
      · have := h2 x hx
        omega
      · simp only [List.mem_singleton] at hx
        subst hx
        omega
    · simp only [hge, if_false]
      refine ⟨⟨h1, ?_⟩, hmax, le_refl _⟩
      intro x hx
      rcases List.mem_append.mp hx with hx | hx
      · exact h2 x hx
      · simp only [List.mem_singleton] at hx
        subst hx
        omega
  | getFreeClipId =>
    simp only [ClipCall.inRange, decide_eq_true_eq] at hr
    have hw : wrapInt32 (s.clipIdCounter + 1) = s.clipIdCounter + 1 :=
      wrapInt32_of_range (by omega) (by omega)
    simp only [ClipCall.run, ClipManager.getFreeClipId, ClipManager.CounterAbove, hw]
    refine ⟨⟨by omega, ?_⟩, by omega, by omega⟩
    intro x hx
    have := h2 x hx
    omega
  | lastClipId => exact ⟨⟨h1, h2⟩, hmax, le_refl _⟩

theorem counterAbove_runCalls (calls : List ClipCall) (s : ClipManager)
    (hr : ClipManager.inRange calls s = true) (h0 : s.CounterAbove)
    (hmax : s.clipIdCounter ≤ 2147483647) :
    (ClipManager.runCalls calls s).CounterAbove ∧
      (ClipManager.runCalls calls s).clipIdCounter ≤ 2147483647 ∧
      s.clipIdCounter ≤ (ClipManager.runCalls calls s).clipIdCounter := by
  induction calls generalizing s with
  | nil => exact ⟨h0, hmax, le_refl _⟩
  | cons c rest ih =>
    simp only [ClipManager.inRange, Bool.and_eq_true] at hr
    obtain ⟨a, b, d⟩ := counterAbove_run hr.1 h0 hmax
    obtain ⟨a', b', d'⟩ := ih (c.run s) hr.2 a b
    exact ⟨a', b', le_trans d d'⟩

/-- C23, as stated, fails at `int` overflow.  A clip whose id has the value `2^31 - 1`,
added to a new manager, takes the counter to `-2^31`: below `1` and below the id. -/
theorem addClip_counter_wraps :
    QString.toInt "2147483647" = 2147483647 ∧
    (ClipManager.runCalls [.addClip ⟨"2147483647", ""⟩] ClipManager.new).clipIdCounter =
      -2147483648 ∧
    ¬ (ClipManager.runCalls [.addClip ⟨"2147483647", ""⟩] ClipManager.new).CounterAbove := by
  decide

/-- C23, amended.  In every state `s` of a clip manager reached from construction by
calls of `addClip`, `getFreeClipId` and `lastClipId` without `int` overflow (every added
clip has an id of value below `2^31 - 1`, and `getFreeClipId` is called with the counter
below `2^31 - 1`): the counter is at least `1` and above the value of the id of every clip
of the list; the id `getFreeClipId` returns is the value of the id of no clip of the list;
a later `getFreeClipId`, after further such calls, returns a greater id; and `lastClipId()`
right after `getFreeClipId()` returns the id just handed out. -/
theorem clipIdCounter_above (calls : List ClipCall) (s : ClipManager)
    (hs : s = ClipManager.runCalls calls ClipManager.new)
    (hr : ClipManager.inRange calls ClipManager.new = true) :
    s.CounterAbove ∧
    (∀ clip ∈ s.clipList, QString.toInt clip.id ≠ s.getFreeClipId.1) ∧
    (∀ later : List ClipCall,
      ClipManager.inRange (ClipCall.getFreeClipId :: later) s = true →
      s.getFreeClipId.1 <
        (ClipManager.runCalls later s.getFreeClipId.2).getFreeClipId.1) ∧
    s.getFreeClipId.2.lastClipId = s.getFreeClipId.1 := by
  have hnew : ClipManager.new.CounterAbove := by decide
  have hmaxnew : ClipManager.new.clipIdCounter ≤ 2147483647 := by decide
  obtain ⟨h1, h2, _⟩ := counterAbove_runCalls calls ClipManager.new hr hnew hmaxnew
  rw [← hs] at h1 h2
  refine ⟨h1, ?_, ?_, ?_⟩
  · intro clip hc
    have := h1.2 clip hc
    simp only [ClipManager.getFreeClipId]
    omega
  · intro later hl
    simp only [ClipManager.inRange, Bool.and_eq_true] at hl
    obtain ⟨a, b, _⟩ := counterAbove_run hl.1 h1 h2
    obtain ⟨_, _, d⟩ := counterAbove_runCalls later _ hl.2 a b
    have hlt : s.clipIdCounter < 2147483647 := by
      simpa [ClipCall.inRange] using hl.1
    have hw : wrapInt32 (s.clipIdCounter + 1) = s.clipIdCounter + 1 :=
      wrapInt32_of_range (by have := h1.1; omega) (by omega)
    simp only [ClipCall.run, ClipManager.getFreeClipId, hw] at d ⊢
    omega
  · simp only [ClipManager.getFreeClipId, ClipManager.lastClipId]
    exact wrapInt32_pred_succ _ (by have := h1.1; omega) h2

theorem clipIdCounter_above_witness :
    ClipManager.inRange [.addClip ⟨"5", ""⟩, .getFreeClipId, .lastClipId,
      .addClip ⟨"clip", "3"⟩] ClipManager.new = true ∧
    ClipManager.runCalls [.addClip ⟨"5", ""⟩, .getFreeClipId, .lastClipId,
      .addClip ⟨"clip", "3"⟩] ClipManager.new =
      ⟨[⟨"5", ""⟩, ⟨"clip", "3"⟩], 7, 4, false, [], ""⟩ ∧
    ClipManager.CounterAbove ⟨[⟨"5", ""⟩, ⟨"clip", "3"⟩], 7, 4, false, [], ""⟩ ∧
    ClipManager.lastClipId
      (ClipManager.getFreeClipId ⟨[⟨"5", ""⟩, ⟨"clip", "3"⟩], 7, 4, false, [], ""⟩).2 = 7 :=
  have h := clipIdCounter_above [.addClip ⟨"5", ""⟩, .getFreeClipId, .lastClipId,
    .addClip ⟨"clip", "3"⟩] ⟨[⟨"5", ""⟩, ⟨"clip", "3"⟩], 7, 4, false, [], ""⟩
    (by decide) (by decide)
  ⟨by decide, by decide, h.1, h.2.2.2⟩

/-! ## The lookup of a clip and the queue of audio thumbnails -/

theorem splitFields_head (sep : Char) (l : List Char) :
    ∃ fs, splitFields sep l = l.takeWhile (fun c => decide (c ≠ sep)) :: fs := by
  induction l with
  | nil => exact ⟨[], rfl⟩
  | cons c cs ih =>
    obtain ⟨fs, hfs⟩ := ih
    by_cases hc : c = sep
    · exact ⟨splitFields sep cs, by simp [splitFields, hc]⟩
    · exact ⟨fs, by simp [splitFields, hc, hfs]⟩

theorem section_first (s : String) (sep : Char) :
    (QString.section s sep 0 0).data = s.data.takeWhile (fun c => decide (c ≠ sep)) := by
  obtain ⟨fs, hfs⟩ := splitFields_head sep s.data
  simp [QString.section, hfs, List.intercalate]

theorem findClip_cases (key : String) (l : List DocClipBase) :
    (∃ pre clip post, l = pre ++ clip :: post ∧ (∀ c ∈ pre, c.id ≠ key) ∧ clip.id = key ∧
      ClipManager.findClip key l = some clip) ∨
    ((∀ c ∈ l, c.id ≠ key) ∧ ClipManager.findClip key l = none) := by
  induction l with
  | nil => exact Or.inr ⟨by simp, rfl⟩
  | cons x xs ih =>
    by_cases hx : x.id = key
    · exact Or.inl ⟨[], x, xs, rfl, by simp, hx, by simp [ClipManager.findClip, hx]⟩
    · rcases ih with ⟨pre, clip, post, h1, h2, h3, h4⟩ | ⟨h1, h2⟩
      · refine Or.inl ⟨x :: pre, clip, post, by simp [h1], ?_, h3, ?_⟩
        · intro c hc
          rcases List.mem_cons.mp hc with rfl | hc
          · exact hx
          · exact h2 c hc
        · simp [ClipManager.findClip, hx, h4]
      · refine Or.inr ⟨?_, by simp [ClipManager.findClip, hx, h2]⟩
        intro c hc
        rcases List.mem_cons.mp hc with rfl | hc
        · exact hx
        · exact h1 c hc

/-- C25.  For every string `clipId`, with `key` the string `getClipById` compares with,
`clipId.section('_', 0, 0)`: `key` has no underscore, and `clipId` is `key` when it has no
underscore and `key`, an underscore and a rest otherwise.  `getClipById(clipId)` returns
the first clip of the list whose id is `key` (no clip before it in the list has that id),
and `NULL` when no clip of the list has that id; and the manager, its list included, is as
before the call. -/
theorem getClipById_first (s : ClipManager) (clipId : String) :
    ∃ key : String, key = QString.section clipId '_' 0 0 ∧ '_' ∉ key.data ∧
      (('_' ∉ clipId.data ∧ key = clipId) ∨ ∃ rest, clipId.data = key.data ++ '_' :: rest) ∧
      ((∃ pre clip post, s.clipList = pre ++ clip :: post ∧ (∀ c ∈ pre, c.id ≠ key) ∧
          clip.id = key ∧ (s.getClipById clipId).1 = some clip) ∨
        ((∀ c ∈ s.clipList, c.id ≠ key) ∧ (s.getClipById clipId).1 = none)) ∧
      (s.getClipById clipId).2 = s := by
  refine ⟨QString.section clipId '_' 0 0, rfl, ?_, ?_, ?_, rfl⟩
  · rw [section_first]
    intro hmem
    have := List.mem_takeWhile_imp hmem
    simp at this
  · have hsplit := List.takeWhile_append_dropWhile (fun c => decide (c ≠ '_')) clipId.data
    cases hd : clipId.data.dropWhile (fun c => decide (c ≠ '_')) with
    | nil =>
      rw [hd, List.append_nil] at hsplit
      left
      have hkey : (QString.section clipId '_' 0 0).data = clipId.data := by
        rw [section_first, hsplit]
      refine ⟨?_, String.ext hkey⟩
      intro hmem
      rw [← hsplit] at hmem
      have := List.mem_takeWhile_imp hmem
      simp at this
    | cons c rest =>
      right
      have hc : c = '_' := by
        have := List.head_dropWhile_not (fun c => decide (c ≠ '_')) clipId.data
          (by rw [hd]; simp)
        simp only [hd, List.head_cons] at this
        simpa using this
      subst hc
      refine ⟨rest, ?_⟩
      rw [section_first, ← hd, hsplit]
  · exact findClip_cases _ _

theorem startAudioThumbsGeneration_enough (slot : DocClipBase → Bool) (queue : List String) :
    ∀ (s : ClipManager) (fuel : Nat), s.audioThumbsQueue = queue →
      2 * queue.length + 1 ≤ fuel →
      ClipManager.startAudioThumbsGeneration true slot fuel s =
        some { s with generatingAudioId := (s.pending slot).headD "",
                      audioThumbsQueue := (s.pending slot).tail } := by
  induction queue with
  | nil =>
    intro s fuel hq hf
    obtain ⟨f, rfl⟩ : ∃ f, fuel = f + 1 := ⟨fuel - 1, by omega⟩
    simp [ClipManager.startAudioThumbsGeneration, ClipManager.pending, hq]
  | cons first rest ih =>
    intro s fuel hq hf
    simp only [List.length_cons] at hf
    obtain ⟨f, rfl⟩ : ∃ f, fuel = f + 2 := ⟨fuel - 2, by omega⟩
    cases hgen : s.startsGeneration slot first with
    | true =>
      have hp : s.pending slot = first :: rest := by
        simp [ClipManager.pending, hq, List.dropWhile, hgen]
      have hclip : ∃ clip, ClipManager.findClip (QString.section first '_' 0 0) s.clipList =
          some clip ∧ slot clip = true := by
        simp only [ClipManager.startsGeneration, ClipManager.getClipById] at hgen
        cases hfind : ClipManager.findClip (QString.section first '_' 0 0) s.clipList with
        | none => simp [hfind] at hgen
        | some clip => exact ⟨clip, rfl, by simpa [hfind] using hgen⟩
      obtain ⟨clip, hfind, hslot⟩ := hclip
      simp [ClipManager.startAudioThumbsGeneration, hq, ClipManager.getClipById, hfind,
        hslot, hp]
    | false =>
      have hp : s.pending slot =
          ({ s with generatingAudioId := first, audioThumbsQueue := rest } : ClipManager).pending
            slot := by
        simp only [ClipManager.pending, hq, List.dropWhile, hgen, Bool.not_false]
        congr 1
      have hrec := ih { s with generatingAudioId := first, audioThumbsQueue := rest } f rfl
        (by omega)
      have hend : ClipManager.endAudioThumbsGeneration true slot (f + 1)
          { s with generatingAudioId := first, audioThumbsQueue := rest } first =
          some { s with generatingAudioId := (s.pending slot).headD "",
                        audioThumbsQueue := (s.pending slot).tail } := by
        cases rest with
        | nil =>
          rw [hp]
          simp [ClipManager.endAudioThumbsGeneration, ClipManager.pending]
        | cons r rs =>
          simp only [ClipManager.endAudioThumbsGeneration, Bool.not_true, Bool.false_eq_true,
            if_false, List.isEmpty_cons, Bool.not_false, if_true]
          rw [hrec, hp]
      simp only [ClipManager.startsGeneration, ClipManager.getClipById] at hgen
      cases hfind : ClipManager.findClip (QString.section first '_' 0 0) s.clipList with
      | none =>
        simp only [ClipManager.startAudioThumbsGeneration, hq, ClipManager.getClipById, hfind,
          Bool.not_true, Bool.false_eq_true, if_false]
        exact hend
      | some clip =>
        have hslot : slot clip = false := by simpa [hfind] using hgen
        simp only [ClipManager.startAudioThumbsGeneration, hq, ClipManager.getClipById, hfind,
          hslot, Bool.not_true, Bool.not_false, Bool.false_eq_true, if_false, if_true]
        exact hend

/-- C24.  With audio thumbnails enabled, `startAudioThumbsGeneration` returns for every
queue: a call depth of twice the length of the queue plus one is enough, each call of it
in the recursion with `endAudioThumbsGeneration` taking one id off the queue.  It ends at
the first queued id that starts a generation, which is then `m_generatingAudioId`, the
queue being what followed it; when no queued id starts one (its clip is missing or
`slotGetAudioThumbs()` returns `false`), it ends with an empty queue and an empty
`m_generatingAudioId`.  With audio thumbnails disabled, both functions clear the queue
and reset `m_generatingAudioId`. -/
theorem startAudioThumbsGeneration_terminates (slotGetAudioThumbs : DocClipBase → Bool)
    (s : ClipManager) :
    (∀ fuel, 2 * s.audioThumbsQueue.length + 1 ≤ fuel →
      ClipManager.startAudioThumbsGeneration true slotGetAudioThumbs fuel s =
        some { s with generatingAudioId := (s.pending slotGetAudioThumbs).headD "",
                      audioThumbsQueue := (s.pending slotGetAudioThumbs).tail } ∧
      (s.pending slotGetAudioThumbs).tail.length ≤ s.audioThumbsQueue.length ∧
      (s.audioThumbsQueue ≠ [] →
        (s.pending slotGetAudioThumbs).tail.length < s.audioThumbsQueue.length)) ∧
    ((∀ id ∈ s.audioThumbsQueue, s.startsGeneration slotGetAudioThumbs id = false) →
      ∀ fuel, 2 * s.audioThumbsQueue.length + 1 ≤ fuel →
        ClipManager.startAudioThumbsGeneration true slotGetAudioThumbs fuel s =
          some { s with generatingAudioId := "", audioThumbsQueue := [] }) ∧
    (∀ fuel requestedId,
      ClipManager.startAudioThumbsGeneration false slotGetAudioThumbs (fuel + 1) s =
        some { s with audioThumbsQueue := [], generatingAudioId := "" } ∧
      ClipManager.endAudioThumbsGeneration false slotGetAudioThumbs (fuel + 1) s requestedId =
        some { s with audioThumbsQueue := [], generatingAudioId := "" }) := by
  have hsuffix : (s.pending slotGetAudioThumbs).length ≤ s.audioThumbsQueue.length :=
    (List.dropWhile_sublist _).length_le
  refine ⟨?_, ?_, ?_⟩
  · intro fuel hf
    refine ⟨startAudioThumbsGeneration_enough slotGetAudioThumbs _ s fuel rfl hf, ?_, ?_⟩
    · rw [List.length_tail]
      omega
    · intro hne
      have : 0 < s.audioThumbsQueue.length := List.length_pos.mpr hne
      rw [List.length_tail]
      omega
  · intro hall fuel hf
    have hp : s.pending slotGetAudioThumbs = [] := by
      unfold ClipManager.pending
      rw [List.dropWhile_eq_nil_iff]
      intro id hid
      simp [hall id hid]
    have := startAudioThumbsGeneration_enough slotGetAudioThumbs _ s fuel rfl hf
    rw [hp] at this
    exact this
  · intro fuel requestedId
    exact ⟨by simp [ClipManager.startAudioThumbsGeneration],
      by simp [ClipManager.endAudioThumbsGeneration]⟩

theorem startAudioThumbsGeneration_terminates_witness :
    ClipManager.startAudioThumbsGeneration true (fun c => decide (c.id = "3")) 9 sampleManager =
      some { sampleManager with generatingAudioId := "3_2", audioThumbsQueue := ["1"] } ∧
    ClipManager.startAudioThumbsGeneration true (fun _ => false) 9 sampleManager =
      some { sampleManager with generatingAudioId := "", audioThumbsQueue := [] } :=
  ⟨((startAudioThumbsGeneration_terminates (fun c => decide (c.id = "3")) sampleManager).1 9
      (by decide)).1,
    (startAudioThumbsGeneration_terminates (fun _ => false) sampleManager).2.1
      (fun _ _ => by simp [ClipManager.startsGeneration]; split <;> rfl) 9 (by decide)⟩

end Kdenlive
